import Mathlib

/-!
# CrackWatchDiscordBot: protocol client and data normalisation

A shallow embedding of `crackwatch/crackwatch.go` (date field parser, DRM
normaliser, query encoder, receive loop, search entry point) and of
`resultsToDiscordChunks` of `main.go`, and theorems about them.

Conventions of the embedding:

* a Go `string` is its sequence of bytes (`GoString`); `len` is `List.length`;
* a Go `[]byte` received from the socket is a `ByteSlice`: its bytes and the
  number of further bytes of its buffer (capacity minus length);
* a run-time panic is an explicit `Panic` value;
* a Go `error` is `Option GoError`, `none` standing for `nil`;
* the network is a script of the results that `Dial`, `WriteMessage` and
  `ReadMessage` will give, and every call leaves a `NetOp` in a trace.
-/

namespace CrackWatch

/-! ## Go strings -/

/-- Go strings are immutable sequences of bytes. -/
abbrev GoString := List UInt8

/-- Bytes of a source literal: Go source text is UTF-8. -/
def bytes (s : String) : GoString := s.data.flatMap String.utf8EncodeChar

/-- Run-time panics the embedded code can raise. -/
inductive Panic where
  /-- Slice bounds out of range: the requested high index and the bound it
  was checked against (the length of a string, the capacity of a slice). -/
  | sliceBounds (high bound : Nat)
  /-- Slice bounds out of range: a negative index. -/
  | sliceNegative (index : Int)
deriving DecidableEq, Repr

/-- The text of a Go error value. -/
abbrev GoError := String

/-- How a call ends: it returns, it panics, or it waits for ever on a read
that the remote end never answers. -/
inductive Outcome (α : Type) where
  | returned (a : α)
  | panicked (p : Panic)
  | blocked
deriving DecidableEq, Repr

/-- Slice expression `s[:n]` on a Go string: the bound is the length. -/
def sliceTo (s : GoString) (n : Nat) : Outcome GoString :=
  if n ≤ s.length then .returned (s.take n) else .panicked (.sliceBounds n s.length)

/-- Worker of `ReplaceAll`: scans left to right; `skip` counts the bytes of a
match that was just replaced and are still to be passed over. -/
def replaceFrom (old new : GoString) : Nat → GoString → GoString
  | _, [] => []
  | skip + 1, _ :: cs => replaceFrom old new skip cs
  | 0, c :: cs =>
    if old.isPrefixOf (c :: cs) then new ++ replaceFrom old new (old.length - 1) cs
    else c :: replaceFrom old new 0 cs

/-- Go `strings.ReplaceAll(s, old, new)` for a non-empty `old` (the only use
in this program): every non-overlapping occurrence, leftmost first. -/
def ReplaceAll (s old new : GoString) : GoString := replaceFrom old new 0 s

/-- Go `strings.HasPrefix`. -/
def HasPrefix (s pre : GoString) : Bool := pre.isPrefixOf s

/-- Go `strings.HasSuffix`. -/
def HasSuffix (s suf : GoString) : Bool := suf.reverse.isPrefixOf s.reverse

/-- Go `strings.TrimPrefix`. -/
def TrimPrefix (s pre : GoString) : GoString :=
  if HasPrefix s pre then s.drop pre.length else s

/-- Go `strings.TrimSuffix`. -/
def TrimSuffix (s suf : GoString) : GoString :=
  if HasSuffix s suf then s.take (s.length - suf.length) else s

/-- Go `strings.Join`. -/
def Join : List GoString → GoString → GoString
  | [], _ => []
  | [a], _ => a
  | a :: b :: rest, sep => a ++ sep ++ Join (b :: rest) sep

/-- Code points for which Go `unicode.IsSpace` holds. -/
def spaceRunes : List Nat :=
  [0x09, 0x0a, 0x0b, 0x0c, 0x0d, 0x20, 0x85, 0xa0, 0x1680, 0x2000, 0x2001, 0x2002, 0x2003,
   0x2004, 0x2005, 0x2006, 0x2007, 0x2008, 0x2009, 0x200a, 0x2028, 0x2029, 0x202f, 0x205f,
   0x3000]

/-- UTF-8 texts of the space code points. -/
def spaceEncodings : List GoString :=
  spaceRunes.map fun n => String.utf8EncodeChar (Char.ofNat n)

/-- Removes leading texts out of `encs`, at most `fuel` of them. -/
def trimLeading (encs : List GoString) : Nat → GoString → GoString
  | 0, s => s
  | fuel + 1, s =>
    match encs.find? (fun e => e.isPrefixOf s) with
    | some e => trimLeading encs fuel (s.drop e.length)
    | none => s

/-- Go `strings.TrimSpace`: leading and trailing white space, as defined by
Unicode, is removed. A space is recognised at the front (at the back) exactly
when the string starts (ends) with its UTF-8 text. -/
def TrimSpace (s : GoString) : GoString :=
  let front := trimLeading spaceEncodings s.length s
  (trimLeading (spaceEncodings.map List.reverse) front.length front.reverse).reverse

/-- Go `strconv.Itoa`. -/
def Itoa (n : Int) : GoString := bytes (toString n)

/-! ## Date field parser -/

/-- A `time.Time` in UTC, by its calendar fields. -/
structure Time where
  year : Nat
  month : Nat
  day : Nat
  hour : Nat
  minute : Nat
  second : Nat
deriving DecidableEq, Repr

/-- The zero `time.Time{}`: 0001-01-01 00:00:00 UTC. -/
def Time.zero : Time := ⟨1, 1, 1, 0, 0, 0⟩

/-- ASCII decimal digit. -/
def isDigit (c : UInt8) : Bool := 48 ≤ c && c ≤ 57

/-- Value of an ASCII decimal digit. -/
def digitVal (c : UInt8) : Nat := c.toNat - 48

/-- Gregorian leap year, as in Go `time.isLeap`. -/
def isLeap (year : Nat) : Bool := year % 4 == 0 && (year % 100 != 0 || year % 400 == 0)

/-- Days of a month, as in Go `time.daysIn`. -/
def daysIn (month year : Nat) : Nat :=
  if month = 2 then (if isLeap year then 29 else 28)
  else if month = 4 ∨ month = 6 ∨ month = 9 ∨ month = 11 then 30
  else 31

/-- Go `time.Parse("2006-01-02", value)`: four year digits, a dash, two month
digits, a dash, two day digits and nothing else; the month must be 1..12 and
the day must exist in that month. `none` stands for a parse error. -/
def parseDate (value : GoString) : Option Time :=
  match value with
  | [y1, y2, y3, y4, s1, m1, m2, s2, d1, d2] =>
    if isDigit y1 && isDigit y2 && isDigit y3 && isDigit y4 && s1 == 45
        && isDigit m1 && isDigit m2 && s2 == 45 && isDigit d1 && isDigit d2 then
      let year := digitVal y1 * 1000 + digitVal y2 * 100 + digitVal y3 * 10 + digitVal y4
      let month := digitVal m1 * 10 + digitVal m2
      let day := digitVal d1 * 10 + digitVal d2
      if month < 1 ∨ 12 < month then none
      else if day < 1 ∨ daysIn month year < day then none
      else some ⟨year, month, day, 0, 0, 0⟩
    else none
  | _ => none

/-- Method `(*Time).UnmarshalJSON(b)`: the value stored in the receiver and the
error returned, or the panic raised. -/
def Time.UnmarshalJSON (b : GoString) : Outcome (Time × Option GoError) :=
  let timeStr := ReplaceAll b (bytes "\"") []
  if timeStr = bytes "null" ∨ timeStr.length < 10 then
    .returned (Time.zero, none)
  else
    match sliceTo timeStr 10 with
    | .panicked p => .panicked p
    | .blocked => .blocked
    | .returned head =>
      match parseDate head with
      | none => .returned (Time.zero, none)
      | some parsedTime => .returned (parsedTime, none)

/-- ASCII digit for the last decimal digit of `n`. -/
def digitByte (n : Nat) : UInt8 := UInt8.ofNat (48 + n % 10)

/-- Go `appendInt(b, x, width)` of package time for `x ≥ 0`: the decimal
digits of `n`, padded with zeros on the left up to `width`. -/
def appendInt : Nat → Nat → GoString
  | 0, n => if n = 0 then [] else bytes (toString n)
  | width + 1, n => appendInt width (n / 10) ++ [digitByte n]

/-- Method `t.Format("2006-01-02")`: year to four digits, month and day to two. -/
def Time.Format (t : Time) : GoString :=
  appendInt 4 t.year ++ [45] ++ appendInt 2 t.month ++ [45] ++ appendInt 2 t.day

/-- Method `t.IsZero()`. -/
def Time.IsZero (t : Time) : Bool := t == Time.zero

/-! ## DRM normaliser -/

/-- Lower-casing of one ASCII byte. -/
def lowerByte (c : UInt8) : UInt8 := if 65 ≤ c ∧ c ≤ 90 then c + 32 else c

/-- Go `strings.ToLower`: a string made of ASCII bytes only is lower-cased
byte by byte; any other string goes through `Map(unicode.ToLower, s)`, whose
Unicode case tables are not part of this program and come in as `mapLower`. -/
def ToLower (mapLower : GoString → GoString) (s : GoString) : GoString :=
  if s.all (fun c => c < 128) then s.map lowerByte else mapLower s

/-- Constant `DRMUnknown`. -/
def DRMUnknown : GoString := bytes "Unknown"

/-- Constant `DRMDiscCheck`. -/
def DRMDiscCheck : GoString := bytes "Disc Check"

/-- Constant `DRMNone`. -/
def DRMNone : GoString := bytes "None"

/-- Constant `DRMConsole`. -/
def DRMConsole : GoString := bytes "Console"

/-- Table `DRMNameMapping`, entry by entry in source order. -/
def DRMNameMapping : List (GoString × GoString) := [
  (bytes "", DRMUnknown),
  (bytes "-", DRMUnknown),
  (bytes "activation", DRMUnknown),
  (bytes "activision", DRMUnknown),
  (bytes "amazon", bytes "Amazon"),
  (bytes "andmicrosoftwindows", DRMUnknown),
  (bytes "arcade", DRMUnknown),
  (bytes "arcsystemworks", DRMUnknown),
  (bytes "armadillo", bytes "Armadillo"),
  (bytes "arxan", bytes "Arxan"),
  (bytes "ascgames", DRMUnknown),
  (bytes "atarisa", DRMUnknown),
  (bytes "battleeye", DRMUnknown),
  (bytes "battle.net", bytes "Battle.net"),
  (bytes "battlenet", bytes "Battle.net"),
  (bytes "battlenet-arxan", bytes "Battle.net/Arxan"),
  (bytes "bethesda", DRMUnknown),
  (bytes "bigfish", DRMUnknown),
  (bytes "blitsgames", DRMUnknown),
  (bytes "catalyst", bytes "Catalyst"),
  (bytes "cdautokey", DRMDiscCheck),
  (bytes "cd-check", DRMDiscCheck),
  (bytes "cdcheck", DRMDiscCheck),
  (bytes "cdcheck/re-index", DRMDiscCheck),
  (bytes "cd-checks", DRMDiscCheck),
  (bytes "cdchecks", DRMDiscCheck),
  (bytes "cd-cops", bytes "CD-Cops"),
  (bytes "cddilla", bytes "C-Dilla"),
  (bytes "cdilla", bytes "C-Dilla"),
  (bytes "cd-key", bytes "Serial"),
  (bytes "cd rom", DRMDiscCheck),
  (bytes "cd-rom", DRMDiscCheck),
  (bytes "codecheck", bytes "Code Check"),
  (bytes "codewheel", bytes "Code Wheel"),
  (bytes "colorcodes", bytes "Color Codes"),
  (bytes "copylock", bytes "CopyLok"),
  (bytes "copylok", bytes "CopyLok"),
  (bytes "coredesign", DRMUnknown),
  (bytes "denuvo", bytes "Denuvo"),
  (bytes "denuvo+origin", bytes "Denuvo/Origin"),
  (bytes "denuvo+uplay", bytes "Denuvo/Uplay"),
  (bytes "denuvo+vmpotect", bytes "Denuvo/VMProtect"),
  (bytes "deutschland-spielt", DRMUnknown),
  (bytes "disc check", DRMDiscCheck),
  (bytes "disccheck", DRMDiscCheck),
  (bytes "doccheck", DRMUnknown),
  (bytes "dos", DRMUnknown),
  (bytes "dreamcast", DRMConsole),
  (bytes "dreamforgeintertainment", DRMUnknown),
  (bytes "drm", DRMUnknown),
  (bytes "drm free", DRMNone),
  (bytes "drm-free", DRMNone),
  (bytes "drmfree", DRMNone),
  (bytes "drmfreegog", DRMNone),
  (bytes "dvd drm", DRMUnknown),
  (bytes "dvddrm", DRMUnknown),
  (bytes "dvd-rom", DRMUnknown),
  (bytes "eac", DRMUnknown),
  (bytes "eappx", bytes "EAppX"),
  (bytes "eidosinteractive", DRMUnknown),
  (bytes "electronicarts", DRMUnknown),
  (bytes "e-license", bytes "eLicense"),
  (bytes "epic", bytes "Epic Games"),
  (bytes "epicgames", bytes "Epic Games"),
  (bytes "false", DRMUnknown),
  (bytes "fileintegrity", bytes "File Integrity"),
  (bytes "free", DRMUnknown),
  (bytes "free2play", DRMUnknown),
  (bytes "free-to-play", DRMUnknown),
  (bytes "gamejolt", DRMNone),
  (bytes "games for windows", bytes "Games for Windows Live"),
  (bytes "gameshield", bytes "GameShield"),
  (bytes "gog", DRMNone),
  (bytes "gog.com", DRMNone),
  (bytes "gog/steam", DRMNone),
  (bytes "icantfindthisgameonanygamestoreplatform", DRMUnknown),
  (bytes "igc-dvd", DRMUnknown),
  (bytes "interactivision a/s", DRMUnknown),
  (bytes "ios/android", bytes "Mobile"),
  (bytes "ironwrap", bytes "GameShield"),
  (bytes "jowood", DRMUnknown),
  (bytes "konami", DRMUnknown),
  (bytes "laserlock", bytes "LaserLock"),
  (bytes "magnussoft", DRMUnknown),
  (bytes "microids", DRMUnknown),
  (bytes "microsoft", DRMUnknown),
  (bytes "microsoftslps", bytes "Microsoft SLPS"),
  (bytes "microsoftstore", bytes "Microsoft Store"),
  (bytes "microsoftwindows", DRMUnknown),
  (bytes "mmo", DRMUnknown),
  (bytes "moby", DRMUnknown),
  (bytes "ms-dos", DRMUnknown),
  (bytes "myswooop", DRMUnknown),
  (bytes "n/a", DRMUnknown),
  (bytes "nes", DRMConsole),
  (bytes "nintendo", DRMConsole),
  (bytes "nintendo exclusive", DRMConsole),
  (bytes "nintendoswitch", DRMConsole),
  (bytes "no-drm", DRMNone),
  (bytes "nodrm", DRMNone),
  (bytes "none", DRMNone),
  (bytes "nothing", DRMNone),
  (bytes "notspecified", DRMUnknown),
  (bytes "novalogic", DRMUnknown),
  (bytes "oculus", DRMUnknown),
  (bytes "origin", bytes "Origin"),
  (bytes "patreon", DRMUnknown),
  (bytes "pc", DRMUnknown),
  (bytes "pc-dos", DRMUnknown),
  (bytes "pc-spiel", DRMUnknown),
  (bytes "play+smile", DRMUnknown),
  (bytes "playstation3/xbox360", DRMConsole),
  (bytes "playstation/ios", DRMConsole),
  (bytes "popcap", DRMUnknown),
  (bytes "protectcd", bytes "ProtectDISC CD"),
  (bytes "protectcd8", bytes "ProtectDISC CD"),
  (bytes "protectdvd", bytes "ProtectDISC DVD"),
  (bytes "reroute", DRMUnknown),
  (bytes "re-route/size", DRMUnknown),
  (bytes "retail", DRMUnknown),
  (bytes "ring", DRMUnknown),
  (bytes "rockstar", bytes "Rockstar Social Club"),
  (bytes "safedisc", bytes "SafeDisc"),
  (bytes "safedisc2", bytes "SafeDisc v2"),
  (bytes "safedisc4", bytes "SafeDisc v4"),
  (bytes "safedisk", bytes "SafeDisc"),
  (bytes "securom", bytes "SecuROM"),
  (bytes "serial", bytes "Serial"),
  (bytes "serialnumber", bytes "Serial"),
  (bytes "solidshield", bytes "Solidshield"),
  (bytes "stadia", bytes "Google Stadia"),
  (bytes "starforce", bytes "StarForce"),
  (bytes "steam", bytes "Steam"),
  (bytes "steam/arc", bytes "Steam"),
  (bytes "steam/free", bytes "Steam"),
  (bytes "steam/origin", bytes "Steam/Origin"),
  (bytes "steam+uplay", bytes "Steam/Uplay"),
  (bytes "tlgames", DRMUnknown),
  (bytes "tages", bytes "Tagès"),
  (bytes "tbd", DRMUnknown),
  (bytes "themida", bytes "Themida"),
  (bytes "ubisoft", DRMUnknown),
  (bytes "ump", DRMUnknown),
  (bytes "unknown", DRMUnknown),
  (bytes "uplay", bytes "Uplay"),
  (bytes "uplay/denuvo", bytes "Uplay/Denuvo"),
  (bytes "uwp", bytes "UWP"),
  (bytes "uwp-arxan", bytes "UWP/Arxan"),
  (bytes "uwp/steam", bytes "UWP/Steam"),
  (bytes "valeroa", bytes "Valeroa"),
  (bytes "vista", DRMUnknown),
  (bytes "vmprotect", bytes "VMProtect"),
  (bytes "vob/protectcd", bytes "ProtectDISC CD"),
  (bytes "wildgames", DRMUnknown),
  (bytes "wildtangent", bytes "WildTangent"),
  (bytes "windows", DRMUnknown),
  (bytes "xbox", DRMConsole),
  (bytes "xboxlive", DRMConsole),
  (bytes "ysiphus", DRMUnknown),
  (bytes "zagravagames", DRMUnknown)
]

/-- Go map index `value, ok := m[key]`: an absent key gives the zero value
(the empty string) and `false`. -/
def mapIndex (m : List (GoString × GoString)) (key : GoString) : GoString × Bool :=
  match m.lookup key with
  | some value => (value, true)
  | none => ([], false)

/-- Function `NormalizeDRMNames`. The loop appends to `properDRMs`; the log
line written for an absent name has no effect on the result. -/
def NormalizeDRMNames (mapLower : GoString → GoString) (names : List GoString) : GoString :=
  if names.length = 0 then DRMUnknown
  else
    let properDRMs := names.foldl (fun (properDRMs : List GoString) name =>
      let name := ToLower mapLower name
      let value := (mapIndex DRMNameMapping name).1
      if value ≠ DRMUnknown then properDRMs ++ [value] else properDRMs) []
    if properDRMs.length = 0 then DRMUnknown
    else Join properDRMs (bytes "+")

/-! ## Connection -/

/-- A `[]byte` as `ReadMessage` hands it over: the bytes of the frame and the
number of bytes its buffer has after them (capacity minus length). The bytes
after the frame are taken to be zero, as in a buffer that was allocated
(zeroed) for the frame and filled from the front. How large the buffer is
depends on the websocket library, which is not part of this program; see
`FromReadMessage`. -/
structure ByteSlice where
  data : GoString
  spare : Nat
deriving DecidableEq, Repr

/-- Capacity `cap(message)`. -/
def ByteSlice.cap (message : ByteSlice) : Nat := message.data.length + message.spare

/-- Slice expression `message[:n]` on a byte slice, converted to a string: the
bound is the capacity, not the length. -/
def ByteSlice.sliceTo (message : ByteSlice) (n : Nat) : Outcome GoString :=
  if n ≤ message.cap then .returned ((message.data ++ List.replicate message.spare 0).take n)
  else .panicked (.sliceBounds n message.cap)

/-- What one `ReadMessage` gives: a frame, or an error with its cause. -/
inductive ReadResult where
  | frame (message : ByteSlice)
  | failed (cause : String)
deriving DecidableEq, Repr

/-- Operations on the network, as they are traced. -/
inductive NetOp where
  | dial (url : String)
  | write (payload : GoString)
  | read
  | close
deriving DecidableEq, Repr

/-- The remote end during one call: whether dialling fails, the errors of the
successive writes (`none` for success, also when the list is used up) and
the results of the successive reads (a read past the end never returns). -/
structure Network where
  dialError : Option String
  writeErrors : List (Option String)
  reads : List ReadResult

/-- A `*websocket.Conn`: what the remote end will still do and the operations
performed so far, in order. -/
structure Conn where
  writeErrors : List (Option String)
  reads : List ReadResult
  trace : List NetOp

/-- Call `websocket.DefaultDialer.Dial(url, nil)`. -/
def Dial (net : Network) (url : String) : Conn × Option String :=
  (⟨net.writeErrors, net.reads, [.dial url]⟩, net.dialError)

/-- Method `ws.WriteMessage(websocket.TextMessage, payload)`. -/
def Conn.WriteMessage (ws : Conn) (payload : GoString) : Conn × Option String :=
  match ws.writeErrors with
  | [] => (⟨[], ws.reads, ws.trace ++ [.write payload]⟩, none)
  | err :: rest => (⟨rest, ws.reads, ws.trace ++ [.write payload]⟩, err)

/-- Method `ws.Close()`. -/
def Conn.Close (ws : Conn) : Conn := ⟨ws.writeErrors, ws.reads, ws.trace ++ [.close]⟩

/-- A finished or stuck call together with the network operations it made. -/
structure Run (α : Type) where
  outcome : Outcome α
  trace : List NetOp
deriving DecidableEq, Repr

/-! ## Search -/

/-- Constant `errUnhandledResponse`. -/
def errUnhandledResponse : GoError :=
  "We received a response from crackwatch.com we weren't expecting, and couldn't handle. Sorry about that—perhaps try it directly from <https://crackwatch.com/games> until we fix this issue?"

/-- Variable `errCouldNotReachSite`. -/
def errCouldNotReachSite : GoError := "crackwatch.com could not be reached."

/-- Constant `maxSearchTermLength`. -/
def maxSearchTermLength : Nat := 100

/-- Type `searchOptions`; its five fields are string types. -/
structure searchOptions where
  crackStatus : GoString
  releaseStatus : GoString
  studioType : GoString
  orderType : GoString
  sortOrder : GoString

/-- Constant `CrackStatusAll`. -/
def CrackStatusAll : GoString := bytes "0"

/-- Constant `ReleaseStatusAll`. -/
def ReleaseStatusAll : GoString := bytes "0"

/-- Constant `StudioAll`. -/
def StudioAll : GoString := bytes "0"

/-- Constant `OrderTypeTitle`. -/
def OrderTypeTitle : GoString := bytes "title"

/-- Constant `SortOrderAsc`. -/
def SortOrderAsc : GoString := bytes "false"

/-- One element of `SearchResults.Games`. -/
structure Game where
  Name : GoString
  ReleaseDate : Time
  DRM : List GoString
  CrackedBy : List GoString
  CrackDate : Time
  NumFollowers : Int
deriving DecidableEq, Repr

/-- Type `SearchResults`. -/
structure SearchResults where
  Num : Int
  Games : List Game
deriving DecidableEq, Repr

/-- The zero value `SearchResults{}`. -/
def SearchResults.empty : SearchResults := ⟨0, []⟩

/-- The two uses of `json.Unmarshal` in `waitForSearchResults`: into a
`map[string]json.RawMessage` and into a `SearchResults`; `none` stands for an
error. The JSON library is not part of this program. -/
structure JSONDecoder where
  unmarshalMap : GoString → Option (List (GoString × GoString))
  unmarshalResults : GoString → Option SearchResults

/-- Function `connectToWebsocket`: the connection when there is one, the error
otherwise, and the operations made. -/
def connectToWebsocket (net : Network) : Option Conn × Option GoError × List NetOp :=
  match Dial net "wss://crackwatch.com/sockjs/crackwatch/discord_bot/websocket" with
  | (ws, some _) =>
    (none, some "crackwatch.com did not accept our websocket connection.", ws.trace)
  | (ws, none) =>
    match ws.WriteMessage (bytes "[\"\x7b\\\"msg\\\":\\\"connect\\\",\\\"version\\\":\\\"1\\\",\\\"support\\\":[\\\"1\\\",\\\"pre2\\\",\\\"pre1\\\"]\x7d\"]") with
    | (ws, some _) =>
      (none, some "crackwatch.com did not accept our websocket connection.", ws.trace)
    | (ws, none) => (some ws, none, ws.trace)

/-- The text that `sendSearchQuery` writes, from the term as escaped and
trimmed by it. -/
def searchQueryFrame (term page : GoString) (options : searchOptions) : GoString :=
  bytes "[\"\x7b\\\"msg\\\":\\\"method\\\",\\\"method\\\":\\\"games.page\\\",\\\"params\\\":[\x7b\\\"page\\\":"
    ++ page ++ bytes ",\\\"orderType\\\":\\\"" ++ options.orderType
    ++ bytes "\\\",\\\"orderDown\\\":" ++ options.sortOrder
    ++ bytes ",\\\"search\\\":\\\"" ++ term
    ++ bytes "\\\",\\\"unset\\\":0,\\\"released\\\":" ++ options.releaseStatus
    ++ bytes ",\\\"cracked\\\":" ++ options.crackStatus
    ++ bytes ",\\\"isAAA\\\":" ++ options.studioType
    ++ bytes "\x7d],\\\"id\\\":\\\"1\\\"\x7d\"]"

/-- Function `sendSearchQuery`. -/
def sendSearchQuery (ws : Conn) (term page : GoString) (options : searchOptions) :
    Conn × Option GoError :=
  let term := ReplaceAll term (bytes "\"") (bytes "\\\\\\\"")
  let term := TrimSpace term
  match ws.WriteMessage (searchQueryFrame term page options) with
  | (ws, some _) => (ws, some errCouldNotReachSite)
  | (ws, none) => (ws, none)

/-- The literal a received frame is compared with: the "Bad request" error. -/
def badRequestFrame : GoString :=
  bytes "a[\"\x7b\\\"msg\\\":\\\"error\\\",\\\"reason\\\":\\\"Bad request\\\"\x7d\"]"

/-- The literal the first 22 bytes of a frame are compared with. -/
def resultPrefix : GoString := bytes "a[\"\x7b\\\"msg\\\":\\\"result\\\""

/-- The error returned for a "Bad request" frame. -/
def errBadRequest : GoError := "Received a \"Bad request\" response from crackwatch.com."

/-- The four string steps of `waitForSearchResults` on a result frame: the
wrapping array is removed and escaped quotes and backslashes are corrected. -/
def unescapeResponse (message : GoString) : GoString :=
  let escapedResponse := TrimPrefix message (bytes "a[\"")
  let escapedResponse := TrimSuffix escapedResponse (bytes "\"]")
  let escapedResponse := ReplaceAll escapedResponse (bytes "\\\"") (bytes "\"")
  ReplaceAll escapedResponse (bytes "\\\\") (bytes "\\")

/-- The two unmarshalling steps of `waitForSearchResults` and its returns. -/
def decodeResponse (dec : JSONDecoder) (escapedResponse : GoString) :
    SearchResults × Option GoError :=
  match dec.unmarshalMap escapedResponse with
  | none => (SearchResults.empty, some errUnhandledResponse)
  | some responseMap =>
    match dec.unmarshalResults (mapIndex responseMap (bytes "result")).1 with
    | none => (SearchResults.empty, some errUnhandledResponse)
    | some results => (results, none)

/-- The loop of `waitForSearchResults` over the reads still to come. -/
def receiveLoop (dec : JSONDecoder) :
    List ReadResult → List NetOp → Run (SearchResults × Option GoError)
  | [], trace => ⟨.blocked, trace ++ [.read]⟩
  | .failed _ :: _, trace =>
    ⟨.returned (SearchResults.empty, some errCouldNotReachSite), trace ++ [.read]⟩
  | .frame message :: rest, trace =>
    if message.data = badRequestFrame then
      ⟨.returned (SearchResults.empty, some errBadRequest), trace ++ [.read]⟩
    else
      match message.sliceTo 22 with
      | .panicked p => ⟨.panicked p, trace ++ [.read]⟩
      | .blocked => ⟨.blocked, trace ++ [.read]⟩
      | .returned head =>
        if head ≠ resultPrefix then receiveLoop dec rest (trace ++ [.read])
        else
          ⟨.returned (decodeResponse dec (unescapeResponse message.data)), trace ++ [.read]⟩

/-- Function `waitForSearchResults`. -/
def waitForSearchResults (dec : JSONDecoder) (ws : Conn) :
    Run (SearchResults × Option GoError) :=
  receiveLoop dec ws.reads ws.trace

/-- Function `Search`. The validation error is the text that `fmt.Errorf` makes
of its format and `maxSearchTermLength`. The deferred `ws.Close()` runs when
the function returns or panics, not while it is blocked. -/
def Search (dec : JSONDecoder) (net : Network) (term : GoString) (page : Int) :
    Run (SearchResults × Option GoError) :=
  if term.length > maxSearchTermLength then
    ⟨.returned (SearchResults.empty, some "Search term was >100 characters.\n"), []⟩
  else
    match connectToWebsocket net with
    | (none, err, trace) => ⟨.returned (SearchResults.empty, err), trace⟩
    | (some ws, _, _) =>
      match sendSearchQuery ws term (Itoa page)
          ⟨CrackStatusAll, ReleaseStatusAll, StudioAll, OrderTypeTitle, SortOrderAsc⟩ with
      | (ws, some err) => ⟨.returned (SearchResults.empty, some err), ws.Close.trace⟩
      | (ws, none) =>
        match waitForSearchResults dec ws with
        | ⟨.returned (_, some err), trace⟩ =>
          ⟨.returned (SearchResults.empty, some err), trace ++ [.close]⟩
        | ⟨.returned (searchResults, none), trace⟩ =>
          ⟨.returned (searchResults, none), trace ++ [.close]⟩
        | ⟨.panicked p, trace⟩ => ⟨.panicked p, trace ++ [.close]⟩
        | ⟨.blocked, trace⟩ => ⟨.blocked, trace⟩

/-- The double encoding a result frame carries, in the words of the
specification (the remote end does it, no function of this program): every
backslash of the inner text is written as two backslashes and every double
quote as a backslash and a quote. -/
def escapeInner (inner : GoString) : GoString :=
  inner.flatMap fun c => if c = 92 then [92, 92] else if c = 34 then [92, 34] else [c]

/-- A result frame in the words of the specification: the escaped inner text
inside the one-element array envelope. -/
def encodeFrame (inner : GoString) : GoString :=
  bytes "a[\"" ++ escapeInner inner ++ bytes "\"]"

/-! ## JSON texts

The reading of a JSON text (RFC 8259) by the remote end, which takes a frame
as an array of strings and each string as a JSON text of its own. -/

/-- A JSON value; a number keeps its text. -/
inductive JSON where
  | null
  | bool (b : Bool)
  | number (text : GoString)
  | string (s : GoString)
  | array (items : List JSON)
  | object (members : List (GoString × JSON))

/-- Insignificant white space between JSON tokens. -/
def skipSpace : GoString → GoString
  | [] => []
  | c :: cs => if c = 32 ∨ c = 9 ∨ c = 10 ∨ c = 13 then skipSpace cs else c :: cs

/-- Value of a hexadecimal digit. -/
def hexVal (c : UInt8) : Option Nat :=
  if 48 ≤ c ∧ c ≤ 57 then some (c.toNat - 48)
  else if 97 ≤ c ∧ c ≤ 102 then some (c.toNat - 87)
  else if 65 ≤ c ∧ c ≤ 70 then some (c.toNat - 55)
  else none

/-- Value of four hexadecimal digits. -/
def hex4 (a b c d : UInt8) : Option Nat :=
  match hexVal a, hexVal b, hexVal c, hexVal d with
  | some a, some b, some c, some d => some (((a * 16 + b) * 16 + c) * 16 + d)
  | _, _, _, _ => none

/-- UTF-8 text of a code point; a surrogate on its own is written as U+FFFD. -/
def utf8OfCode (n : Nat) : GoString :=
  String.utf8EncodeChar (if 0xd800 ≤ n ∧ n ≤ 0xdfff then Char.ofNat 0xfffd else Char.ofNat n)

/-- The character a one-letter escape stands for. -/
def simpleEscape (e : UInt8) : Option UInt8 :=
  if e = 34 then some 34 else if e = 92 then some 92 else if e = 47 then some 47
  else if e = 98 then some 8 else if e = 102 then some 12 else if e = 110 then some 10
  else if e = 114 then some 13 else if e = 116 then some 9 else none

/-- The low surrogate written as a `\u` escape at the start of a text. -/
def lowSurrogate (s : GoString) : Option Nat :=
  match s with
  | b :: u :: l1 :: l2 :: l3 :: l4 :: _ =>
    if b = 92 ∧ u = 117 then
      match hex4 l1 l2 l3 l4 with
      | some lo => if 0xdc00 ≤ lo ∧ lo ≤ 0xdfff then some lo else none
      | none => none
    else none
  | _ => none

/-- Worker of `parseStringBody`; every step uses up one unit of `fuel` and at
least one byte. -/
def stringBody : Nat → GoString → Option (GoString × GoString)
  | 0, _ => none
  | _ + 1, [] => none
  | fuel + 1, c :: rest =>
    if c = 34 then some ([], rest)
    else if c = 92 then
      match rest with
      | [] => none
      | e :: rest2 =>
        if e = 117 then
          match rest2 with
          | h1 :: h2 :: h3 :: h4 :: rest3 =>
            match hex4 h1 h2 h3 h4 with
            | none => none
            | some hi =>
              match (if 0xd800 ≤ hi ∧ hi ≤ 0xdbff then lowSurrogate rest3 else none) with
              | some lo =>
                match stringBody fuel (rest3.drop 6) with
                | some (s, r) =>
                  some (utf8OfCode (0x10000 + (hi - 0xd800) * 0x400 + (lo - 0xdc00)) ++ s, r)
                | none => none
              | none =>
                match stringBody fuel rest3 with
                | some (s, r) => some (utf8OfCode hi ++ s, r)
                | none => none
          | _ => none
        else
          match simpleEscape e with
          | none => none
          | some x =>
            match stringBody fuel rest2 with
            | some (s, r) => some (x :: s, r)
            | none => none
    else if c < 32 then none
    else
      match stringBody fuel rest with
      | some (s, r) => some (c :: s, r)
      | none => none

/-- Reads a JSON string after its opening quote: the content with the escapes
resolved, and the text after the closing quote. A control character, an
unknown escape or a missing closing quote makes it fail. -/
def parseStringBody (s : GoString) : Option (GoString × GoString) :=
  stringBody (s.length + 1) s

/-- Bytes a JSON number is made of. -/
def isNumberByte (c : UInt8) : Bool :=
  isDigit c || c == 45 || c == 43 || c == 46 || c == 101 || c == 69

/-- The digits and the optional exponent after them, at the end of a number. -/
def validExponent : GoString → Bool
  | [] => true
  | e :: rest =>
    if e = 101 ∨ e = 69 then
      match rest with
      | [] => false
      | sign :: rest2 =>
        if sign = 43 ∨ sign = 45 then !rest2.isEmpty && rest2.all isDigit
        else (sign :: rest2).all isDigit
    else false

/-- The grammar of a JSON number: an optional minus, an integer part without
a superfluous leading zero, an optional fraction, an optional exponent. -/
def validNumber (text : GoString) : Bool :=
  let unsigned := match text with
    | [] => []
    | c :: rest => if c = 45 then rest else c :: rest
  let int := unsigned.takeWhile isDigit
  let afterInt := unsigned.dropWhile isDigit
  if int.isEmpty then false
  else if 1 < int.length ∧ int.head? = some 48 then false
  else
    match afterInt with
    | [] => true
    | c :: rest =>
      if c = 46 then
        !(rest.takeWhile isDigit).isEmpty && validExponent (rest.dropWhile isDigit)
      else validExponent (c :: rest)

/-- What the reader is about to read: one value, the elements of an array up
to its closing bracket, or the members of an object up to its closing brace. -/
inductive Mode where
  | value
  | elements
  | members

/-- Recursive-descent reader of JSON; `fuel` bounds the number of nested and
successive values. -/
def parse : Nat → Mode → GoString → Option (JSON × GoString)
  | 0, _, _ => none
  | fuel + 1, .value, s =>
    match skipSpace s with
    | [] => none
    | c :: rest =>
      if c = 34 then
        match parseStringBody rest with
        | some (t, r) => some (.string t, r)
        | none => none
      else if c = 91 then
        match skipSpace rest with
        | [] => none
        | d :: rest2 =>
          if d = 93 then some (.array [], rest2) else parse fuel .elements (d :: rest2)
      else if c = 123 then
        match skipSpace rest with
        | [] => none
        | d :: rest2 =>
          if d = 125 then some (.object [], rest2) else parse fuel .members (d :: rest2)
      else if (bytes "null").isPrefixOf (c :: rest) then some (.null, (c :: rest).drop 4)
      else if (bytes "true").isPrefixOf (c :: rest) then some (.bool true, (c :: rest).drop 4)
      else if (bytes "false").isPrefixOf (c :: rest) then some (.bool false, (c :: rest).drop 5)
      else
        let text := (c :: rest).takeWhile isNumberByte
        if validNumber text then some (.number text, (c :: rest).dropWhile isNumberByte)
        else none
  | fuel + 1, .elements, s =>
    match parse fuel .value s with
    | none => none
    | some (v, r) =>
      match skipSpace r with
      | [] => none
      | d :: r2 =>
        if d = 93 then some (.array [v], r2)
        else if d = 44 then
          match parse fuel .elements r2 with
          | some (.array vs, r3) => some (.array (v :: vs), r3)
          | _ => none
        else none
  | fuel + 1, .members, s =>
    match skipSpace s with
    | [] => none
    | c :: rest =>
      if c = 34 then
        match parseStringBody rest with
        | none => none
        | some (k, r) =>
          match skipSpace r with
          | [] => none
          | d :: r2 =>
            if d = 58 then
              match parse fuel .value r2 with
              | none => none
              | some (v, r3) =>
                match skipSpace r3 with
                | [] => none
                | e :: r4 =>
                  if e = 125 then some (.object [(k, v)], r4)
                  else if e = 44 then
                    match parse fuel .members r4 with
                    | some (.object ms, r5) => some (.object ((k, v) :: ms), r5)
                    | _ => none
                  else none
            else none
      else none

/-- A whole text read as one JSON value, `none` when it is not valid JSON. -/
def parseJSON (s : GoString) : Option JSON :=
  match parse (s.length + 1) .value s with
  | some (v, r) => if (skipSpace r).isEmpty then some v else none
  | none => none

/-- Member of an object by its name; of members with one name the last counts. -/
def JSON.member (key : GoString) : JSON → Option JSON
  | .object members => members.reverse.lookup key
  | _ => none

/-- The string inside the one-element array envelope of a frame. -/
def envelopeText (frame : GoString) : Option GoString :=
  match parseJSON frame with
  | some (.array [.string text]) => some text
  | _ => none

/-- The search term as the remote end reads it from a query frame: the
envelope is taken off, the string in it is read as JSON, and the `search`
member of the one element of `params` is looked up. -/
def searchTermOnWire (frame : GoString) : Option GoString :=
  match envelopeText frame with
  | none => none
  | some text =>
    match parseJSON text with
    | none => none
    | some message =>
      match message.member (bytes "params") with
      | some (.array [parameters]) =>
        match parameters.member (bytes "search") with
        | some (.string term) => some term
        | _ => none
      | _ => none

/-- Payloads of the writes of a trace, in order. -/
def framesWritten (trace : List NetOp) : List GoString :=
  trace.filterMap fun op => match op with
    | .write payload => some payload
    | _ => none

/-- The options `Search` passes to `sendSearchQuery`. -/
def defaultOptions : searchOptions :=
  ⟨CrackStatusAll, ReleaseStatusAll, StudioAll, OrderTypeTitle, SortOrderAsc⟩

/-! ## Messages for Discord (main.go) -/

/-- Worker of `LastIndex`: `i` is the index of the text still to scan, `found`
the index of the last occurrence before it. -/
def lastIndexFrom (substr : GoString) : GoString → Nat → Int → Int
  | [], i, found => if substr.isEmpty then (i : Int) else found
  | c :: cs, i, found =>
    lastIndexFrom substr cs (i + 1) (if substr.isPrefixOf (c :: cs) then (i : Int) else found)

/-- Go `strings.LastIndex(s, substr)`: the index of the last occurrence, -1
when there is none. -/
def LastIndex (s substr : GoString) : Int := lastIndexFrom substr s 0 (-1)

/-- Slice expression `s[:high]` on a Go string with an `int` index. -/
def sliceToInt (s : GoString) (high : Int) : Outcome GoString :=
  if high < 0 then .panicked (.sliceNegative high) else sliceTo s high.toNat

/-- Slice expression `s[low:]` on a Go string with an `int` index. -/
def sliceFromInt (s : GoString) (low : Int) : Outcome GoString :=
  if low < 0 then .panicked (.sliceNegative low)
  else if low.toNat ≤ s.length then .returned (s.drop low.toNat)
  else .panicked (.sliceBounds low.toNat s.length)

/-- Puts a comma before every group of three digits, on the digits in reverse
order; `k` counts the digits of the group at hand. -/
def groupReversed : GoString → Nat → GoString
  | [], _ => []
  | d :: ds, k => if k = 3 then 44 :: d :: groupReversed ds 1 else d :: groupReversed ds (k + 1)

/-- The text `message.NewPrinter(language.English).Sprintf("%d", n)`: decimal
digits in groups of three separated by commas. -/
def englishNumber (n : Int) : GoString :=
  let digits := (groupReversed (bytes (toString n.natAbs)).reverse 0).reverse
  if n < 0 then 45 :: digits else digits

/-- Library functions `resultsToDiscordChunks` relies on and that are not part
of this program: `unicode.ToLower` on non-ASCII text (see `ToLower`), the
verb `%q` of `fmt` on a string, and the text `fmt` makes with `%.0f` of
`math.Ceil(float64(num)/float64(30))`, a floating-point computation. -/
structure Printer where
  mapLower : GoString → GoString
  quote : GoString → GoString
  pageCount : Int → GoString

/-- The library functions on plain input: quoting of printable ASCII text
without double quotes and backslashes, and the page count of a number of
games from 0 to 2^31, where the floating-point quotient is exact enough. -/
def plainPrinter : Printer :=
  ⟨id, fun s => 34 :: s ++ [34], fun num => Itoa ((num + 29) / 30)⟩

/-- The line `resultsToDiscordChunks` writes for one game. -/
def gameLine (pr : Printer) (game : Game) : GoString :=
  if game.CrackDate.IsZero then
    bytes "🛑" ++ pr.quote game.Name ++ bytes " has " ++ englishNumber game.NumFollowers
      ++ bytes " " ++ (if game.NumFollowers = 1 then bytes "person" else bytes "people")
      ++ bytes " waiting for a crack!"
  else
    bytes "🟢" ++ game.Name ++ bytes " | " ++ game.ReleaseDate.Format ++ bytes " | "
      ++ NormalizeDRMNames pr.mapLower game.DRM ++ bytes " | "
      ++ Join game.CrackedBy (bytes "+") ++ bytes " | " ++ game.CrackDate.Format

/-- Constant `header` of `resultsToDiscordChunks`. -/
def header : GoString :=
  bytes "```Game Name | Release Date | DRM | Cracked By | Date Cracked\n"

/-- Constant `discordMaxMsgLen`. -/
def discordMaxMsgLen : Int := 2000

/-- The splitting loop of `resultsToDiscordChunks`; every turn uses up one
unit of `fuel`, and `.blocked` stands for a loop still running when the fuel
is used up. -/
def chunkLoop (footer : GoString) (maxMsgLen : Int) :
    Nat → GoString → List GoString → Outcome (List GoString)
  | 0, _, _ => .blocked
  | fuel + 1, msg, messageChunks =>
    if (msg.length : Int) > maxMsgLen then
      match sliceToInt msg maxMsgLen with
      | .panicked p => .panicked p
      | .blocked => .blocked
      | .returned head =>
        let idxLastNewline := LastIndex head (bytes "\n")
        match sliceToInt msg idxLastNewline with
        | .panicked p => .panicked p
        | .blocked => .blocked
        | .returned part =>
          -- +1 to skip the newline character.
          match sliceFromInt msg (idxLastNewline + 1) with
          | .panicked p => .panicked p
          | .blocked => .blocked
          | .returned rest =>
            chunkLoop footer maxMsgLen fuel rest (messageChunks ++ [header ++ part ++ footer])
    else .returned (messageChunks ++ [header ++ msg ++ footer])

/-- Function `resultsToDiscordChunks` of main.go. The lines of the games are
joined by newlines, as the builder loop writes them; the loop gets more fuel
than the text has bytes, and every turn removes at least one byte. -/
def resultsToDiscordChunks (pr : Printer) (searchResults : SearchResults) (pageNum : Int) :
    Outcome (List GoString) :=
  let footer := bytes "\nPage " ++ Itoa pageNum ++ bytes "/" ++ pr.pageCount searchResults.Num
    ++ bytes "```"
  let maxMsgLen := discordMaxMsgLen - ((header ++ footer).length : Int)
  let msg := Join (searchResults.Games.map (gameLine pr)) (bytes "\n")
  chunkLoop footer maxMsgLen (msg.length + 1) msg []

/-! ## Notions used in the statements -/

/-- Bytes a date in the layout 2006-01-02 is made of: digits and the dash. -/
def dateByte (c : UInt8) : Bool := isDigit c || c == 45

/-- Number of characters of a UTF-8 text: its bytes other than the
continuation bytes 0x80 to 0xBF. -/
def runeCount (s : GoString) : Nat := (s.filter fun b => b < 128 || 192 ≤ b).length

/-- White space that `skipSpace` passes over. -/
def isJSONSpace (c : UInt8) : Prop := c = 32 ∨ c = 9 ∨ c = 10 ∨ c = 13

/-- The address `connectToWebsocket` dials. -/
def socketURL : String := "wss://crackwatch.com/sockjs/crackwatch/discord_bot/websocket"

/-- The negotiation frame `connectToWebsocket` writes after dialling. -/
def connectFrame : GoString :=
  bytes "[\"\x7b\\\"msg\\\":\\\"connect\\\",\\\"version\\\":\\\"1\\\",\\\"support\\\":[\\\"1\\\",\\\"pre2\\\",\\\"pre1\\\"]\x7d\"]"

/-- The error `connectToWebsocket` returns. -/
def errNotAccepted : GoError := "crackwatch.com did not accept our websocket connection."

/-- Capacity of the buffer `io.ReadAll` starts with; the buffer only grows. -/
def readAllCapacity : Nat := 512

/-- A byte slice as the websocket library returns it from `ws.ReadMessage`:
the library reads the whole frame with `io.ReadAll`, so the slice has the
capacity of the buffer of `io.ReadAll`, 512 bytes or more, whatever the
length of the frame. -/
def FromReadMessage (message : ByteSlice) : Prop := readAllCapacity ≤ message.cap

instance (message : ByteSlice) : Decidable (FromReadMessage message) := by
  unfold FromReadMessage
  infer_instance

/-- A frame the receive loop passes over without failure: not the "Bad
request" literal, not begun by the result prefix, and in a buffer of at least
22 bytes. -/
def OtherFrame (message : ByteSlice) : Prop :=
  message.data ≠ badRequestFrame ∧ ¬ resultPrefix <+: message.data ∧ 22 ≤ message.cap

instance (message : ByteSlice) : Decidable (OtherFrame message) := by
  unfold OtherFrame
  infer_instance

/-- What `Search` makes of the end of `waitForSearchResults`, the deferred
`ws.Close()` included. -/
def searchEnd (run : Run (SearchResults × Option GoError)) :
    Run (SearchResults × Option GoError) :=
  match run with
  | ⟨.returned (_, some err), trace⟩ =>
    ⟨.returned (SearchResults.empty, some err), trace ++ [.close]⟩
  | ⟨.returned (searchResults, none), trace⟩ =>
    ⟨.returned (searchResults, none), trace ++ [.close]⟩
  | ⟨.panicked p, trace⟩ => ⟨.panicked p, trace ++ [.close]⟩
  | ⟨.blocked, trace⟩ => ⟨.blocked, trace⟩

/-- The term as `sendSearchQuery` puts it into the frame. -/
def escapedTerm (term : GoString) : GoString :=
  TrimSpace (ReplaceAll term (bytes "\"") (bytes "\\\\\\\""))

/-- The page number as the remote end reads it from a query frame: the text of
the `page` member of the one element of `params`. -/
def pageOnWire (frame : GoString) : Option GoString :=
  match envelopeText frame with
  | none => none
  | some text =>
    match parseJSON text with
    | none => none
    | some message =>
      match message.member (bytes "params") with
      | some (.array [parameters]) =>
        match parameters.member (bytes "page") with
        | some (.number page) => some page
        | _ => none
      | _ => none

/-- A text with a backslash put before each of its double quotes. -/
def escapeQuotes (text : GoString) : GoString :=
  text.flatMap fun c => if c = 34 then [92, 34] else [c]

/-- A cracked game with a short name. -/
def sampleGame : Game :=
  ⟨bytes "Far Cry", ⟨2004, 3, 23, 0, 0, 0⟩, [bytes "SafeDisc"], [bytes "DEViANCE"],
    ⟨2004, 3, 24, 0, 0, 0⟩, 12⟩

/-- A cracked game whose name has 2000 bytes. -/
def longNameGame : Game :=
  ⟨List.replicate 2000 97, ⟨2004, 3, 23, 0, 0, 0⟩, [], [], ⟨2004, 3, 24, 0, 0, 0⟩, 12⟩

/-- The footer `resultsToDiscordChunks` puts under every chunk. -/
def pageFooter (pr : Printer) (num pageNum : Int) : GoString :=
  bytes "\nPage " ++ Itoa pageNum ++ bytes "/" ++ pr.pageCount num ++ bytes "```"

/-- A chunk without the header in front of it and the footer behind it. -/
def chunkBody (footer chunk : GoString) : GoString :=
  (chunk.drop header.length).take (chunk.length - header.length - footer.length)

/-- A cracked game with the given name, without DRM tags and group names. -/
def crackedGame (name : GoString) : Game :=
  ⟨name, ⟨2004, 3, 23, 0, 0, 0⟩, [], [], ⟨2004, 3, 24, 0, 0, 0⟩, 12⟩

/-! ## Theorems -/

/-! ### Date field parser -/

/-- C1: for every byte string `b`, `Time.UnmarshalJSON b` returns a value and a
nil error; it raises no panic, so the slice `timeStr[:10]` is within bounds
whenever it is taken. -/
theorem C1_unmarshalJSON_total (b : GoString) :
    ∃ t : Time, Time.UnmarshalJSON b = .returned (t, none) := by
  unfold Time.UnmarshalJSON
  simp only
  split
  · exact ⟨_, rfl⟩
  · rename_i h
    have hlen : 10 ≤ (ReplaceAll b (bytes "\"") []).length := by
      have := (not_or.mp h).2
      omega
    simp only [sliceTo, hlen, if_true]
    cases parseDate (List.take 10 (ReplaceAll b (bytes "\"") [])) with
    | none => exact ⟨_, rfl⟩
    | some t => exact ⟨_, rfl⟩

/-- Replacing a one-byte pattern by nothing removes every occurrence of the byte. -/
theorem ReplaceAll_byte_nil (q : UInt8) (s : GoString) :
    ReplaceAll s [q] [] = s.filter (fun c => c != q) := by
  unfold ReplaceAll
  induction s with
  | nil => rfl
  | cons c cs ih =>
    by_cases h : q = c
    · subst h
      simp [replaceFrom, List.isPrefixOf, ih]
    · have h2 : ¬ c = q := fun e => h e.symm
      simp [replaceFrom, List.isPrefixOf, ih, h, h2]

/-- A text that `parseDate` accepts has ten bytes, all digits or dashes. -/
theorem parseDate_some_bytes {value : GoString} {t : Time} (h : parseDate value = some t) :
    value.length = 10 ∧ value.all dateByte = true := by
  unfold parseDate at h
  split at h
  · split at h
    · rename_i hc
      simp only [Bool.and_eq_true, beq_iff_eq] at hc
      obtain ⟨⟨⟨⟨⟨⟨⟨⟨⟨h1, h2⟩, h3⟩, h4⟩, h5⟩, h6⟩, h7⟩, h8⟩, h9⟩, h10⟩ := hc
      refine ⟨rfl, ?_⟩
      simp [dateByte, h1, h2, h3, h4, h5, h6, h7, h8, h9, h10]
    · exact absurd h (by simp)
  · exact absurd h (by simp)

set_option maxRecDepth 100000 in
/-- Lead byte of a two-byte UTF-8 sequence. -/
theorem utf8_lead2 (x : UInt8) : 128 ≤ (x &&& 31 ||| 192) := by
  have h : ∀ n : Fin 256, (128 : UInt8) ≤ ((⟨⟨n⟩⟩ : UInt8) &&& 31 ||| 192) := by decide
  exact h x.toBitVec.toFin

set_option maxRecDepth 100000 in
/-- Lead byte of a three-byte UTF-8 sequence. -/
theorem utf8_lead3 (x : UInt8) : 128 ≤ (x &&& 15 ||| 224) := by
  have h : ∀ n : Fin 256, (128 : UInt8) ≤ ((⟨⟨n⟩⟩ : UInt8) &&& 15 ||| 224) := by decide
  exact h x.toBitVec.toFin

set_option maxRecDepth 100000 in
/-- Lead byte of a four-byte UTF-8 sequence. -/
theorem utf8_lead4 (x : UInt8) : 128 ≤ (x &&& 7 ||| 240) := by
  have h : ∀ n : Fin 256, (128 : UInt8) ≤ ((⟨⟨n⟩⟩ : UInt8) &&& 7 ||| 240) := by decide
  exact h x.toBitVec.toFin

/-- A character is written in UTF-8 as one byte or as a sequence that starts
with a byte of 128 or more. -/
theorem utf8_one_or_lead (c : Char) :
    (∃ b, String.utf8EncodeChar c = [b]) ∨
    (∃ b rest, String.utf8EncodeChar c = b :: rest ∧ 128 ≤ b) := by
  unfold String.utf8EncodeChar
  simp only
  split
  · exact Or.inl ⟨_, rfl⟩
  · split
    · exact Or.inr ⟨_, _, rfl, utf8_lead2 _⟩
    · split
      · exact Or.inr ⟨_, _, rfl, utf8_lead3 _⟩
      · exact Or.inr ⟨_, _, rfl, utf8_lead4 _⟩

set_option maxRecDepth 100000 in
/-- A byte of 128 or more is neither a date byte nor the double quote. -/
theorem high_byte_not_date (b : UInt8) (h : 128 ≤ b) : dateByte b = false ∧ (b != 34) = true := by
  have hh : ∀ n : Fin 256, (128 : UInt8) ≤ (⟨⟨n⟩⟩ : UInt8) →
      dateByte ⟨⟨n⟩⟩ = false ∧ ((⟨⟨n⟩⟩ : UInt8) != 34) = true := by decide
  exact hh b.toBitVec.toFin h

/-- In the UTF-8 text of `cs` with the double quotes removed, a run of `n`
leading date bytes comes from at least `n` characters. -/
theorem date_prefix_chars (cs : List Char) (n : Nat)
    (hlen : n ≤ ((cs.flatMap String.utf8EncodeChar).filter (fun c => c != 34)).length)
    (hall : (((cs.flatMap String.utf8EncodeChar).filter (fun c => c != 34)).take n).all dateByte
      = true) :
    n ≤ cs.length := by
  induction cs generalizing n with
  | nil => simpa using hlen
  | cons c cs ih =>
    cases n with
    | zero => exact Nat.zero_le _
    | succ m =>
      simp only [List.flatMap_cons, List.filter_append] at hlen hall
      rcases utf8_one_or_lead c with ⟨b, hb⟩ | ⟨b, rest, hb, hge⟩
      · rw [hb] at hlen hall
        by_cases hq : b = 34
        · subst hq
          simp only [List.filter_cons, bne_self_eq_false, List.filter_nil, List.nil_append,
            Bool.false_eq_true, if_false] at hlen hall
          have := ih (m + 1) hlen hall
          simp only [List.length_cons]
          omega
        · have hq2 : (b != 34) = true := by simpa using hq
          simp only [List.filter_cons, hq2, if_true, List.filter_nil, List.cons_append,
            List.nil_append, List.length_cons, List.take_succ_cons, List.all_cons,
            Bool.and_eq_true] at hlen hall
          have := ih m (by omega) hall.2
          simp only [List.length_cons]
          omega
      · rw [hb] at hall
        obtain ⟨hnd, hnq⟩ := high_byte_not_date b hge
        simp only [List.filter_cons, hnq, if_true, List.cons_append, List.take_succ_cons,
          List.all_cons, hnd, Bool.false_and, Bool.false_eq_true] at hall

/-- Whatever the bytes `b`, the zero date is stored unless `b` without its
double quotes starts with ten date bytes. -/
theorem unmarshalJSON_zero_of_no_date_prefix (b : GoString)
    (h : ¬ (10 ≤ (b.filter (fun c => c != 34)).length ∧
      ((b.filter (fun c => c != 34)).take 10).all dateByte = true)) :
    Time.UnmarshalJSON b = .returned (Time.zero, none) := by
  unfold Time.UnmarshalJSON
  have hq : bytes "\"" = [34] := by decide
  simp only [hq, ReplaceAll_byte_nil]
  split
  · rfl
  · rename_i hcond
    have hlen : 10 ≤ (b.filter (fun c => c != 34)).length := by
      have := (not_or.mp hcond).2
      omega
    simp only [sliceTo, hlen, if_true]
    cases hp : parseDate (List.take 10 (b.filter (fun c => c != 34))) with
    | none => rfl
    | some t2 => exact absurd ⟨hlen, (parseDate_some_bytes hp).2⟩ h

set_option maxRecDepth 100000 in
/-- A date byte is an ASCII byte: it starts a character. -/
theorem dateByte_starts_rune (b : UInt8) (h : dateByte b = true) :
    (b < 128 || 192 ≤ b) = true ∧ (b != 34) = true := by
  have hh : ∀ n : Fin 256, dateByte ⟨⟨n⟩⟩ = true →
      (((⟨⟨n⟩⟩ : UInt8) < 128 || 192 ≤ (⟨⟨n⟩⟩ : UInt8)) = true ∧ ((⟨⟨n⟩⟩ : UInt8) != 34) = true) := by
    decide
  exact hh b.toBitVec.toFin h

/-- In a JSON string read by `stringBody`, a run of `n` date bytes at the start
of the written text (its double quotes removed) is a run of `n` characters of
the string read. -/
theorem stringBody_date_prefix (fuel : Nat) : ∀ (rest s r : GoString) (n : Nat),
    stringBody fuel rest = some (s, r) →
    (∀ x ∈ r, dateByte x = false) →
    n ≤ (rest.filter (fun c => c != 34)).length →
    ((rest.filter (fun c => c != 34)).take n).all dateByte = true →
    n ≤ runeCount s := by
  induction fuel with
  | zero =>
    intro rest s r n h
    simp [stringBody] at h
  | succ fuel ih =>
    intro rest s r n h hr hlen hall
    cases n with
    | zero => exact Nat.zero_le _
    | succ m =>
      cases rest with
      | nil => simp [stringBody] at h
      | cons c rest2 =>
        simp only [stringBody] at h
        by_cases h34 : c = 34
        · subst h34
          simp only [if_true, Option.some.injEq, Prod.mk.injEq] at h
          obtain ⟨hs, hr2⟩ := h
          subst hr2
          exfalso
          simp only [List.filter_cons, bne_self_eq_false, Bool.false_eq_true, if_false] at hlen hall
          cases hf : rest2.filter (fun c => c != 34) with
          | nil => rw [hf] at hlen; simp at hlen
          | cons y ys =>
            rw [hf] at hall
            simp only [List.take_succ_cons, List.all_cons, Bool.and_eq_true] at hall
            have hy : y ∈ rest2 := List.mem_of_mem_filter (hf ▸ List.mem_cons_self y ys)
            rw [hr y hy] at hall
            exact absurd hall.1 (by simp)
        · have h34b : (c != 34) = true := by simpa using h34
          simp only [List.filter_cons, h34b, if_true, List.take_succ_cons, List.all_cons,
            Bool.and_eq_true, List.length_cons] at hlen hall
          obtain ⟨hstart, _⟩ := dateByte_starts_rune c hall.1
          by_cases h92 : c = 92
          · subst h92
            exact absurd hall.1 (by decide)
          · simp only [h34, h92, if_false] at h
            split at h
            · exact absurd h (by simp)
            · split at h
              · rename_i s2 r2 hsb
                simp only [Option.some.injEq, Prod.mk.injEq] at h
                obtain ⟨hs, hr2⟩ := h
                subst hs hr2
                have := ih rest2 s2 r2 m hsb hr (by omega) hall.2
                simp only [runeCount, List.filter_cons, hstart, if_true, List.length_cons]
                simp only [runeCount] at this
                omega
              · exact absurd h (by simp)

/-- What `skipSpace` leaves starts where the white space ends. -/
theorem skipSpace_eq_cons (b : GoString) (c : UInt8) (rest : GoString)
    (h : skipSpace b = c :: rest) :
    ∃ sp, b = sp ++ c :: rest ∧ ∀ x ∈ sp, isJSONSpace x := by
  induction b with
  | nil => simp [skipSpace] at h
  | cons x xs ih =>
    simp only [skipSpace] at h
    split at h
    · rename_i hx
      obtain ⟨sp, hsp, hall⟩ := ih h
      refine ⟨x :: sp, by rw [hsp]; rfl, ?_⟩
      intro y hy
      rcases List.mem_cons.mp hy with rfl | hy
      · exact hx
      · exact hall y hy
    · simp only [List.cons.injEq] at h
      obtain ⟨rfl, rfl⟩ := h
      exact ⟨[], rfl, fun y hy => absurd hy (List.not_mem_nil y)⟩

/-- A text that `skipSpace` uses up is made of white space. -/
theorem skipSpace_empty (r : GoString) (h : (skipSpace r).isEmpty = true) :
    ∀ x ∈ r, isJSONSpace x := by
  induction r with
  | nil => intro x hx; exact absurd hx (List.not_mem_nil x)
  | cons y ys ih =>
    simp only [skipSpace] at h
    split at h
    · rename_i hy
      intro x hx
      rcases List.mem_cons.mp hx with rfl | hx
      · exact hy
      · exact ih h x hx
    · simp at h

/-- White space is no date byte and no double quote. -/
theorem space_not_date (x : UInt8) (h : isJSONSpace x) : dateByte x = false ∧ (x != 34) = true := by
  rcases h with rfl | rfl | rfl | rfl <;> decide

/-- Reading elements gives an array. -/
theorem parse_elements_array (fuel : Nat) (s : GoString) (j : JSON) (r : GoString)
    (h : parse fuel .elements s = some (j, r)) : ∃ l, j = .array l := by
  cases fuel with
  | zero => simp [parse] at h
  | succ fuel =>
    simp only [parse] at h
    split at h
    · exact absurd h (by simp)
    · split at h
      · exact absurd h (by simp)
      · split at h
        · simp only [Option.some.injEq, Prod.mk.injEq] at h
          exact ⟨_, h.1.symm⟩
        · split at h
          · split at h
            · simp only [Option.some.injEq, Prod.mk.injEq] at h
              exact ⟨_, h.1.symm⟩
            · exact absurd h (by simp)
          · exact absurd h (by simp)

/-- Reading members gives an object. -/
theorem parse_members_object (fuel : Nat) (s : GoString) (j : JSON) (r : GoString)
    (h : parse fuel .members s = some (j, r)) : ∃ l, j = .object l := by
  cases fuel with
  | zero => simp [parse] at h
  | succ fuel =>
    simp only [parse] at h
    split at h
    · exact absurd h (by simp)
    · split at h
      · split at h
        · exact absurd h (by simp)
        · split at h
          · exact absurd h (by simp)
          · split at h
            · split at h
              · exact absurd h (by simp)
              · split at h
                · exact absurd h (by simp)
                · split at h
                  · simp only [Option.some.injEq, Prod.mk.injEq] at h
                    exact ⟨_, h.1.symm⟩
                  · split at h
                    · split at h
                      · simp only [Option.some.injEq, Prod.mk.injEq] at h
                        exact ⟨_, h.1.symm⟩
                      · exact absurd h (by simp)
                    · exact absurd h (by simp)
            · exact absurd h (by simp)
      · exact absurd h (by simp)

/-- A text that reads as a JSON string is white space, a double quote, the
written string up to its closing quote, and white space. -/
theorem parseJSON_string (b s : GoString) (h : parseJSON b = some (.string s)) :
    ∃ rest r, skipSpace b = 34 :: rest ∧ parseStringBody rest = some (s, r) ∧
      (skipSpace r).isEmpty = true := by
  unfold parseJSON at h
  split at h
  · rename_i v r hp
    split at h
    · rename_i hr
      simp only [Option.some.injEq] at h
      subst h
      simp only [parse] at hp
      split at hp
      · exact absurd hp (by simp)
      · rename_i c rest hsk
        split at hp
        · rename_i hc
          subst hc
          split at hp
          · rename_i t r2 hsb
            simp only [Option.some.injEq, Prod.mk.injEq, JSON.string.injEq] at hp
            obtain ⟨rfl, rfl⟩ := hp
            exact ⟨rest, r2, hsk, hsb, hr⟩
          · exact absurd hp (by simp)
        · split at hp
          · split at hp
            · exact absurd hp (by simp)
            · split at hp
              · simp at hp
              · obtain ⟨l, hl⟩ := parse_elements_array _ _ _ _ hp
                exact absurd hl (by simp)
          · split at hp
            · split at hp
              · exact absurd hp (by simp)
              · split at hp
                · simp at hp
                · obtain ⟨l, hl⟩ := parse_members_object _ _ _ _ hp
                  exact absurd hl (by simp)
            · split at hp
              · simp at hp
              · split at hp
                · simp at hp
                · split at hp
                  · simp at hp
                  · split at hp
                    · simp at hp
                    · exact absurd hp (by simp)
    · exact absurd h (by simp)
  · exact absurd h (by simp)

/-- The zero date for every raw value that reads as a JSON string of fewer
than 10 characters, however the string is written. -/
theorem unmarshalJSON_short_json_string (b s : GoString)
    (h : parseJSON b = some (.string s)) (hs : runeCount s < 10) :
    Time.UnmarshalJSON b = .returned (Time.zero, none) := by
  obtain ⟨rest, r, hsk, hsb, hr⟩ := parseJSON_string b s h
  obtain ⟨sp, hb, hsp⟩ := skipSpace_eq_cons b 34 rest hsk
  apply unmarshalJSON_zero_of_no_date_prefix
  rintro ⟨hlen, hall⟩
  have hrd : ∀ x ∈ r, dateByte x = false :=
    fun x hx => (space_not_date x (skipSpace_empty r hr x hx)).1
  cases sp with
  | nil =>
    rw [hb] at hlen hall
    simp only [List.nil_append, List.filter_cons, bne_self_eq_false, Bool.false_eq_true,
      if_false] at hlen hall
    have := stringBody_date_prefix _ rest s r 10 hsb hrd hlen hall
    omega
  | cons y ys =>
    obtain ⟨hyd, hyq⟩ := space_not_date y (hsp y (List.mem_cons_self y ys))
    rw [hb] at hall
    simp only [List.cons_append, List.filter_cons, hyq, if_true, List.take_succ_cons,
      List.all_cons, hyd, Bool.false_and, Bool.false_eq_true] at hall

/-- C10: `Time.UnmarshalJSON` stores the zero date 0001-01-01 00:00:00 UTC and
returns a nil error for the raw value null, for every string of fewer than 10
characters written as its UTF-8 text between double quotes (characters are
counted, so the text may well be 10 bytes or longer), and for every raw value
that reads as a JSON string of fewer than 10 characters, escapes included. -/
theorem C10_short_values_give_zero :
    Time.UnmarshalJSON (bytes "null") = .returned (Time.zero, none) ∧
    (∀ s : String, s.length < 10 →
      Time.UnmarshalJSON (bytes "\"" ++ bytes s ++ bytes "\"") =
        .returned (Time.zero, none)) ∧
    (∀ raw s : GoString, parseJSON raw = some (.string s) → runeCount s < 10 →
      Time.UnmarshalJSON raw = .returned (Time.zero, none)) := by
  refine ⟨by decide, ?_, unmarshalJSON_short_json_string⟩
  intro s hs
  apply unmarshalJSON_zero_of_no_date_prefix
  rintro ⟨hlen, hall⟩
  have hq : bytes "\"" = [34] := by decide
  have hstrip : (bytes "\"" ++ bytes s ++ bytes "\"").filter (fun c => c != 34)
      = (s.data.flatMap String.utf8EncodeChar).filter (fun c => c != 34) := by
    rw [hq]
    simp [bytes, List.filter_append]
  rw [hstrip] at hlen hall
  have := date_prefix_chars s.data 10 hlen hall
  simp only [String.length] at hs
  omega

/-- Witness of C10 at a seven-character text of eleven bytes and at a
nine-character string written with an escape. -/
theorem C10_short_values_give_zero_witness :
    Time.UnmarshalJSON (bytes "\"" ++ bytes "2015年1月" ++ bytes "\"") =
      .returned (Time.zero, none) ∧
    Time.UnmarshalJSON (bytes "\"\\u0032015-01-0\"") = .returned (Time.zero, none) :=
  ⟨C10_short_values_give_zero.2.1 "2015年1月" (by decide),
   C10_short_values_give_zero.2.2 (bytes "\"\\u0032015-01-0\"") (bytes "2015-01-0") rfl
     (by decide)⟩

/-- A digit byte is a digit, has its value, and is no dash and no quote. -/
theorem digitByte_spec (n : Nat) :
    isDigit (digitByte n) = true ∧ digitVal (digitByte n) = n % 10 ∧
      (digitByte n != 34) = true := by
  have h : ∀ k : Fin 10, isDigit (digitByte k.val) = true ∧ digitVal (digitByte k.val) = k.val ∧
      (digitByte k.val != 34) = true := by decide
  have hk := h ⟨n % 10, Nat.mod_lt n (by decide)⟩
  have he : digitByte (n % 10) = digitByte n := by simp [digitByte]
  simpa [he] using hk

/-- The ten bytes of a formatted date with a year of at most four digits. -/
theorem Time.Format_eq (t : Time) (hy : t.year ≤ 9999) (hm : t.month ≤ 99) (hd : t.day ≤ 99) :
    t.Format = [digitByte (t.year / 1000), digitByte (t.year / 100), digitByte (t.year / 10),
      digitByte t.year, 45, digitByte (t.month / 10), digitByte t.month, 45,
      digitByte (t.day / 10), digitByte t.day] := by
  have h1 : t.year / 10000 = 0 := by omega
  have h2 : t.month / 100 = 0 := by omega
  have h3 : t.day / 100 = 0 := by omega
  simp [Time.Format, appendInt, Nat.div_div_eq_div_mul, h1, h2, h3]

/-- Parsing a formatted calendar date gives the date back. -/
theorem parseDate_Format (t : Time) (hy : t.year ≤ 9999) (hm1 : 1 ≤ t.month)
    (hm2 : t.month ≤ 12) (hd1 : 1 ≤ t.day) (hd2 : t.day ≤ daysIn t.month t.year)
    (hh : t.hour = 0) (hmi : t.minute = 0) (hs : t.second = 0) :
    parseDate t.Format = some t := by
  have hd99 : t.day ≤ 99 := by
    have : daysIn t.month t.year ≤ 31 := by
      unfold daysIn
      split
      · split <;> omega
      · split <;> omega
    omega
  rw [Time.Format_eq t hy (by omega) hd99]
  obtain ⟨a1, a2, _⟩ := digitByte_spec (t.year / 1000)
  obtain ⟨b1, b2, _⟩ := digitByte_spec (t.year / 100)
  obtain ⟨c1, c2, _⟩ := digitByte_spec (t.year / 10)
  obtain ⟨d1, d2, _⟩ := digitByte_spec t.year
  obtain ⟨e1, e2, _⟩ := digitByte_spec (t.month / 10)
  obtain ⟨f1, f2, _⟩ := digitByte_spec t.month
  obtain ⟨g1, g2, _⟩ := digitByte_spec (t.day / 10)
  obtain ⟨i1, i2, _⟩ := digitByte_spec t.day
  have hyear : t.year / 1000 % 10 * 1000 + t.year / 100 % 10 * 100 + t.year / 10 % 10 * 10
      + t.year % 10 = t.year := by omega
  have hmonth : t.month / 10 % 10 * 10 + t.month % 10 = t.month := by omega
  have hday : t.day / 10 % 10 * 10 + t.day % 10 = t.day := by omega
  simp only [parseDate, a1, b1, c1, d1, e1, f1, g1, i1, a2, b2, c2, d2, e2, f2, g2, i2,
    beq_self_eq_true, Bool.and_self, if_true, hyear, hmonth, hday]
  have hmo : ¬ (t.month < 1 ∨ 12 < t.month) := by omega
  have hda : ¬ (t.day < 1 ∨ daysIn t.month t.year < t.day) := by omega
  simp only [hmo, hda, if_false]
  cases t
  simp_all

/-- A formatted date with a year of at most four digits has ten bytes, none
of them a double quote. -/
theorem Time.Format_no_quote (t : Time) (hy : t.year ≤ 9999) (hm : t.month ≤ 99)
    (hd : t.day ≤ 99) :
    t.Format.length = 10 ∧ t.Format.filter (fun c => c != 34) = t.Format := by
  rw [Time.Format_eq t hy hm hd]
  refine ⟨rfl, ?_⟩
  have q := fun n => (digitByte_spec n).2.2
  have h45 : ((45 : UInt8) != 34) = true := by decide
  simp only [List.filter_cons, q, h45, if_true, List.filter_nil]

/-- C11: for every calendar date with a year of at most four digits, written
as YYYY-MM-DD, and every text after it, `Time.UnmarshalJSON` applied to the
quoted string stores exactly that date at 00:00:00 UTC with a nil error:
nothing after the first 10 characters has any effect. -/
theorem C11_date_prefix_parsed (t : Time) (suffix : GoString) (hy : t.year ≤ 9999)
    (hm1 : 1 ≤ t.month) (hm2 : t.month ≤ 12) (hd1 : 1 ≤ t.day)
    (hd2 : t.day ≤ daysIn t.month t.year)
    (hh : t.hour = 0) (hmi : t.minute = 0) (hs : t.second = 0) :
    Time.UnmarshalJSON (bytes "\"" ++ t.Format ++ suffix ++ bytes "\"") =
      .returned (t, none) := by
  have hd99 : t.day ≤ 99 := by
    have : daysIn t.month t.year ≤ 31 := by
      unfold daysIn
      split
      · split <;> omega
      · split <;> omega
    omega
  obtain ⟨hlen, hfil⟩ := Time.Format_no_quote t hy (by omega) hd99
  have hq : bytes "\"" = [34] := by decide
  have hstrip : ([34] ++ t.Format ++ suffix ++ [34]).filter (fun c => c != 34) =
      t.Format ++ suffix.filter (fun c => c != 34) := by
    simp [List.filter_append, hfil]
  have hnull : t.Format ++ suffix.filter (fun c => c != 34) ≠ bytes "null" := by
    intro h
    have := congrArg List.length h
    rw [List.length_append, hlen] at this
    have h4 : (bytes "null").length = 4 := by decide
    omega
  have hlen10 : ¬ (t.Format ++ suffix.filter (fun c => c != 34)).length < 10 := by
    rw [List.length_append, hlen]
    omega
  have htake : List.take 10 (t.Format ++ suffix.filter (fun c => c != 34)) = t.Format := by
    rw [← hlen]
    exact List.take_left' rfl
  unfold Time.UnmarshalJSON
  simp only [hq, ReplaceAll_byte_nil, hstrip, hnull, hlen10, or_self, if_false, sliceTo]
  have hle : 10 ≤ (t.Format ++ suffix.filter (fun c => c != 34)).length := by omega
  simp only [hle, if_true, htake,
    parseDate_Format t hy hm1 hm2 hd1 hd2 hh hmi hs]

/-- Witness of C11 at 29 February 2016 followed by a time of day. -/
theorem C11_date_prefix_parsed_witness :
    Time.UnmarshalJSON (bytes "\"" ++ Time.Format ⟨2016, 2, 29, 0, 0, 0⟩
      ++ bytes "T12:34:56.000Z" ++ bytes "\"") = .returned (⟨2016, 2, 29, 0, 0, 0⟩, none) :=
  C11_date_prefix_parsed ⟨2016, 2, 29, 0, 0, 0⟩ (bytes "T12:34:56.000Z") (by decide)
    (by decide) (by decide) (by decide) (by decide) rfl rfl rfl

set_option maxRecDepth 100000 in
/-- Continuation byte of a UTF-8 sequence. -/
theorem utf8_cont (x : UInt8) : 128 ≤ (x &&& 63 ||| 128) := by
  have h : ∀ n : Fin 256, (128 : UInt8) ≤ ((⟨⟨n⟩⟩ : UInt8) &&& 63 ||| 128) := by decide
  exact h x.toBitVec.toFin

/-- A character is written in UTF-8 as one byte, its code below 128, or as
bytes of 128 or more. -/
theorem utf8_one_or_high (c : Char) :
    (c.val.toNat ≤ 127 ∧ String.utf8EncodeChar c = [UInt8.ofNat c.val.toNat]) ∨
    (∀ b ∈ String.utf8EncodeChar c, 128 ≤ b) := by
  unfold String.utf8EncodeChar
  simp only
  split
  · rename_i hv
    exact Or.inl ⟨hv, rfl⟩
  · right
    split
    · intro b hb
      simp only [List.mem_cons, List.mem_singleton, List.not_mem_nil, or_false] at hb
      rcases hb with rfl | rfl
      · exact utf8_lead2 _
      · exact utf8_cont _
    · split
      · intro b hb
        simp only [List.mem_cons, List.mem_singleton, List.not_mem_nil, or_false] at hb
        rcases hb with rfl | rfl | rfl
        · exact utf8_lead3 _
        · exact utf8_cont _
        · exact utf8_cont _
      · intro b hb
        simp only [List.mem_cons, List.mem_singleton, List.not_mem_nil, or_false] at hb
        rcases hb with rfl | rfl | rfl | rfl
        · exact utf8_lead4 _
        · exact utf8_cont _
        · exact utf8_cont _
        · exact utf8_cont _

/-- Only the double quote character has the byte 34 in its UTF-8 text. -/
theorem utf8_quote_byte (c : Char) (h : 34 ∈ String.utf8EncodeChar c) : c = '"' := by
  rcases utf8_one_or_high c with ⟨hv, hb⟩ | hhigh
  · rw [hb] at h
    simp only [List.mem_singleton] at h
    apply Char.ext
    apply UInt32.ext
    have h2 : (UInt8.ofNat c.val.toNat).toNat = 34 := by rw [← h]; rfl
    rw [UInt8.toNat_ofNat_of_lt (by show c.val.toNat < 256; omega)] at h2
    exact h2
  · exact absurd (hhigh 34 h) (by decide)

/-- The UTF-8 text of characters other than the double quote holds no byte 34. -/
theorem utf8_filter_quote (cs : List Char) (h : ∀ c ∈ cs, c ≠ '"') :
    (cs.flatMap String.utf8EncodeChar).filter (fun c => c != 34) =
      cs.flatMap String.utf8EncodeChar := by
  rw [List.filter_eq_self]
  intro b hb
  obtain ⟨c, hc, hbc⟩ := List.mem_flatMap.mp hb
  have : b ≠ 34 := fun e => h c hc (utf8_quote_byte c (e ▸ hbc))
  simpa using this

/-- When a UTF-8 text starts with `n` date bytes, they are its first `n`
characters. -/
theorem utf8_take_date (cs : List Char) (n : Nat)
    (hlen : n ≤ (cs.flatMap String.utf8EncodeChar).length)
    (hall : ((cs.flatMap String.utf8EncodeChar).take n).all dateByte = true) :
    (cs.take n).flatMap String.utf8EncodeChar = (cs.flatMap String.utf8EncodeChar).take n := by
  induction cs generalizing n with
  | nil => simp
  | cons c cs ih =>
    cases n with
    | zero => simp
    | succ m =>
      simp only [List.flatMap_cons, List.take_succ_cons] at hlen hall ⊢
      rcases utf8_one_or_lead c with ⟨b, hb⟩ | ⟨b, rest, hb, hge⟩
      · rw [hb] at hlen hall ⊢
        simp only [List.singleton_append, List.length_cons, List.take_succ_cons, List.all_cons,
          Bool.and_eq_true] at hlen hall ⊢
        rw [ih m (by omega) hall.2]
      · rw [hb] at hall
        simp only [List.cons_append, List.take_succ_cons, List.all_cons,
          (high_byte_not_date b hge).1, Bool.false_and, Bool.false_eq_true] at hall

/-- In a JSON string read by `stringBody`, a run of `n` date bytes at the start
of the written text (its double quotes removed) is copied as it is to the
start of the string read. -/
theorem stringBody_date_prefix_eq (fuel : Nat) : ∀ (rest s r : GoString) (n : Nat),
    stringBody fuel rest = some (s, r) →
    (∀ x ∈ r, dateByte x = false) →
    n ≤ (rest.filter (fun c => c != 34)).length →
    ((rest.filter (fun c => c != 34)).take n).all dateByte = true →
    s.take n = (rest.filter (fun c => c != 34)).take n := by
  induction fuel with
  | zero =>
    intro rest s r n h
    simp [stringBody] at h
  | succ fuel ih =>
    intro rest s r n h hr hlen hall
    cases n with
    | zero => simp
    | succ m =>
      cases rest with
      | nil => simp [stringBody] at h
      | cons c rest2 =>
        simp only [stringBody] at h
        by_cases h34 : c = 34
        · subst h34
          simp only [if_true, Option.some.injEq, Prod.mk.injEq] at h
          obtain ⟨hs, hr2⟩ := h
          subst hr2
          exfalso
          simp only [List.filter_cons, bne_self_eq_false, Bool.false_eq_true, if_false] at hlen hall
          cases hf : rest2.filter (fun c => c != 34) with
          | nil => rw [hf] at hlen; simp at hlen
          | cons y ys =>
            rw [hf] at hall
            simp only [List.take_succ_cons, List.all_cons, Bool.and_eq_true] at hall
            have hy : y ∈ rest2 := List.mem_of_mem_filter (hf ▸ List.mem_cons_self y ys)
            rw [hr y hy] at hall
            exact absurd hall.1 (by simp)
        · have h34b : (c != 34) = true := by simpa using h34
          simp only [List.filter_cons, h34b, if_true, List.take_succ_cons, List.all_cons,
            Bool.and_eq_true, List.length_cons] at hlen hall ⊢
          by_cases h92 : c = 92
          · subst h92
            exact absurd hall.1 (by decide)
          · simp only [h34, h92, if_false] at h
            split at h
            · exact absurd h (by simp)
            · split at h
              · rename_i s2 r2 hsb
                simp only [Option.some.injEq, Prod.mk.injEq] at h
                obtain ⟨hs, hr2⟩ := h
                subst hs hr2
                have := ih rest2 s2 r2 m hsb hr (by omega) hall.2
                simp only [List.take_succ_cons, this]
              · exact absurd h (by simp)

/-- The zero date for every raw value that reads as a JSON string whose first
ten bytes are no calendar date in the layout 2006-01-02. -/
theorem unmarshalJSON_json_string_no_date (b s : GoString)
    (h : parseJSON b = some (.string s)) (hs : parseDate (s.take 10) = none) :
    Time.UnmarshalJSON b = .returned (Time.zero, none) := by
  obtain ⟨rest, r, hsk, hsb, hr⟩ := parseJSON_string b s h
  obtain ⟨sp, hb, hsp⟩ := skipSpace_eq_cons b 34 rest hsk
  have hrd : ∀ x ∈ r, dateByte x = false :=
    fun x hx => (space_not_date x (skipSpace_empty r hr x hx)).1
  have hq : bytes "\"" = [34] := by decide
  cases sp with
  | cons y ys =>
    apply unmarshalJSON_zero_of_no_date_prefix
    rintro ⟨_, hall⟩
    obtain ⟨hyd, hyq⟩ := space_not_date y (hsp y (List.mem_cons_self y ys))
    rw [hb] at hall
    simp only [List.cons_append, List.filter_cons, hyq, if_true, List.take_succ_cons,
      List.all_cons, hyd, Bool.false_and, Bool.false_eq_true] at hall
  | nil =>
    have hfil : b.filter (fun c => c != 34) = rest.filter (fun c => c != 34) := by
      rw [hb]
      simp
    by_cases hd : 10 ≤ (rest.filter (fun c => c != 34)).length ∧
        ((rest.filter (fun c => c != 34)).take 10).all dateByte = true
    · have heq := stringBody_date_prefix_eq _ rest s r 10 hsb hrd hd.1 hd.2
      unfold Time.UnmarshalJSON
      simp only [hq, ReplaceAll_byte_nil, hfil]
      split
      · rfl
      · simp only [sliceTo, hd.1, if_true, ← heq, hs]
    · apply unmarshalJSON_zero_of_no_date_prefix
      rw [hfil]
      exact hd

/-- C12: `Time.UnmarshalJSON` stores the zero date and returns a nil error for
every string of at least 10 characters whose first 10 characters are no
calendar date in the form YYYY-MM-DD: when the string, free of double quotes,
is written as its UTF-8 text between double quotes, and when it is read from
any raw value that is a JSON string, escapes included. -/
theorem C12_invalid_date_gives_zero :
    (∀ s : String, (∀ c ∈ s.data, c ≠ '"') → 10 ≤ s.length →
      parseDate (bytes ⟨s.data.take 10⟩) = none →
      Time.UnmarshalJSON (bytes "\"" ++ bytes s ++ bytes "\"") =
        .returned (Time.zero, none)) ∧
    (∀ (raw : GoString) (s : String), parseJSON raw = some (.string (bytes s)) →
      10 ≤ s.length → parseDate (bytes ⟨s.data.take 10⟩) = none →
      Time.UnmarshalJSON raw = .returned (Time.zero, none)) := by
  have key : ∀ s : String, parseDate (bytes ⟨s.data.take 10⟩) = none →
      parseDate ((bytes s).take 10) = none := by
    intro s hnone
    cases hp : parseDate ((bytes s).take 10) with
    | none => rfl
    | some t =>
      exfalso
      obtain ⟨hl, hall⟩ := parseDate_some_bytes hp
      have hlen : 10 ≤ (s.data.flatMap String.utf8EncodeChar).length := by
        have h10 : 10 ≤ (bytes s).length := by
          rw [List.length_take] at hl
          omega
        exact h10
      have := utf8_take_date s.data 10 hlen hall
      have he : bytes ⟨s.data.take 10⟩ = (bytes s).take 10 := this
      rw [he, hp] at hnone
      exact absurd hnone (by simp)
  constructor
  · intro s hq _ hnone
    have hq34 : bytes "\"" = [34] := by decide
    have hstrip : (bytes "\"" ++ bytes s ++ bytes "\"").filter (fun c => c != 34) = bytes s := by
      rw [hq34]
      simp only [List.filter_append, List.filter_cons, bne_self_eq_false, Bool.false_eq_true,
        if_false, List.filter_nil, List.nil_append, List.append_nil]
      exact utf8_filter_quote s.data hq
    unfold Time.UnmarshalJSON
    simp only [hq34, ReplaceAll_byte_nil]
    rw [← hq34, hstrip]
    split
    · rfl
    · rename_i hcond
      have hlen : 10 ≤ (bytes s).length := by
        have := (not_or.mp hcond).2
        omega
      simp only [sliceTo, hlen, if_true, key s hnone]
  · intro raw s hparse _ hnone
    exact unmarshalJSON_json_string_no_date raw (bytes s) hparse (key s hnone)

/-- Witness of C12 at 30 February 2015 and at a month 13 written with an escape. -/
theorem C12_invalid_date_gives_zero_witness :
    Time.UnmarshalJSON (bytes "\"" ++ bytes "2015-02-30T00:00:00Z" ++ bytes "\"") =
      .returned (Time.zero, none) ∧
    Time.UnmarshalJSON (bytes "\"2015-1\\u0033-01\"") = .returned (Time.zero, none) :=
  ⟨C12_invalid_date_gives_zero.1 "2015-02-30T00:00:00Z" (by decide) (by decide) (by decide),
   C12_invalid_date_gives_zero.2 (bytes "\"2015-1\\u0033-01\"") "2015-13-01" rfl (by decide)
     (by decide)⟩

/-! ### DRM normaliser -/

/-- The loop of `NormalizeDRMNames` keeps, in order, the table values that
differ from `DRMUnknown`. -/
theorem properDRMs_eq (mapLower : GoString → GoString) (names acc : List GoString) :
    names.foldl (fun (properDRMs : List GoString) name =>
      let name := ToLower mapLower name
      let value := (mapIndex DRMNameMapping name).1
      if value ≠ DRMUnknown then properDRMs ++ [value] else properDRMs) acc
    = acc ++ (names.map fun n => (mapIndex DRMNameMapping (ToLower mapLower n)).1).filter
        (fun v => v ≠ DRMUnknown) := by
  induction names generalizing acc with
  | nil => simp
  | cons n ns ih =>
    simp only [List.foldl_cons, List.map_cons]
    rw [ih]
    by_cases h : (mapIndex DRMNameMapping (ToLower mapLower n)).1 = DRMUnknown
    · simp [h]
    · simp [h]

/-- The value of a map index at a key the table holds. -/
theorem mapIndex_of_lookup {m : List (GoString × GoString)} {k v : GoString}
    (h : m.lookup k = some v) : (mapIndex m k).1 = v := by
  simp [mapIndex, h]

/-- C8: when every lower-cased tag is a key of `DRMNameMapping` and at least
one maps to a name other than "Unknown", `NormalizeDRMNames` returns the
canonical names of the non-Unknown tags joined with "+", in input order and
with repeats kept. -/
theorem C8_normalize_known_tags (mapLower : GoString → GoString) (names : List GoString)
    (hkeys : ∀ n ∈ names, (DRMNameMapping.lookup (ToLower mapLower n)).isSome)
    (hone : ∃ n ∈ names, DRMNameMapping.lookup (ToLower mapLower n) ≠ some DRMUnknown) :
    NormalizeDRMNames mapLower names =
      Join (names.filterMap fun n =>
        (DRMNameMapping.lookup (ToLower mapLower n)).filter (fun v => v ≠ DRMUnknown))
        (bytes "+") := by
  obtain ⟨n0, hn0, hne⟩ := hone
  have hmap : ∀ ns : List GoString,
      (∀ n ∈ ns, (DRMNameMapping.lookup (ToLower mapLower n)).isSome) →
      (ns.map fun n => (mapIndex DRMNameMapping (ToLower mapLower n)).1).filter
        (fun v => v ≠ DRMUnknown)
      = ns.filterMap fun n =>
        (DRMNameMapping.lookup (ToLower mapLower n)).filter (fun v => v ≠ DRMUnknown) := by
    intro ns
    induction ns with
    | nil => intro _; rfl
    | cons a as ih =>
      intro hk
      obtain ⟨v, hv⟩ := Option.isSome_iff_exists.mp (hk a (List.mem_cons_self a as))
      have ih2 := ih (fun n hn => hk n (List.mem_cons_of_mem a hn))
      simp only [List.map_cons, List.filterMap_cons, mapIndex_of_lookup hv, hv]
      by_cases hu : v = DRMUnknown
      · simpa [List.filter_cons, Option.filter, hu] using ih2
      · simpa [List.filter_cons, Option.filter, hu] using ih2
  have hmem : ∃ v, v ∈ names.filterMap (fun n =>
      (DRMNameMapping.lookup (ToLower mapLower n)).filter (fun v => v ≠ DRMUnknown)) := by
    obtain ⟨v, hv⟩ := Option.isSome_iff_exists.mp (hkeys n0 hn0)
    have hvu : v ≠ DRMUnknown := fun h => hne (by rw [hv, h])
    exact ⟨v, List.mem_filterMap.mpr ⟨n0, hn0, by simp [hv, Option.filter, hvu]⟩⟩
  have hnames : names.length ≠ 0 := by
    intro h
    rw [List.length_eq_zero] at h
    rw [h] at hn0
    exact absurd hn0 (List.not_mem_nil _)
  unfold NormalizeDRMNames
  simp only [hnames, if_false]
  rw [properDRMs_eq, List.nil_append, hmap names hkeys]
  obtain ⟨v, hv⟩ := hmem
  have hlen : (names.filterMap fun n =>
      (DRMNameMapping.lookup (ToLower mapLower n)).filter (fun v => v ≠ DRMUnknown)).length ≠ 0 := by
    intro h
    rw [List.length_eq_zero] at h
    rw [h] at hv
    exact absurd hv (List.not_mem_nil _)
  simp only [hlen, if_false]

/-- Witness of C8 at the tags STEAM and steam/arc. -/
theorem C8_normalize_known_tags_witness :
    NormalizeDRMNames id [bytes "STEAM", bytes "steam/arc"] = bytes "Steam+Steam" :=
  (C8_normalize_known_tags id [bytes "STEAM", bytes "steam/arc"] (by decide) (by decide)).trans
    (by decide)

/-- C9: `NormalizeDRMNames` returns exactly "Unknown" for the empty tag list
and for every tag list whose tags, once lower-cased, are all mapped to
"Unknown" by `DRMNameMapping`. -/
theorem C9_normalize_unknown (mapLower : GoString → GoString) :
    NormalizeDRMNames mapLower [] = bytes "Unknown" ∧
    ∀ names : List GoString,
      (∀ n ∈ names, DRMNameMapping.lookup (ToLower mapLower n) = some DRMUnknown) →
      NormalizeDRMNames mapLower names = bytes "Unknown" := by
  refine ⟨rfl, ?_⟩
  intro names hall
  unfold NormalizeDRMNames
  rw [properDRMs_eq, List.nil_append]
  have hnil : (names.map fun n => (mapIndex DRMNameMapping (ToLower mapLower n)).1).filter
      (fun v => v ≠ DRMUnknown) = [] := by
    rw [List.filter_eq_nil_iff]
    intro v hv
    obtain ⟨n, hn, rfl⟩ := List.mem_map.mp hv
    simp [mapIndex_of_lookup (hall n hn)]
  rw [hnil]
  simp only [List.length_nil, if_true]
  split <;> rfl

/-- Witness of C9 at the tags N/A and Windows. -/
theorem C9_normalize_unknown_witness :
    NormalizeDRMNames id [bytes "N/A", bytes "Windows"] = bytes "Unknown" :=
  (C9_normalize_unknown id).2 [bytes "N/A", bytes "Windows"] (by decide)

/-- C2 (evaluation at the failing input): a tag that is no key of
`DRMNameMapping` is not treated like "n/a". The absent tag foo alone gives the
empty string where n/a gives "Unknown", and next to steam it gives "+Steam"
where n/a gives "Steam". -/
theorem C2_absent_tag_differs (mapLower : GoString → GoString) :
    DRMNameMapping.lookup (ToLower mapLower (bytes "foo")) = none ∧
    NormalizeDRMNames mapLower [bytes "foo"] = bytes "" ∧
    NormalizeDRMNames mapLower [bytes "n/a"] = bytes "Unknown" ∧
    NormalizeDRMNames mapLower [bytes "foo", bytes "steam"] = bytes "+Steam" ∧
    NormalizeDRMNames mapLower [bytes "n/a", bytes "steam"] = bytes "Steam" := by
  refine ⟨?_, ?_, ?_, ?_, ?_⟩ <;> rfl

/-! ### Query frame -/

set_option maxRecDepth 1000000 in
/-- C3 (evaluation at the failing inputs): `sendSearchQuery` escapes the
double quotes of the term and leaves its backslashes as they are. For the
term made of one backslash the frame written is no array of one JSON string
any more: the backslash escapes the backslash of the closing `\"`, and the
quote ends the string early. For the term made of four backslashes the frame
reads as JSON at both layers and its `search` member is a single backslash.
For the term a, backslash, b the inner text is no JSON. A term with quotes
only, far "cry" 3, is read back as it was given. -/
theorem C3_backslash_term_corrupts_frame :
    (framesWritten (sendSearchQuery ⟨[], [], []⟩ (bytes "\\") (Itoa 0)
        defaultOptions).1.trace).map envelopeText = [none] ∧
    (framesWritten (sendSearchQuery ⟨[], [], []⟩ (bytes "\\\\\\\\") (Itoa 0)
        defaultOptions).1.trace).map searchTermOnWire = [some (bytes "\\")] ∧
    (framesWritten (sendSearchQuery ⟨[], [], []⟩ (bytes "a\\b") (Itoa 0)
        defaultOptions).1.trace).map searchTermOnWire = [none] ∧
    (framesWritten (sendSearchQuery ⟨[], [], []⟩ (bytes "far \"cry\" 3") (Itoa 0)
        defaultOptions).1.trace).map searchTermOnWire = [some (bytes "far \"cry\" 3")] := by
  refine ⟨?_, ?_, ?_, ?_⟩ <;> decide

/-! ### Search and the receive loop -/

/-- C4: for every term longer than 100 bytes (a term of more than 100
characters is one) and every page, `Search` returns the validation error with
the empty result set, and its trace of network operations is empty: no dial,
no write, no read. -/
theorem C4_long_term_rejected (dec : JSONDecoder) (net : Network) (term : GoString)
    (page : Int) (h : 100 < term.length) :
    Search dec net term page =
      ⟨.returned (SearchResults.empty, some "Search term was >100 characters.\n"), []⟩ := by
  unfold Search
  have h2 : term.length > maxSearchTermLength := h
  simp only [h2, if_true]

/-- Witness of C4 at a term of 101 bytes. -/
theorem C4_long_term_rejected_witness :
    Search ⟨fun _ => none, fun _ => none⟩ ⟨none, [], []⟩ (List.replicate 101 97) 1 =
      ⟨.returned (SearchResults.empty, some "Search term was >100 characters.\n"), []⟩ :=
  C4_long_term_rejected _ _ (List.replicate 101 97) 1 (by decide)

/-- No byte of the result prefix is zero. -/
theorem resultPrefix_no_zero : ∀ b ∈ resultPrefix, b ≠ 0 := by decide

/-- The "Bad request" literal does not begin with the result prefix. -/
theorem badRequest_not_result : ¬ resultPrefix <+: badRequestFrame := by decide

/-- The two fixed error texts and a nil error differ. -/
theorem decodeResponse_ne_badRequest (dec : JSONDecoder) (escaped : GoString) :
    decodeResponse dec escaped ≠ (SearchResults.empty, some errBadRequest) := by
  have hne : errUnhandledResponse ≠ errBadRequest := by decide
  unfold decodeResponse
  intro h
  split at h
  · simp only [Prod.mk.injEq, Option.some.injEq] at h
    exact hne h.2
  · split at h
    · simp only [Prod.mk.injEq, Option.some.injEq] at h
      exact hne h.2
    · simp only [Prod.mk.injEq] at h
      exact absurd h.2 (by simp)

/-- The first 22 bytes of a buffer are the result prefix exactly when the
frame in it begins with the result prefix. -/
theorem sliceTo_eq_prefix_iff (message : ByteSlice) :
    message.sliceTo 22 = .returned resultPrefix ↔ resultPrefix <+: message.data := by
  have hlen : resultPrefix.length = 22 := by decide
  constructor
  · intro h
    unfold ByteSlice.sliceTo at h
    split at h
    · rename_i hcap
      simp only [Outcome.returned.injEq] at h
      by_cases hd : 22 ≤ message.data.length
      · rw [List.take_append_of_le_length hd] at h
        rw [← h]
        exact List.take_prefix _ _
      · exfalso
        have hmem : (0 : UInt8) ∈
            List.take 22 (message.data ++ List.replicate message.spare 0) := by
          rw [List.take_append_eq_append_take]
          apply List.mem_append_right
          rw [List.take_replicate]
          unfold ByteSlice.cap at hcap
          apply List.mem_replicate.mpr
          refine ⟨?_, rfl⟩
          omega
        rw [h] at hmem
        exact resultPrefix_no_zero 0 hmem rfl
    · exact absurd h (by simp)
  · rintro ⟨t, ht⟩
    unfold ByteSlice.sliceTo ByteSlice.cap
    have hcap : 22 ≤ message.data.length + message.spare := by
      rw [← ht, List.length_append, hlen]
      omega
    simp only [hcap, if_true, Outcome.returned.injEq]
    rw [← ht, List.append_assoc, ← hlen]
    exact List.take_left' rfl

/-- A frame that begins with the result prefix is decoded, whatever follows it. -/
theorem result_frame_decoded (dec : JSONDecoder) (message : ByteSlice)
    (rest : List ReadResult) (trace : List NetOp) (h : resultPrefix <+: message.data) :
    receiveLoop dec (.frame message :: rest) trace =
      ⟨.returned (decodeResponse dec (unescapeResponse message.data)), trace ++ [.read]⟩ := by
  have hbad : message.data ≠ badRequestFrame := fun e => badRequest_not_result (e ▸ h)
  rw [receiveLoop]
  simp only [hbad, if_false, (sliceTo_eq_prefix_iff message).mpr h, ne_eq, not_true_eq_false]

/-- A frame that is not the "Bad request" literal and whose buffer does not
start with the result prefix, the buffer having 22 bytes or more, is passed
over: the loop goes on with the next read. -/
theorem other_frame_discarded (dec : JSONDecoder) (message : ByteSlice)
    (rest : List ReadResult) (trace : List NetOp) (hbad : message.data ≠ badRequestFrame)
    (hres : ¬ resultPrefix <+: message.data) (hcap : 22 ≤ message.cap) :
    receiveLoop dec (.frame message :: rest) trace = receiveLoop dec rest (trace ++ [.read]) := by
  have hs := sliceTo_eq_prefix_iff message
  rw [receiveLoop]
  simp only [hbad, if_false]
  unfold ByteSlice.sliceTo at hs ⊢
  simp only [hcap, if_true] at hs ⊢
  have hne : List.take 22 (message.data ++ List.replicate message.spare 0) ≠ resultPrefix :=
    fun e => hres (hs.mp (by rw [e]))
  simp only [ne_eq, hne, not_false_eq_true, if_true]

/-- A frame other than the "Bad request" literal in a buffer of fewer than 22
bytes would make the loop panic at `message[:22]`, whatever would be read
next: the loop relies on the capacity of the buffer it is given (see
`FromReadMessage`), not on a check of its own. -/
theorem short_buffer_panics (dec : JSONDecoder) (message : ByteSlice)
    (rest : List ReadResult) (trace : List NetOp) (hbad : message.data ≠ badRequestFrame)
    (hcap : message.cap < 22) :
    receiveLoop dec (.frame message :: rest) trace =
      ⟨.panicked (.sliceBounds 22 message.cap), trace ++ [.read]⟩ := by
  have hle : ¬ 22 ≤ message.cap := by omega
  rw [receiveLoop]
  simp only [hbad, if_false, ByteSlice.sliceTo, hle]

/-- What the loop does with one frame and nothing after it. -/
theorem receiveLoop_single (dec : JSONDecoder) (message : ByteSlice) (trace : List NetOp) :
    (message.data = badRequestFrame ∧
      (receiveLoop dec [.frame message] trace).outcome =
        .returned (SearchResults.empty, some errBadRequest)) ∨
    (message.data ≠ badRequestFrame ∧ resultPrefix <+: message.data ∧
      (receiveLoop dec [.frame message] trace).outcome =
        .returned (decodeResponse dec (unescapeResponse message.data))) ∨
    (message.data ≠ badRequestFrame ∧ ¬ resultPrefix <+: message.data ∧
      ((receiveLoop dec [.frame message] trace).outcome = .blocked ∨
       ∃ p, (receiveLoop dec [.frame message] trace).outcome = .panicked p)) := by
  by_cases hbad : message.data = badRequestFrame
  · left
    refine ⟨hbad, ?_⟩
    rw [receiveLoop]
    simp only [hbad, if_true]
  · right
    by_cases hres : resultPrefix <+: message.data
    · left
      exact ⟨hbad, hres, by rw [result_frame_decoded dec message [] trace hres]⟩
    · right
      refine ⟨hbad, hres, ?_⟩
      by_cases hcap : 22 ≤ message.cap
      · left
        rw [other_frame_discarded dec message [] trace hbad hres hcap]
        rfl
      · right
        refine ⟨.sliceBounds 22 message.cap, ?_⟩
        rw [receiveLoop]
        simp only [hbad, if_false, ByteSlice.sliceTo, hcap]

/-- C5: in the receive loop a frame ends the call with the fixed "Bad request"
error exactly when it equals the bad-request literal, and it is decoded
exactly when it begins with the 22-byte result prefix; no frame is both; and
in both cases the call ends at that frame, whatever would be read next. -/
theorem C5_frame_classification (dec : JSONDecoder) (message : ByteSlice)
    (writeErrors : List (Option String)) (rest : List ReadResult) (trace : List NetOp) :
    ((waitForSearchResults dec ⟨writeErrors, [.frame message], trace⟩).outcome =
        .returned (SearchResults.empty, some errBadRequest) ↔
      message.data = badRequestFrame) ∧
    ((waitForSearchResults dec ⟨writeErrors, [.frame message], trace⟩).outcome =
        .returned (decodeResponse dec (unescapeResponse message.data)) ↔
      resultPrefix <+: message.data) ∧
    ¬ (message.data = badRequestFrame ∧ resultPrefix <+: message.data) ∧
    (message.data = badRequestFrame →
      waitForSearchResults dec ⟨writeErrors, .frame message :: rest, trace⟩ =
        ⟨.returned (SearchResults.empty, some errBadRequest), trace ++ [.read]⟩) ∧
    (resultPrefix <+: message.data →
      waitForSearchResults dec ⟨writeErrors, .frame message :: rest, trace⟩ =
        ⟨.returned (decodeResponse dec (unescapeResponse message.data)), trace ++ [.read]⟩) := by
  unfold waitForSearchResults
  simp only
  have hboth : ¬ (message.data = badRequestFrame ∧ resultPrefix <+: message.data) :=
    fun ⟨e, hp⟩ => badRequest_not_result (e ▸ hp)
  refine ⟨?_, ?_, hboth, ?_, ?_⟩
  · constructor
    · intro h
      rcases receiveLoop_single dec message trace with ⟨hb, _⟩ | ⟨_, _, ho⟩ | ⟨_, _, ho | ⟨p, ho⟩⟩
      · exact hb
      · rw [ho] at h
        simp only [Outcome.returned.injEq] at h
        exact absurd h (decodeResponse_ne_badRequest dec _)
      · rw [ho] at h
        exact absurd h (by simp)
      · rw [ho] at h
        exact absurd h (by simp)
    · intro hb
      rcases receiveLoop_single dec message trace with ⟨_, ho⟩ | ⟨hn, _⟩ | ⟨hn, _⟩
      · exact ho
      · exact absurd hb hn
      · exact absurd hb hn
  · constructor
    · intro h
      rcases receiveLoop_single dec message trace with ⟨_, ho⟩ | ⟨_, hp, _⟩ | ⟨_, _, ho | ⟨p, ho⟩⟩
      · rw [ho] at h
        simp only [Outcome.returned.injEq] at h
        exact absurd h.symm (decodeResponse_ne_badRequest dec _)
      · exact hp
      · rw [ho] at h
        exact absurd h (by simp)
      · rw [ho] at h
        exact absurd h (by simp)
    · intro hp
      rw [result_frame_decoded dec message [] trace hp]
  · intro hb
    rw [receiveLoop]
    simp only [hb, if_true]
  · intro hp
    exact result_frame_decoded dec message rest trace hp

/-- Witness of C5 at a result frame followed by a failing read. -/
theorem C5_frame_classification_witness :
    waitForSearchResults ⟨fun _ => none, fun _ => none⟩
      ⟨[], [.frame ⟨bytes "a[\"\x7b\\\"msg\\\":\\\"result\\\",\\\"id\\\":\\\"1\\\"\x7d\"]", 0⟩,
        .failed "EOF"], []⟩ =
      ⟨.returned (decodeResponse ⟨fun _ => none, fun _ => none⟩
        (unescapeResponse (bytes "a[\"\x7b\\\"msg\\\":\\\"result\\\",\\\"id\\\":\\\"1\\\"\x7d\"]"))),
        [.read]⟩ :=
  (C5_frame_classification ⟨fun _ => none, fun _ => none⟩
    ⟨bytes "a[\"\x7b\\\"msg\\\":\\\"result\\\",\\\"id\\\":\\\"1\\\"\x7d\"]", 0⟩ []
    [.failed "EOF"] []).2.2.2.2 (by decide)

/-- A frame shorter than the result prefix is neither the "Bad request"
literal nor begun by the result prefix. -/
theorem short_frame_is_other (data : GoString) (h : data.length < 22) :
    data ≠ badRequestFrame ∧ ¬ resultPrefix <+: data := by
  have hb : badRequestFrame.length = 51 := by decide
  have hp : resultPrefix.length = 22 := by decide
  constructor
  · intro e
    rw [e, hb] at h
    omega
  · intro hpre
    have := hpre.length_le
    omega

/-- C6: every frame that is neither the "Bad request" literal nor begun by
the result prefix is discarded without failure, whatever its length: with the
frame in a buffer as `ws.ReadMessage` returns it, `waitForSearchResults` does
after one read what it does on the frames that follow, so the loop goes on to
the next frame. Every frame shorter than the 22-byte prefix is such a frame,
the one-byte heartbeat frame and the empty frame among them. -/
theorem C6_other_frames_discarded (dec : JSONDecoder) (message : ByteSlice)
    (writeErrors : List (Option String)) (rest : List ReadResult) (trace : List NetOp)
    (hbuf : FromReadMessage message) :
    (message.data ≠ badRequestFrame → ¬ resultPrefix <+: message.data →
      waitForSearchResults dec ⟨writeErrors, .frame message :: rest, trace⟩ =
        waitForSearchResults dec ⟨writeErrors, rest, trace ++ [.read]⟩) ∧
    (message.data.length < 22 →
      message.data ≠ badRequestFrame ∧ ¬ resultPrefix <+: message.data ∧
      waitForSearchResults dec ⟨writeErrors, .frame message :: rest, trace⟩ =
        waitForSearchResults dec ⟨writeErrors, rest, trace ++ [.read]⟩) := by
  have hcap : 22 ≤ message.cap := by
    unfold FromReadMessage readAllCapacity at hbuf
    omega
  have hgo : message.data ≠ badRequestFrame → ¬ resultPrefix <+: message.data →
      waitForSearchResults dec ⟨writeErrors, .frame message :: rest, trace⟩ =
        waitForSearchResults dec ⟨writeErrors, rest, trace ++ [.read]⟩ := by
    intro hbad hres
    unfold waitForSearchResults
    exact other_frame_discarded dec message rest trace hbad hres hcap
  refine ⟨hgo, ?_⟩
  intro hshort
  obtain ⟨hbad, hres⟩ := short_frame_is_other message.data hshort
  exact ⟨hbad, hres, hgo hbad hres⟩

set_option maxRecDepth 100000 in
/-- Witness of C6: the heartbeat frame h and the empty frame, each in a buffer
of 512 bytes, are passed over, and the "Bad request" frame after them ends
the call, three reads having been made. -/
theorem C6_other_frames_discarded_witness :
    waitForSearchResults ⟨fun _ => none, fun _ => none⟩
      ⟨[], [.frame ⟨bytes "h", 511⟩, .frame ⟨[], 512⟩, .frame ⟨badRequestFrame, 461⟩], []⟩ =
      ⟨.returned (SearchResults.empty, some errBadRequest), [.read, .read, .read]⟩ :=
  ((C6_other_frames_discarded ⟨fun _ => none, fun _ => none⟩ ⟨bytes "h", 511⟩ []
    [.frame ⟨[], 512⟩, .frame ⟨badRequestFrame, 461⟩] [] (by decide)).2 (by decide)).2.2.trans
  (((C6_other_frames_discarded ⟨fun _ => none, fun _ => none⟩ ⟨[], 512⟩ []
    [.frame ⟨badRequestFrame, 461⟩] ([] ++ [.read]) (by decide)).2 (by decide)).2.2.trans
    (by decide))

/-- The loop passes over any number of other frames. -/
theorem receiveLoop_skip_others (dec : JSONDecoder) (others : List ByteSlice)
    (rest : List ReadResult) (trace : List NetOp) (h : ∀ m ∈ others, OtherFrame m) :
    receiveLoop dec (others.map .frame ++ rest) trace =
      receiveLoop dec rest (trace ++ List.replicate others.length .read) := by
  induction others generalizing trace with
  | nil => simp
  | cons m ms ih =>
    obtain ⟨h1, h2, h3⟩ := h m (List.mem_cons_self m ms)
    simp only [List.map_cons, List.cons_append]
    rw [other_frame_discarded dec m _ trace h1 h2 h3,
      ih _ (fun x hx => h x (List.mem_cons_of_mem m hx))]
    simp [List.replicate_succ]

/-- The loop writes nothing: the frames written are those written before it. -/
theorem framesWritten_receiveLoop (dec : JSONDecoder) (reads : List ReadResult)
    (trace : List NetOp) :
    framesWritten (receiveLoop dec reads trace).trace = framesWritten trace := by
  induction reads generalizing trace with
  | nil => simp [receiveLoop, framesWritten]
  | cons r rs ih =>
    cases r with
    | failed cause => simp [receiveLoop, framesWritten]
    | frame message =>
      rw [receiveLoop]
      split
      · simp [framesWritten]
      · split
        · simp [framesWritten]
        · simp [framesWritten]
        · split
          · rw [ih]
            simp [framesWritten]
          · simp [framesWritten]

/-- `Search` fails at once, with the error of `connectToWebsocket`, when
dialling fails. -/
theorem Search_dial_failed (dec : JSONDecoder) (net : Network) (term : GoString) (page : Int)
    (hlen : term.length ≤ 100) (cause : String) (hdial : net.dialError = some cause) :
    Search dec net term page =
      ⟨.returned (SearchResults.empty, some errNotAccepted), [.dial socketURL]⟩ := by
  have h2 : ¬ term.length > maxSearchTermLength := by
    unfold maxSearchTermLength
    omega
  simp [Search, h2, connectToWebsocket, Dial, hdial, errNotAccepted, socketURL]

/-- `Search` fails with the error of `connectToWebsocket` when the negotiation
frame cannot be written. -/
theorem Search_connect_failed (dec : JSONDecoder) (net : Network) (term : GoString)
    (page : Int) (hlen : term.length ≤ 100) (hdial : net.dialError = none) (cause : String)
    (hw : net.writeErrors.getD 0 none = some cause) :
    Search dec net term page =
      ⟨.returned (SearchResults.empty, some errNotAccepted),
        [.dial socketURL, .write connectFrame]⟩ := by
  have h2 : ¬ term.length > maxSearchTermLength := by
    unfold maxSearchTermLength
    omega
  cases hwe : net.writeErrors with
  | nil => rw [hwe] at hw; simp at hw
  | cons e es =>
    rw [hwe] at hw
    simp only [List.getD_cons_zero] at hw
    subst hw
    simp [Search, h2, connectToWebsocket, Dial, hdial, Conn.WriteMessage, hwe, errNotAccepted,
      socketURL, connectFrame]

/-- `Search` fails with `errCouldNotReachSite` when the query frame cannot be
written; the connection is closed. -/
theorem Search_send_failed (dec : JSONDecoder) (net : Network) (term : GoString)
    (page : Int) (hlen : term.length ≤ 100) (hdial : net.dialError = none)
    (hw0 : net.writeErrors.getD 0 none = none) (cause : String)
    (hw1 : net.writeErrors.getD 1 none = some cause) :
    Search dec net term page =
      ⟨.returned (SearchResults.empty, some errCouldNotReachSite),
        [.dial socketURL, .write connectFrame,
          .write (searchQueryFrame (escapedTerm term) (Itoa page) defaultOptions), .close]⟩ := by
  have h2 : ¬ term.length > maxSearchTermLength := by
    unfold maxSearchTermLength
    omega
  cases hwe : net.writeErrors with
  | nil => rw [hwe] at hw1; simp at hw1
  | cons e es =>
    rw [hwe] at hw0 hw1
    simp only [List.getD_cons_zero, List.getD_cons_succ] at hw0 hw1
    subst hw0
    cases es with
    | nil => simp at hw1
    | cons e2 es2 =>
      simp only [List.getD_cons_zero] at hw1
      subst hw1
      simp [Search, h2, connectToWebsocket, Dial, hdial, Conn.WriteMessage, hwe,
        sendSearchQuery, Conn.Close, socketURL, connectFrame, escapedTerm, defaultOptions]

/-- Once both frames are written, `Search` ends as the receive loop does. -/
theorem Search_connected (dec : JSONDecoder) (net : Network) (term : GoString)
    (page : Int) (hlen : term.length ≤ 100) (hdial : net.dialError = none)
    (hw0 : net.writeErrors.getD 0 none = none) (hw1 : net.writeErrors.getD 1 none = none) :
    Search dec net term page =
      searchEnd (receiveLoop dec net.reads [.dial socketURL, .write connectFrame,
        .write (searchQueryFrame (escapedTerm term) (Itoa page) defaultOptions)]) := by
  have h2 : ¬ term.length > maxSearchTermLength := by
    unfold maxSearchTermLength
    omega
  cases hwe : net.writeErrors with
  | nil =>
    simp [Search, h2, connectToWebsocket, Dial, hdial, Conn.WriteMessage, hwe,
      sendSearchQuery, waitForSearchResults, socketURL, connectFrame, escapedTerm,
      defaultOptions, searchEnd]
  | cons e es =>
    rw [hwe] at hw0 hw1
    simp only [List.getD_cons_zero, List.getD_cons_succ] at hw0 hw1
    subst hw0
    cases es with
    | nil =>
      simp [Search, h2, connectToWebsocket, Dial, hdial, Conn.WriteMessage, hwe,
        sendSearchQuery, waitForSearchResults, socketURL, connectFrame, escapedTerm,
        defaultOptions, searchEnd]
    | cons e2 es2 =>
      simp only [List.getD_cons_zero] at hw1
      subst hw1
      simp [Search, h2, connectToWebsocket, Dial, hdial, Conn.WriteMessage, hwe,
        sendSearchQuery, waitForSearchResults, socketURL, connectFrame, escapedTerm,
        defaultOptions, searchEnd]

/-- Digits produced by `Nat.toDigitsCore` in base 10 are decimal digits. -/
theorem toDigitsCore_digits (fuel : Nat) : ∀ (n : Nat) (ds : List Char),
    (∀ c ∈ ds, c ≠ '"') → ∀ c ∈ Nat.toDigitsCore 10 fuel n ds, c ≠ '"' := by
  induction fuel with
  | zero =>
    intro n ds hds c hc
    simp only [Nat.toDigitsCore] at hc
    exact hds c hc
  | succ fuel ih =>
    intro n ds hds c hc
    have hd : (n % 10).digitChar ≠ '"' := by
      have h : ∀ k : Fin 10, k.val.digitChar ≠ '"' := by decide
      exact h ⟨n % 10, Nat.mod_lt n (by decide)⟩
    have hds2 : ∀ c ∈ (n % 10).digitChar :: ds, c ≠ '"' := by
      intro x hx
      rcases List.mem_cons.mp hx with rfl | hx
      · exact hd
      · exact hds x hx
    simp only [Nat.toDigitsCore] at hc
    split at hc
    · exact hds2 c hc
    · exact ih _ _ hds2 c hc

/-- The decimal text of an integer holds no double quote. -/
theorem Itoa_no_quote (n : Int) : escapeQuotes (Itoa n) = Itoa n := by
  have hnat : ∀ m : Nat, ∀ c ∈ (toString m).data, c ≠ '"' := by
    intro m c hc
    exact toDigitsCore_digits _ _ [] (fun x hx => absurd hx (List.not_mem_nil x)) c hc
  have hchars : ∀ c ∈ (toString n).data, c ≠ '"' := by
    cases n with
    | ofNat m => exact hnat m
    | negSucc m =>
      intro c hc
      have hc2 : c ∈ ("-" ++ toString (m + 1)).data := hc
      rw [String.data_append] at hc2
      rcases List.mem_append.mp hc2 with h | h
      · have : c = '-' := by simpa using h
        rw [this]
        decide
      · exact hnat _ c h
  have hno : ∀ b ∈ Itoa n, b ≠ 34 := by
    intro b hb e
    obtain ⟨c, hc, hbc⟩ := List.mem_flatMap.mp hb
    exact hchars c hc (utf8_quote_byte c (e ▸ hbc))
  unfold escapeQuotes
  generalize Itoa n = l at hno
  induction l with
  | nil => rfl
  | cons x xs ih =>
    have hx : x ≠ 34 := hno x (List.mem_cons_self x xs)
    rw [List.flatMap_cons, ih (fun b hb => hno b (List.mem_cons_of_mem x hb))]
    simp [hx]

/-- A text without double quotes is left as it is by `escapeQuotes`. -/
theorem escapeQuotes_no_quote (t : GoString) (h : 34 ∉ t) : escapeQuotes t = t := by
  unfold escapeQuotes
  induction t with
  | nil => rfl
  | cons x xs ih =>
    have hx : x ≠ 34 := fun e => h (e ▸ List.mem_cons_self x xs)
    rw [List.flatMap_cons, ih (fun hm => h (List.mem_cons_of_mem x hm))]
    simp [hx]

/-- A text without double quotes is left as it is by the replacement of
`sendSearchQuery`. -/
theorem ReplaceAll_no_quote (t new : GoString) (h : 34 ∉ t) : ReplaceAll t [34] new = t := by
  unfold ReplaceAll
  induction t with
  | nil => rfl
  | cons x xs ih =>
    have hx : ¬ (34 : UInt8) = x := fun e => h (e ▸ List.mem_cons_self x xs)
    simp [replaceFrom, List.isPrefixOf, hx, ih (fun hm => h (List.mem_cons_of_mem x hm))]

/-- A text that neither starts nor ends with white space is left as it is by
`TrimSpace`. -/
theorem TrimSpace_no_space (t : GoString) (hfront : ∀ e ∈ spaceEncodings, ¬ e <+: t)
    (hback : ∀ e ∈ spaceEncodings, ¬ e <:+ t) : TrimSpace t = t := by
  have h1 : ∀ fuel, trimLeading spaceEncodings fuel t = t := by
    intro fuel
    cases fuel with
    | zero => rfl
    | succ fuel =>
      have : spaceEncodings.find? (fun e => e.isPrefixOf t) = none := by
        rw [List.find?_eq_none]
        intro e he hp
        exact hfront e he (List.isPrefixOf_iff_prefix.mp hp)
      simp [trimLeading, this]
  have h2 : ∀ fuel, trimLeading (spaceEncodings.map List.reverse) fuel t.reverse = t.reverse := by
    intro fuel
    cases fuel with
    | zero => rfl
    | succ fuel =>
      have : (spaceEncodings.map List.reverse).find? (fun e => e.isPrefixOf t.reverse) = none := by
        rw [List.find?_eq_none]
        intro e he hp
        obtain ⟨e0, he0, rfl⟩ := List.mem_map.mp he
        exact hback e0 he0 (List.reverse_prefix.mp (List.isPrefixOf_iff_prefix.mp hp))
      simp [trimLeading, this]
  unfold TrimSpace
  simp only [h1, h2, List.reverse_reverse]

set_option maxRecDepth 100000 in
/-- The query frame with the options `Search` passes, spelled out. -/
theorem searchQueryFrame_default (term page : GoString) :
    searchQueryFrame term page defaultOptions =
      bytes "[\"\x7b\\\"msg\\\":\\\"method\\\",\\\"method\\\":\\\"games.page\\\",\\\"params\\\":[\x7b\\\"page\\\":"
        ++ page
        ++ bytes ",\\\"orderType\\\":\\\"title\\\",\\\"orderDown\\\":false,\\\"search\\\":\\\""
        ++ term
        ++ bytes "\\\",\\\"unset\\\":0,\\\"released\\\":0,\\\"cracked\\\":0,\\\"isAAA\\\":0\x7d],\\\"id\\\":\\\"1\\\"\x7d\"]" := by
  have h2 : bytes ",\\\"orderType\\\":\\\"" ++ OrderTypeTitle ++ bytes "\\\",\\\"orderDown\\\":"
      ++ SortOrderAsc ++ bytes ",\\\"search\\\":\\\""
      = bytes ",\\\"orderType\\\":\\\"title\\\",\\\"orderDown\\\":false,\\\"search\\\":\\\"" := by
    decide
  have h3 : bytes "\\\",\\\"unset\\\":0,\\\"released\\\":" ++ ReleaseStatusAll
      ++ bytes ",\\\"cracked\\\":" ++ CrackStatusAll ++ bytes ",\\\"isAAA\\\":" ++ StudioAll
      ++ bytes "\x7d],\\\"id\\\":\\\"1\\\"\x7d\"]"
      = bytes "\\\",\\\"unset\\\":0,\\\"released\\\":0,\\\"cracked\\\":0,\\\"isAAA\\\":0\x7d],\\\"id\\\":\\\"1\\\"\x7d\"]" := by
    decide
  rw [← h2, ← h3]
  simp only [searchQueryFrame, defaultOptions, List.append_assoc]

/-- Closing the connection writes nothing. -/
theorem framesWritten_searchEnd (run : Run (SearchResults × Option GoError)) :
    framesWritten (searchEnd run).trace = framesWritten run.trace := by
  obtain ⟨outcome, trace⟩ := run
  cases outcome with
  | returned a =>
    obtain ⟨r, e⟩ := a
    cases e <;> simp [searchEnd, framesWritten]
  | panicked p => simp [searchEnd, framesWritten]
  | blocked => simp [searchEnd, framesWritten]

/-- C13 (as stated, refuted): a failed dial and a failed read make `Search`
return two different error messages. -/
theorem C13_two_messages :
    (Search ⟨fun _ => none, fun _ => none⟩ ⟨some "connection refused", [], []⟩
        (bytes "x") 0).outcome =
      .returned (SearchResults.empty,
        some "crackwatch.com did not accept our websocket connection.") ∧
    (Search ⟨fun _ => none, fun _ => none⟩ ⟨none, [], [.failed "EOF"]⟩
        (bytes "x") 0).outcome =
      .returned (SearchResults.empty, some "crackwatch.com could not be reached.") ∧
    (Search ⟨fun _ => none, fun _ => none⟩ ⟨some "connection refused", [], []⟩
        (bytes "x") 0).outcome ≠
      (Search ⟨fun _ => none, fun _ => none⟩ ⟨none, [], [.failed "EOF"]⟩
        (bytes "x") 0).outcome := by
  refine ⟨?_, ?_, ?_⟩ <;> decide

/-- C13 (amended): every connection failure inside `Search` makes it return a
fixed message that does not depend on the cause, one of two: the message of
`connectToWebsocket` when dialling or writing the negotiation frame fails, and
`errCouldNotReachSite` when writing the query frame fails or when a read
fails, after any number of frames passed over. -/
theorem C13_connection_errors (dec : JSONDecoder) (net : Network) (term : GoString)
    (page : Int) (hlen : term.length ≤ 100) :
    (∀ cause, net.dialError = some cause →
      (Search dec net term page).outcome =
        .returned (SearchResults.empty,
          some "crackwatch.com did not accept our websocket connection.")) ∧
    (net.dialError = none → ∀ cause, net.writeErrors.getD 0 none = some cause →
      (Search dec net term page).outcome =
        .returned (SearchResults.empty,
          some "crackwatch.com did not accept our websocket connection.")) ∧
    (net.dialError = none → net.writeErrors.getD 0 none = none →
      ∀ cause, net.writeErrors.getD 1 none = some cause →
      (Search dec net term page).outcome =
        .returned (SearchResults.empty, some "crackwatch.com could not be reached.")) ∧
    (net.dialError = none → net.writeErrors.getD 0 none = none →
      net.writeErrors.getD 1 none = none →
      ∀ (others : List ByteSlice) (cause : String) (rest : List ReadResult),
      net.reads = others.map .frame ++ .failed cause :: rest →
      (∀ m ∈ others, OtherFrame m) →
      (Search dec net term page).outcome =
        .returned (SearchResults.empty, some "crackwatch.com could not be reached.")) := by
  refine ⟨?_, ?_, ?_, ?_⟩
  · intro cause hd
    rw [Search_dial_failed dec net term page hlen cause hd]
    rfl
  · intro hd cause hw
    rw [Search_connect_failed dec net term page hlen hd cause hw]
    rfl
  · intro hd hw0 cause hw1
    rw [Search_send_failed dec net term page hlen hd hw0 cause hw1]
    rfl
  · intro hd hw0 hw1 others cause rest hreads hothers
    rw [Search_connected dec net term page hlen hd hw0 hw1, hreads,
      receiveLoop_skip_others dec others _ _ hothers]
    rfl

/-- Witness of C13 (amended) at a read that fails after a heartbeat frame. -/
theorem C13_connection_errors_witness :
    (Search ⟨fun _ => none, fun _ => none⟩
        ⟨none, [], [.frame ⟨bytes "h", 511⟩, .failed "unexpected EOF"]⟩ (bytes "x") 0).outcome =
      .returned (SearchResults.empty, some "crackwatch.com could not be reached.") :=
  (C13_connection_errors ⟨fun _ => none, fun _ => none⟩
    ⟨none, [], [.frame ⟨bytes "h", 511⟩, .failed "unexpected EOF"]⟩ (bytes "x") 0
    (by decide)).2.2.2 rfl rfl rfl [⟨bytes "h", 511⟩] "unexpected EOF" [] rfl (by decide)

set_option maxRecDepth 1000000 in
/-- C14 (as stated, refuted): `Search` called with page 1 writes a query frame
whose `page` is 1, not 0. -/
theorem C14_page_not_decremented :
    (framesWritten (Search ⟨fun _ => none, fun _ => none⟩ ⟨none, [], []⟩
        (bytes "x") 1).trace).map pageOnWire = [none, some (bytes "1")] ∧
    Itoa (1 - 1) = bytes "0" := by
  constructor <;> decide

/-- C14 (amended): for every term that passes validation and every page `p`,
once the socket is dialled and the negotiation frame written, `Search` writes
one more frame, the query frame, and the `page` value in it is the decimal
text of `p` itself: `Search` subtracts nothing. -/
theorem C14_page_unchanged (dec : JSONDecoder) (net : Network) (term : GoString)
    (p : Int) (hlen : term.length ≤ 100) (hdial : net.dialError = none)
    (hw0 : net.writeErrors.getD 0 none = none) :
    framesWritten (Search dec net term p).trace =
      [connectFrame,
       bytes "[\"\x7b\\\"msg\\\":\\\"method\\\",\\\"method\\\":\\\"games.page\\\",\\\"params\\\":[\x7b\\\"page\\\":"
        ++ Itoa p
        ++ bytes ",\\\"orderType\\\":\\\"title\\\",\\\"orderDown\\\":false,\\\"search\\\":\\\""
        ++ escapedTerm term
        ++ bytes "\\\",\\\"unset\\\":0,\\\"released\\\":0,\\\"cracked\\\":0,\\\"isAAA\\\":0\x7d],\\\"id\\\":\\\"1\\\"\x7d\"]"] := by
  rw [← searchQueryFrame_default]
  cases hw1 : net.writeErrors.getD 1 none with
  | some cause =>
    rw [Search_send_failed dec net term p hlen hdial hw0 cause hw1]
    simp [framesWritten]
  | none =>
    rw [Search_connected dec net term p hlen hdial hw0 hw1, framesWritten_searchEnd,
      framesWritten_receiveLoop]
    simp [framesWritten]

set_option maxRecDepth 1000000 in
/-- Witness of C14 (amended) at the term far cry and page 2. -/
theorem C14_page_unchanged_witness :
    (framesWritten (Search ⟨fun _ => none, fun _ => none⟩ ⟨none, [], []⟩
        (bytes "far cry") 2).trace).map pageOnWire = [none, some (bytes "2")] := by
  rw [C14_page_unchanged ⟨fun _ => none, fun _ => none⟩ ⟨none, [], []⟩ (bytes "far cry") 2
    (by decide) rfl rfl]
  decide

/-- With nothing but other frames to read, the loop is still waiting. -/
theorem receiveLoop_others_blocked (dec : JSONDecoder) (others : List ByteSlice)
    (trace : List NetOp) (h : ∀ m ∈ others, OtherFrame m) :
    (receiveLoop dec (others.map .frame) trace).outcome = .blocked := by
  have := receiveLoop_skip_others dec others [] trace h
  rw [List.append_nil] at this
  rw [this]
  rfl

/-- A frame of 22 bytes or more that is neither the "Bad request" literal nor
begun by the result prefix is an other frame, whatever its buffer. -/
theorem OtherFrame_of_length (m : ByteSlice) (h1 : m.data ≠ badRequestFrame)
    (h2 : ¬ resultPrefix <+: m.data) (h3 : 22 ≤ m.data.length) : OtherFrame m :=
  ⟨h1, h2, by unfold ByteSlice.cap; omega⟩

/-- C15: other frames never change the outcome. For every sequence of other
frames, each at least 22 bytes long, followed by a frame that is the "Bad
request" literal or begins with the result prefix, `waitForSearchResults`
returns what it returns when that last frame arrives alone, after one read
per frame; and as long as only some of the other frames have arrived it has
returned nothing: it is waiting on a read. -/
theorem C15_other_frames_ignored (dec : JSONDecoder) (writeErrors : List (Option String))
    (trace : List NetOp) (others : List ByteSlice) (last : ByteSlice)
    (hothers : ∀ m ∈ others, m.data ≠ badRequestFrame ∧ ¬ resultPrefix <+: m.data ∧
      22 ≤ m.data.length)
    (hlast : last.data = badRequestFrame ∨ resultPrefix <+: last.data) :
    (waitForSearchResults dec ⟨writeErrors, others.map .frame ++ [.frame last], trace⟩).outcome =
      (waitForSearchResults dec ⟨writeErrors, [.frame last], trace⟩).outcome ∧
    (∃ result, (waitForSearchResults dec ⟨writeErrors, [.frame last], trace⟩).outcome =
      .returned result) ∧
    (waitForSearchResults dec ⟨writeErrors, others.map .frame ++ [.frame last], trace⟩).trace =
      trace ++ List.replicate (others.length + 1) .read ∧
    (∀ k, (waitForSearchResults dec ⟨writeErrors, (others.take k).map .frame, trace⟩).outcome =
      .blocked) := by
  have ho : ∀ m ∈ others, OtherFrame m :=
    fun m hm => OtherFrame_of_length m (hothers m hm).1 (hothers m hm).2.1 (hothers m hm).2.2
  have hl : ∀ tr, receiveLoop dec [.frame last] tr =
      ⟨(receiveLoop dec [.frame last] trace).outcome, tr ++ [.read]⟩ ∧
      ∃ result, (receiveLoop dec [.frame last] trace).outcome = .returned result := by
    intro tr
    rcases hlast with hb | hp
    · have hbt : ∀ tr2, receiveLoop dec [.frame last] tr2 =
          ⟨.returned (SearchResults.empty, some errBadRequest), tr2 ++ [.read]⟩ := by
        intro tr2
        rw [receiveLoop]
        simp only [hb, if_true]
      rw [hbt tr, hbt trace]
      exact ⟨rfl, _, rfl⟩
    · rw [result_frame_decoded dec last [] tr hp, result_frame_decoded dec last [] trace hp]
      exact ⟨rfl, _, rfl⟩
  unfold waitForSearchResults
  simp only
  rw [receiveLoop_skip_others dec others _ trace ho, (hl _).1]
  refine ⟨rfl, (hl trace).2, ?_, ?_⟩
  · simp [List.replicate_succ', List.append_assoc]
  · intro k
    exact receiveLoop_others_blocked dec _ trace
      (fun m hm => ho m (List.mem_of_mem_take hm))

/-- Witness of C15 at two other frames before a "Bad request" frame. -/
theorem C15_other_frames_ignored_witness :
    (waitForSearchResults ⟨fun _ => none, fun _ => none⟩
      ⟨[], [.frame ⟨bytes "a[\"\x7b\\\"server_id\\\":\\\"0\\\"\x7d\"]", 0⟩,
        .frame ⟨bytes "a[\"\x7b\\\"msg\\\":\\\"connected\\\"\x7d\"]", 0⟩,
        .frame ⟨badRequestFrame, 0⟩], []⟩).outcome =
      .returned (SearchResults.empty, some errBadRequest) :=
  (C15_other_frames_ignored ⟨fun _ => none, fun _ => none⟩ [] []
    [⟨bytes "a[\"\x7b\\\"server_id\\\":\\\"0\\\"\x7d\"]", 0⟩,
     ⟨bytes "a[\"\x7b\\\"msg\\\":\\\"connected\\\"\x7d\"]", 0⟩]
    ⟨badRequestFrame, 0⟩ (by decide) (Or.inl rfl)).1.trans (by decide)

set_option maxRecDepth 100000 in
/-- C16: for every frame begun by the result prefix, read after any number of
other frames, `Search` returns the empty result set with the one fixed error
`errUnhandledResponse`, whose text points to https://crackwatch.com/games,
when the un-escaped payload does not unmarshal into a map, when the value
under "result" does not unmarshal into a `SearchResults`, and when there is no
"result" in the map (unmarshalling no input at all being an error). -/
theorem C16_decode_errors (dec : JSONDecoder) (net : Network) (term : GoString) (page : Int)
    (others : List ByteSlice) (message : ByteSlice) (rest : List ReadResult)
    (hlen : term.length ≤ 100) (hdial : net.dialError = none)
    (hw0 : net.writeErrors.getD 0 none = none) (hw1 : net.writeErrors.getD 1 none = none)
    (hreads : net.reads = others.map .frame ++ .frame message :: rest)
    (hothers : ∀ m ∈ others, OtherFrame m) (hres : resultPrefix <+: message.data) :
    (dec.unmarshalMap (unescapeResponse message.data) = none →
      (Search dec net term page).outcome =
        .returned (SearchResults.empty, some errUnhandledResponse)) ∧
    (∀ responseMap, dec.unmarshalMap (unescapeResponse message.data) = some responseMap →
      dec.unmarshalResults (mapIndex responseMap (bytes "result")).1 = none →
      (Search dec net term page).outcome =
        .returned (SearchResults.empty, some errUnhandledResponse)) ∧
    (∀ responseMap, dec.unmarshalMap (unescapeResponse message.data) = some responseMap →
      responseMap.lookup (bytes "result") = none → dec.unmarshalResults [] = none →
      (Search dec net term page).outcome =
        .returned (SearchResults.empty, some errUnhandledResponse)) ∧
    "https://crackwatch.com/games".data <:+: errUnhandledResponse.data := by
  have hrun : Search dec net term page = searchEnd
      ⟨.returned (decodeResponse dec (unescapeResponse message.data)),
        [.dial socketURL, .write connectFrame,
          .write (searchQueryFrame (escapedTerm term) (Itoa page) defaultOptions)] ++
        List.replicate others.length .read ++ [.read]⟩ := by
    rw [Search_connected dec net term page hlen hdial hw0 hw1, hreads,
      receiveLoop_skip_others dec others _ _ hothers, result_frame_decoded dec message rest _ hres]
  have hsecond : ∀ responseMap,
      dec.unmarshalMap (unescapeResponse message.data) = some responseMap →
      dec.unmarshalResults (mapIndex responseMap (bytes "result")).1 = none →
      (Search dec net term page).outcome =
        .returned (SearchResults.empty, some errUnhandledResponse) := by
    intro responseMap hmap hresult
    rw [hrun]
    simp [decodeResponse, hmap, hresult, searchEnd]
  refine ⟨?_, hsecond, ?_, by decide⟩
  · intro hmap
    rw [hrun]
    simp [decodeResponse, hmap, searchEnd]
  · intro responseMap hmap hlook hnil
    apply hsecond responseMap hmap
    simp [mapIndex, hlook, hnil]

/-- Witness of C16 at a result frame whose payload does not unmarshal. -/
theorem C16_decode_errors_witness :
    (Search ⟨fun _ => none, fun _ => none⟩
      ⟨none, [], [.frame ⟨bytes "a[\"\x7b\\\"msg\\\":\\\"result\\\",oops\"]", 0⟩]⟩
      (bytes "x") 0).outcome = .returned (SearchResults.empty, some errUnhandledResponse) :=
  (C16_decode_errors ⟨fun _ => none, fun _ => none⟩
    ⟨none, [], [.frame ⟨bytes "a[\"\x7b\\\"msg\\\":\\\"result\\\",oops\"]", 0⟩]⟩ (bytes "x") 0
    [] ⟨bytes "a[\"\x7b\\\"msg\\\":\\\"result\\\",oops\"]", 0⟩ [] (by decide) rfl rfl rfl rfl
    (by decide) (by decide)).1 rfl

/-- C17: for every term free of double quotes, backslashes and surrounding
white space and every page, once the socket is dialled and the negotiation
frame written, the query frame `Search` writes is the text
{"msg":"method","method":"games.page","params":[{"page":P,"orderType":"title",
"orderDown":false,"search":"t","unset":0,"released":0,"cracked":0,"isAAA":0}],
"id":"1"} with a backslash before every double quote, between `["` and `"]`,
`P` being the decimal text of the page. -/
theorem C17_query_frame (dec : JSONDecoder) (net : Network) (t : GoString) (p : Int)
    (hlen : t.length ≤ 100) (hdial : net.dialError = none)
    (hw0 : net.writeErrors.getD 0 none = none)
    (hquote : 34 ∉ t) (_hbackslash : 92 ∉ t)
    (hfront : ∀ e ∈ spaceEncodings, ¬ e <+: t) (hback : ∀ e ∈ spaceEncodings, ¬ e <:+ t) :
    framesWritten (Search dec net t p).trace =
      [connectFrame,
       bytes "[\"" ++ escapeQuotes
        (bytes "\x7b\"msg\":\"method\",\"method\":\"games.page\",\"params\":[\x7b\"page\":"
          ++ Itoa p
          ++ bytes ",\"orderType\":\"title\",\"orderDown\":false,\"search\":\""
          ++ t
          ++ bytes "\",\"unset\":0,\"released\":0,\"cracked\":0,\"isAAA\":0\x7d],\"id\":\"1\"\x7d")
        ++ bytes "\"]"] := by
  have hterm : escapedTerm t = t := by
    have hq : bytes "\"" = [34] := by decide
    unfold escapedTerm
    rw [hq, ReplaceAll_no_quote t _ hquote, TrimSpace_no_space t hfront hback]
  have happ : ∀ a b : GoString, escapeQuotes (a ++ b) = escapeQuotes a ++ escapeQuotes b := by
    intro a b
    simp [escapeQuotes, List.flatMap_append]
  have e1 : bytes "[\"" ++ escapeQuotes
      (bytes "\x7b\"msg\":\"method\",\"method\":\"games.page\",\"params\":[\x7b\"page\":") =
      bytes "[\"\x7b\\\"msg\\\":\\\"method\\\",\\\"method\\\":\\\"games.page\\\",\\\"params\\\":[\x7b\\\"page\\\":" := by
    decide
  have e2 : escapeQuotes
      (bytes ",\"orderType\":\"title\",\"orderDown\":false,\"search\":\"") =
      bytes ",\\\"orderType\\\":\\\"title\\\",\\\"orderDown\\\":false,\\\"search\\\":\\\"" := by
    decide
  have e3 : escapeQuotes
      (bytes "\",\"unset\":0,\"released\":0,\"cracked\":0,\"isAAA\":0\x7d],\"id\":\"1\"\x7d")
      ++ bytes "\"]" =
      bytes "\\\",\\\"unset\\\":0,\\\"released\\\":0,\\\"cracked\\\":0,\\\"isAAA\\\":0\x7d],\\\"id\\\":\\\"1\\\"\x7d\"]" := by
    decide
  have hframes : framesWritten (Search dec net t p).trace =
      [connectFrame, searchQueryFrame (escapedTerm t) (Itoa p) defaultOptions] := by
    cases hw1 : net.writeErrors.getD 1 none with
    | some cause =>
      rw [Search_send_failed dec net t p hlen hdial hw0 cause hw1]
      simp [framesWritten]
    | none =>
      rw [Search_connected dec net t p hlen hdial hw0 hw1, framesWritten_searchEnd,
        framesWritten_receiveLoop]
      simp [framesWritten]
  rw [hframes, hterm, searchQueryFrame_default, happ, happ, happ, happ, Itoa_no_quote,
    escapeQuotes_no_quote t hquote, e2, ← e1, ← e3]
  simp only [List.append_assoc]

/-- Witness of C17 at the term far cry and page 0. -/
theorem C17_query_frame_witness :
    framesWritten (Search ⟨fun _ => none, fun _ => none⟩ ⟨none, [], []⟩
      (bytes "far cry") 0).trace =
      [connectFrame,
       bytes "[\"" ++ escapeQuotes
        (bytes "\x7b\"msg\":\"method\",\"method\":\"games.page\",\"params\":[\x7b\"page\":"
          ++ Itoa 0
          ++ bytes ",\"orderType\":\"title\",\"orderDown\":false,\"search\":\""
          ++ bytes "far cry"
          ++ bytes "\",\"unset\":0,\"released\":0,\"cracked\":0,\"isAAA\":0\x7d],\"id\":\"1\"\x7d")
        ++ bytes "\"]"] :=
  C17_query_frame ⟨fun _ => none, fun _ => none⟩ ⟨none, [], []⟩ (bytes "far cry") 0
    (by decide) rfl rfl (by decide) (by decide) (by decide) (by decide)

/-- C18 (evaluation at the failing input): the term made of 51 times the
letter é has 51 characters and 102 bytes; `Search` rejects it with the error
that speaks of more than 100 characters, without any network operation. -/
theorem C18_bound_counts_bytes (dec : JSONDecoder) (net : Network) (page : Int) :
    (String.mk (List.replicate 51 'é')).length = 51 ∧
    (bytes (String.mk (List.replicate 51 'é'))).length = 102 ∧
    Search dec net (bytes (String.mk (List.replicate 51 'é'))) page =
      ⟨.returned (SearchResults.empty, some "Search term was >100 characters.\n"), []⟩ := by
  refine ⟨by decide, by decide, ?_⟩
  have h : (bytes (String.mk (List.replicate 51 'é'))).length > maxSearchTermLength := by decide
  simp only [Search, h, if_true]

/-- The loop only adds reads to the trace. -/
theorem receiveLoop_trace (dec : JSONDecoder) (reads : List ReadResult) :
    ∀ trace : List NetOp, ∃ k,
      (receiveLoop dec reads trace).trace = trace ++ List.replicate k .read := by
  induction reads with
  | nil => intro trace; exact ⟨1, by simp [receiveLoop]⟩
  | cons r rs ih =>
    intro trace
    cases r with
    | failed cause => exact ⟨1, by simp [receiveLoop]⟩
    | frame message =>
      rw [receiveLoop]
      split
      · exact ⟨1, rfl⟩
      · split
        · exact ⟨1, rfl⟩
        · exact ⟨1, rfl⟩
        · split
          · obtain ⟨k, hk⟩ := ih (trace ++ [.read])
            exact ⟨k + 1, by rw [hk]; simp [List.replicate_succ, List.append_assoc]⟩
          · exact ⟨1, rfl⟩

/-- The errors the loop returns are its three fixed messages. -/
theorem receiveLoop_errors (dec : JSONDecoder) (reads : List ReadResult) :
    ∀ (trace : List NetOp) (results : SearchResults) (err : GoError),
      (receiveLoop dec reads trace).outcome = .returned (results, some err) →
      err = errCouldNotReachSite ∨ err = errBadRequest ∨ err = errUnhandledResponse := by
  induction reads with
  | nil => intro trace results err h; simp [receiveLoop] at h
  | cons r rs ih =>
    intro trace results err h
    cases r with
    | failed cause =>
      simp only [receiveLoop, Outcome.returned.injEq, Prod.mk.injEq, Option.some.injEq] at h
      exact Or.inl h.2.symm
    | frame message =>
      rw [receiveLoop] at h
      split at h
      · simp only [Outcome.returned.injEq, Prod.mk.injEq, Option.some.injEq] at h
        exact Or.inr (Or.inl h.2.symm)
      · split at h
        · simp at h
        · simp at h
        · split at h
          · exact ih _ _ _ h
          · simp only [Outcome.returned.injEq] at h
            unfold decodeResponse at h
            split at h
            · simp only [Prod.mk.injEq, Option.some.injEq] at h
              exact Or.inr (Or.inr h.2.symm)
            · split at h
              · simp only [Prod.mk.injEq, Option.some.injEq] at h
                exact Or.inr (Or.inr h.2.symm)
              · simp at h

/-- A term of at most 100 bytes passes validation: `Search` goes on to dial,
and whatever it returns is not the validation error. -/
theorem Search_within_bound_dials (dec : JSONDecoder) (net : Network) (term : GoString)
    (page : Int) (hlen : term.length ≤ 100) :
    (Search dec net term page).trace.head? = some (.dial socketURL) ∧
    (Search dec net term page).outcome ≠
      .returned (SearchResults.empty, some "Search term was >100 characters.\n") := by
  have hv1 : errNotAccepted ≠ "Search term was >100 characters.\n" := by decide
  have hv2 : errCouldNotReachSite ≠ "Search term was >100 characters.\n" := by decide
  have hv3 : errBadRequest ≠ "Search term was >100 characters.\n" := by decide
  have hv4 : errUnhandledResponse ≠ "Search term was >100 characters.\n" := by decide
  cases hd : net.dialError with
  | some cause =>
    rw [Search_dial_failed dec net term page hlen cause hd]
    exact ⟨rfl, by simp [hv1]⟩
  | none =>
    cases hw0 : net.writeErrors.getD 0 none with
    | some cause =>
      rw [Search_connect_failed dec net term page hlen hd cause hw0]
      exact ⟨rfl, by simp [hv1]⟩
    | none =>
      cases hw1 : net.writeErrors.getD 1 none with
      | some cause =>
        rw [Search_send_failed dec net term page hlen hd hw0 cause hw1]
        exact ⟨rfl, by simp [hv2]⟩
      | none =>
        rw [Search_connected dec net term page hlen hd hw0 hw1]
        obtain ⟨k, hk⟩ := receiveLoop_trace dec net.reads [.dial socketURL, .write connectFrame,
          .write (searchQueryFrame (escapedTerm term) (Itoa page) defaultOptions)]
        have herr := receiveLoop_errors dec net.reads [.dial socketURL, .write connectFrame,
          .write (searchQueryFrame (escapedTerm term) (Itoa page) defaultOptions)]
        generalize receiveLoop dec net.reads [.dial socketURL, .write connectFrame,
          .write (searchQueryFrame (escapedTerm term) (Itoa page) defaultOptions)] = run
          at hk herr
        obtain ⟨outcome, trace⟩ := run
        simp only at hk herr
        subst hk
        cases outcome with
        | returned a =>
          obtain ⟨r, e⟩ := a
          cases e with
          | none => exact ⟨rfl, by simp [searchEnd]⟩
          | some err =>
            refine ⟨rfl, ?_⟩
            rcases herr r err rfl with h | h | h <;> subst h <;> simp [searchEnd, hv2, hv3, hv4]
        | panicked p => exact ⟨rfl, by simp [searchEnd]⟩
        | blocked => exact ⟨rfl, by simp [searchEnd]⟩

/-! ### Un-escaping a result frame -/

/-- An escaped text never starts with a double quote, so a backslash put in
front of it does not form the pattern backslash-quote. -/
theorem escapeInner_head_ne_quote (inner : GoString) :
    List.isPrefixOf [(92 : UInt8), 34] (92 :: escapeInner inner) = false := by
  cases inner with
  | nil => decide
  | cons c cs =>
    by_cases h1 : c = 92
    · subst h1
      simp [escapeInner, List.isPrefixOf]
    · by_cases h2 : c = 34
      · subst h2
        simp [escapeInner, List.isPrefixOf]
      · have h3 : ¬ (34 : UInt8) = c := fun e => h2 e.symm
        simp [escapeInner, List.isPrefixOf, h1, h2, h3]

/-- First decoder replacement on an escaped text: backslash-quote becomes a
quote and the doubled backslashes stay. -/
theorem replace_quote_escapeInner (inner : GoString) :
    replaceFrom [92, 34] [34] 0 (escapeInner inner) =
      inner.flatMap (fun c => if c = 92 then [92, 92] else [c]) := by
  induction inner with
  | nil => rfl
  | cons c cs ih =>
    have hcons : escapeInner (c :: cs) =
        (if c = 92 then [92, 92] else if c = 34 then [92, 34] else [c]) ++ escapeInner cs := by
      simp [escapeInner]
    rw [hcons, List.flatMap_cons, ← ih]
    by_cases h1 : c = 92
    · subst h1
      have hp := escapeInner_head_ne_quote cs
      have hp0 : List.isPrefixOf [(92 : UInt8), 34] (92 :: 92 :: escapeInner cs) = false := by
        simp [List.isPrefixOf]
      simp only [if_true, List.cons_append, List.nil_append]
      rw [replaceFrom, hp0, replaceFrom, hp]
      simp
    · by_cases h2 : c = 34
      · subst h2
        have hp0 : List.isPrefixOf [(92 : UInt8), 34] (92 :: 34 :: escapeInner cs) = true := by
          simp [List.isPrefixOf]
        simp [replaceFrom, hp0]
      · have hp0 : List.isPrefixOf [(92 : UInt8), 34] (c :: escapeInner cs) = false := by
          have h3 : ¬ (92 : UInt8) = c := fun e => h1 e.symm
          simp [List.isPrefixOf, h3]
        simp [replaceFrom, hp0, h1, h2]

/-- Second decoder replacement: doubled backslashes become single ones again. -/
theorem replace_backslash_doubled (inner : GoString) :
    replaceFrom [92, 92] [92] 0 (inner.flatMap (fun c => if c = 92 then [92, 92] else [c])) =
      inner := by
  induction inner with
  | nil => rfl
  | cons c cs ih =>
    rw [List.flatMap_cons]
    by_cases h1 : c = 92
    · subst h1
      simp [replaceFrom, List.isPrefixOf, ih]
    · have h3 : ¬ (92 : UInt8) = c := fun e => h1 e.symm
      simp [replaceFrom, List.isPrefixOf, h1, h3, ih]

/-- C7: the strip and un-escape steps of the decoder reverse the double
encoding. For every inner text, the frame built from it by doubling each
backslash, writing each double quote as backslash-quote and wrapping the
result in the array envelope is turned back into the inner text. -/
theorem C7_unescape_encodeFrame (inner : GoString) :
    unescapeResponse (encodeFrame inner) = inner := by
  have hpre : bytes "a[\"" = [97, 91, 34] := by decide
  have hsuf : bytes "\"]" = [34, 93] := by decide
  have hbq : bytes "\\\"" = [92, 34] := by decide
  have hq : bytes "\"" = [34] := by decide
  have hbb : bytes "\\\\" = [92, 92] := by decide
  have hb : bytes "\\" = [92] := by decide
  unfold unescapeResponse encodeFrame
  simp only [hpre, hsuf, hbq, hq, hbb, hb]
  have h1 : TrimPrefix ([97, 91, 34] ++ escapeInner inner ++ [34, 93]) [97, 91, 34] =
      escapeInner inner ++ [34, 93] := by
    simp [TrimPrefix, HasPrefix, List.isPrefixOf]
  have h2 : TrimSuffix (escapeInner inner ++ [34, 93]) [34, 93] = escapeInner inner := by
    simp [TrimSuffix, HasSuffix, List.isPrefixOf]
  rw [h1, h2]
  unfold ReplaceAll
  rw [replace_quote_escapeInner, replace_backslash_doubled]

/-! ### Messages for Discord -/

/-- What `lastIndexFrom` gives for the newline: the index found before, or the
index of a newline in the text scanned. -/
theorem lastIndexFrom_newline (s : GoString) : ∀ (i : Nat) (found : Int),
    lastIndexFrom [10] s i found = found ∨
    ∃ k, k < s.length ∧ lastIndexFrom [10] s i found = ((i + k : Nat) : Int) ∧
      s[k]? = some 10 := by
  induction s with
  | nil =>
    intro i found
    left
    simp [lastIndexFrom]
  | cons c cs ih =>
    intro i found
    simp only [lastIndexFrom]
    rcases ih (i + 1) (if List.isPrefixOf [10] (c :: cs) = true then (i : Int) else found)
      with h | ⟨k, hk, hres, hget⟩
    · by_cases hc : (10 : UInt8) = c
      · right
        refine ⟨0, by simp, ?_, by simp [hc]⟩
        rw [h]
        simp [List.isPrefixOf, hc]
      · left
        rw [h]
        simp [List.isPrefixOf, hc]
    · right
      refine ⟨k + 1, by simp; omega, ?_, by simpa using hget⟩
      rw [hres]
      congr 1
      omega

/-- The last newline of a text: none, or an index where the text has a newline. -/
theorem LastIndex_newline (s : GoString) :
    LastIndex s (bytes "\n") = -1 ∨
    ∃ k, k < s.length ∧ LastIndex s (bytes "\n") = (k : Int) ∧ s[k]? = some 10 := by
  have hn : bytes "\n" = [10] := by decide
  unfold LastIndex
  rw [hn]
  rcases lastIndexFrom_newline s 0 (-1) with h | ⟨k, hk, hres, hget⟩
  · exact Or.inl h
  · right
    refine ⟨k, hk, ?_, hget⟩
    rw [hres]
    simp

/-- A text in which some stretch without newline is longer than the budget
makes the splitting loop panic, however much of the text comes before that
stretch: the loop cuts at newlines only, never gets past the stretch, and ends
up slicing at the index -1 (or at the budget itself when that is negative). -/
theorem chunkLoop_long_line (footer : GoString) (maxMsgLen : Int) (line after : GoString)
    (hline : ∀ b ∈ line, b ≠ 10) (hlong : (line.length : Int) > maxMsgLen) :
    ∀ (fuel : Nat) (before : GoString) (messageChunks : List GoString),
    before.length < fuel →
    chunkLoop footer maxMsgLen fuel (before ++ line ++ after) messageChunks =
      .panicked (.sliceNegative (if maxMsgLen < 0 then maxMsgLen else -1)) := by
  intro fuel
  induction fuel with
  | zero => intro before _ h; omega
  | succ fuel ih =>
    intro before messageChunks hfuel
    have hlen : ((before ++ line ++ after).length : Int) > maxMsgLen := by
      simp only [List.length_append, Nat.cast_add]
      omega
    rw [chunkLoop]
    simp only [hlen, if_true]
    by_cases hneg : maxMsgLen < 0
    · simp [sliceToInt, hneg]
    · have hle : maxMsgLen.toNat ≤ (before ++ line ++ after).length := by
        simp only [List.length_append]
        omega
      simp only [sliceToInt, hneg, if_false, sliceTo, hle, if_true]
      rcases LastIndex_newline (List.take maxMsgLen.toNat (before ++ line ++ after))
        with hnone | ⟨k, hk, hres, hget⟩
      · rw [hnone]
        simp
      · rw [hres]
        have hkmax : k < maxMsgLen.toNat := by
          rw [List.length_take] at hk
          omega
        have hget2 : (before ++ line ++ after)[k]? = some 10 := by
          rw [List.getElem?_take] at hget
          simpa [hkmax] using hget
        have hkb : k < before.length := by
          by_contra hge
          have hge2 : before.length ≤ k := by omega
          rw [List.append_assoc, List.getElem?_append_right hge2] at hget2
          have hkl : k - before.length < line.length := by omega
          rw [List.getElem?_append_left hkl] at hget2
          have hmem : (10 : UInt8) ∈ line := List.mem_iff_getElem?.mpr ⟨_, hget2⟩
          exact hline 10 hmem rfl
        have hk0 : ¬ ((k : Int) < 0) := by omega
        have hk1 : ¬ ((k : Int) + 1 < 0) := by omega
        have hkle : k ≤ (before ++ line ++ after).length := by
          simp only [List.length_append]
          omega
        have hkle1 : ((k : Int) + 1).toNat ≤ (before ++ line ++ after).length := by
          simp only [List.length_append]
          omega
        have hdrop : List.drop ((k : Int) + 1).toNat (before ++ line ++ after) =
            List.drop (k + 1) before ++ line ++ after := by
          have e : ((k : Int) + 1).toNat = k + 1 := by omega
          rw [e, List.append_assoc, List.drop_append_of_le_length (by omega), List.append_assoc]
        simp only [hk0, if_false, Int.toNat_ofNat, hkle, if_true, sliceFromInt, hk1, hkle1, hdrop]
        rw [ih _ _ (by rw [List.length_drop]; omega)]
        simp [hneg]

/-- The text that `Join` makes holds each of the joined texts as a stretch. -/
theorem Join_mem (lines : List GoString) (sep line : GoString) (h : line ∈ lines) :
    ∃ before after, Join lines sep = before ++ line ++ after := by
  induction lines with
  | nil => exact absurd h (List.not_mem_nil _)
  | cons a rest ih =>
    cases rest with
    | nil =>
      have : line = a := by simpa using h
      subst this
      exact ⟨[], [], by simp [Join]⟩
    | cons b rest2 =>
      rcases List.mem_cons.mp h with rfl | hmem
      · exact ⟨[], sep ++ Join (b :: rest2) sep, by simp [Join]⟩
      · obtain ⟨before, after, hj⟩ := ih hmem
        exact ⟨a ++ sep ++ before, after, by simp [Join, hj]⟩

/-- A result set with a game whose line holds no newline and is longer than
the budget of a message makes `resultsToDiscordChunks` panic. -/
theorem long_line_panics (pr : Printer) (searchResults : SearchResults) (pageNum : Int)
    (game : Game) (hgame : game ∈ searchResults.Games)
    (hline : ∀ b ∈ gameLine pr game, b ≠ 10)
    (hlong : ((gameLine pr game).length : Int) > discordMaxMsgLen -
      ((header ++ (bytes "\nPage " ++ Itoa pageNum ++ bytes "/" ++
        pr.pageCount searchResults.Num ++ bytes "```")).length : Int)) :
    ∃ index, resultsToDiscordChunks pr searchResults pageNum =
      .panicked (.sliceNegative index) := by
  obtain ⟨before, after, hj⟩ := Join_mem (searchResults.Games.map (gameLine pr)) (bytes "\n")
    (gameLine pr game) (List.mem_map.mpr ⟨game, hgame, rfl⟩)
  have h := chunkLoop_long_line
    (bytes "\nPage " ++ Itoa pageNum ++ bytes "/" ++ pr.pageCount searchResults.Num ++ bytes "```")
    _ (gameLine pr game) after hline hlong ((before ++ gameLine pr game ++ after).length + 1)
    before [] (by simp only [List.length_append]; omega)
  have hr : resultsToDiscordChunks pr searchResults pageNum = chunkLoop
      (bytes "\nPage " ++ Itoa pageNum ++ bytes "/" ++ pr.pageCount searchResults.Num
        ++ bytes "```")
      (discordMaxMsgLen - ((header ++ (bytes "\nPage " ++ Itoa pageNum ++ bytes "/" ++
        pr.pageCount searchResults.Num ++ bytes "```")).length : Int))
      ((before ++ gameLine pr game ++ after).length + 1)
      (before ++ gameLine pr game ++ after) [] := by
    unfold resultsToDiscordChunks
    simp only [hj]
  exact ⟨_, hr.trans h⟩

/-- The line of the game with the long name, for every printer. -/
theorem gameLine_longNameGame (pr : Printer) :
    gameLine pr longNameGame = bytes "🟢" ++ List.replicate 2000 97 ++
      bytes " | 2004-03-23 | Unknown |  | 2004-03-24" := by
  have hz : longNameGame.CrackDate.IsZero = false := by decide
  have h2 : bytes " | " ++ longNameGame.ReleaseDate.Format ++ bytes " | "
      ++ NormalizeDRMNames pr.mapLower longNameGame.DRM ++ bytes " | "
      ++ Join longNameGame.CrackedBy (bytes "+") ++ bytes " | " ++ longNameGame.CrackDate.Format
      = bytes " | 2004-03-23 | Unknown |  | 2004-03-24" := by rfl
  rw [← h2]
  simp only [gameLine, hz, Bool.false_eq_true, if_false, List.append_assoc]
  rfl

/-- The line of the game with the long name holds no newline and has 2043 bytes. -/
theorem gameLine_longNameGame_spec (pr : Printer) :
    (∀ b ∈ gameLine pr longNameGame, b ≠ 10) ∧ (gameLine pr longNameGame).length = 2043 := by
  rw [gameLine_longNameGame]
  constructor
  · intro b hb
    rcases List.mem_append.mp hb with h | h
    · rcases List.mem_append.mp h with h | h
      · have : ∀ x ∈ bytes "🟢", x ≠ 10 := by decide
        exact this b h
      · rw [(List.mem_replicate.mp h).2]
        decide
    · have : ∀ x ∈ bytes " | 2004-03-23 | Unknown |  | 2004-03-24", x ≠ 10 := by decide
      exact this b h
  · have h1 : (bytes "🟢").length = 4 := by decide
    have h2 : (bytes " | 2004-03-23 | Unknown |  | 2004-03-24").length = 39 := by decide
    simp only [List.length_append, List.length_replicate, h1, h2]

/-- C19 (evaluation at the failing input): for a result set that holds the
game with the name of 2000 bytes, here after a game with a short name,
`resultsToDiscordChunks` returns no chunk at all, whatever the printer, the
game count and the page number: it panics. -/
theorem C19_no_chunk_returned (pr : Printer) (num pageNum : Int) :
    (∃ index, resultsToDiscordChunks pr ⟨num, [sampleGame, longNameGame]⟩ pageNum =
      .panicked (.sliceNegative index)) ∧
    ∀ chunks, resultsToDiscordChunks pr ⟨num, [sampleGame, longNameGame]⟩ pageNum ≠
      .returned chunks := by
  obtain ⟨hline, hlen⟩ := gameLine_longNameGame_spec pr
  have hp := long_line_panics pr ⟨num, [sampleGame, longNameGame]⟩ pageNum longNameGame
    (by simp) hline (by
      rw [hlen]
      unfold discordMaxMsgLen
      omega)
  refine ⟨hp, ?_⟩
  intro chunks hret
  obtain ⟨index, hi⟩ := hp
  rw [hi] at hret
  exact absurd hret (by simp)

set_option maxRecDepth 100000 in
/-- C20 (evaluation at the failing input): for the result set made of the one
game with the name of 2000 bytes, on page 1 of 1, the budget of a message is
1926 bytes, the first 1926 bytes of the text hold no newline, the index of
the last newline is -1, and `resultsToDiscordChunks` panics on the slice
`msg[:-1]`. -/
theorem C20_last_newline_index_negative :
    discordMaxMsgLen - ((header ++ (bytes "\nPage " ++ Itoa 1 ++ bytes "/" ++
      plainPrinter.pageCount 1 ++ bytes "```")).length : Int) = 1926 ∧
    LastIndex ((gameLine plainPrinter longNameGame).take 1926) (bytes "\n") = -1 ∧
    resultsToDiscordChunks plainPrinter ⟨1, [longNameGame]⟩ 1 =
      .panicked (.sliceNegative (-1)) := by
  obtain ⟨hline, hlen⟩ := gameLine_longNameGame_spec plainPrinter
  have hmax : discordMaxMsgLen - ((header ++ (bytes "\nPage " ++ Itoa 1 ++ bytes "/" ++
      plainPrinter.pageCount 1 ++ bytes "```")).length : Int) = 1926 := by decide
  refine ⟨hmax, ?_, ?_⟩
  · rcases LastIndex_newline ((gameLine plainPrinter longNameGame).take 1926)
      with h | ⟨k, _, _, hget⟩
    · exact h
    · exfalso
      have hmem : (10 : UInt8) ∈ (gameLine plainPrinter longNameGame).take 1926 :=
        List.mem_iff_getElem?.mpr ⟨_, hget⟩
      exact hline 10 (List.mem_of_mem_take hmem) rfl
  · have hrun : resultsToDiscordChunks plainPrinter ⟨1, [longNameGame]⟩ 1 =
        chunkLoop (bytes "\nPage " ++ Itoa 1 ++ bytes "/" ++ plainPrinter.pageCount 1 ++
          bytes "```") 1926 ((gameLine plainPrinter longNameGame).length + 1)
          ([] ++ gameLine plainPrinter longNameGame ++ []) [] := by
      unfold resultsToDiscordChunks
      simp only [hmax, List.map_cons, List.map_nil, Join, List.nil_append, List.append_nil]
    rw [hrun, chunkLoop_long_line _ 1926 _ [] hline (by rw [hlen]; omega) _ [] [] (by simp)]
    rfl

/-- Whenever the splitting loop returns, it returns at least one chunk, and
every chunk it has added is at most 2000 bytes long. -/
theorem chunkLoop_bound (footer : GoString) (maxMsgLen : Int)
    (hmax : maxMsgLen = discordMaxMsgLen - ((header ++ footer).length : Int)) :
    ∀ (fuel : Nat) (msg : GoString) (messageChunks out : List GoString),
    chunkLoop footer maxMsgLen fuel msg messageChunks = .returned out →
    (∀ c ∈ messageChunks, c.length ≤ 2000) →
    out ≠ [] ∧ ∀ c ∈ out, c.length ≤ 2000 := by
  intro fuel
  induction fuel with
  | zero =>
    intro msg messageChunks out h
    simp [chunkLoop] at h
  | succ fuel ih =>
    intro msg messageChunks out h hchunks
    rw [chunkLoop] at h
    have hnew : ∀ (part : GoString), (part.length : Int) ≤ maxMsgLen →
        ∀ c ∈ messageChunks ++ [header ++ part ++ footer], c.length ≤ 2000 := by
      intro part hpart c hc
      rcases List.mem_append.mp hc with hc | hc
      · exact hchunks c hc
      · rw [List.mem_singleton.mp hc]
        simp only [List.length_append, discordMaxMsgLen, Nat.cast_add] at hmax ⊢
        omega
    split at h
    · rename_i hgt
      by_cases hneg : maxMsgLen < 0
      · simp [sliceToInt, hneg] at h
      · have hle : maxMsgLen.toNat ≤ msg.length := by omega
        simp only [sliceToInt, hneg, if_false, sliceTo, hle, if_true] at h
        rcases LastIndex_newline (List.take maxMsgLen.toNat msg) with hnone | ⟨k, hk, hres, _⟩
        · rw [hnone] at h
          simp at h
        · rw [hres] at h
          have hkmax : k < maxMsgLen.toNat := by
            rw [List.length_take] at hk
            omega
          have hk0 : ¬ ((k : Int) < 0) := by omega
          have hk1 : ¬ ((k : Int) + 1 < 0) := by omega
          have hkle : k ≤ msg.length := by omega
          have hkle1 : ((k : Int) + 1).toNat ≤ msg.length := by omega
          simp only [hk0, if_false, Int.toNat_ofNat, hkle, if_true, sliceFromInt, hk1, hkle1] at h
          apply ih _ _ _ h
          apply hnew
          rw [List.length_take]
          omega
    · rename_i hle
      simp only [Outcome.returned.injEq] at h
      subst h
      refine ⟨by simp, ?_⟩
      apply hnew
      omega

/-- Whenever `resultsToDiscordChunks` returns, it returns at least one chunk
and every chunk is at most 2000 bytes long. -/
theorem chunks_within_limit (pr : Printer) (searchResults : SearchResults) (pageNum : Int)
    (out : List GoString)
    (h : resultsToDiscordChunks pr searchResults pageNum = .returned out) :
    out ≠ [] ∧ ∀ c ∈ out, c.length ≤ 2000 := by
  unfold resultsToDiscordChunks at h
  exact chunkLoop_bound _ _ rfl _ _ _ _ h (fun c hc => absurd hc (List.not_mem_nil c))

/-- `resultsToDiscordChunks` as a run of the splitting loop. -/
theorem resultsToDiscordChunks_eq (pr : Printer) (searchResults : SearchResults) (pageNum : Int) :
    resultsToDiscordChunks pr searchResults pageNum =
      chunkLoop (pageFooter pr searchResults.Num pageNum)
        (discordMaxMsgLen - ((header ++ pageFooter pr searchResults.Num pageNum).length : Int))
        ((Join (searchResults.Games.map (gameLine pr)) (bytes "\n")).length + 1)
        (Join (searchResults.Games.map (gameLine pr)) (bytes "\n")) [] := rfl

/-- A list is what comes before an index, the element there, and what comes
after it. -/
theorem take_cons_drop (l : GoString) (x : UInt8) : ∀ k, l[k]? = some x →
    l.take k ++ x :: l.drop (k + 1) = l := by
  induction l with
  | nil => intro k h; simp at h
  | cons c cs ih =>
    intro k h
    cases k with
    | zero =>
      have : c = x := by simpa using h
      simp [this]
    | succ k =>
      have h2 : cs[k]? = some x := by simpa using h
      simp [ih k h2]

/-- `Join` of a first text and a non-empty list of further texts. -/
theorem Join_cons_of_ne_nil (a : GoString) (rest : List GoString) (sep : GoString)
    (h : rest ≠ []) : Join (a :: rest) sep = a ++ sep ++ Join rest sep := by
  cases rest with
  | nil => exact absurd rfl h
  | cons b rest2 => rfl

/-- One turn of the splitting loop that ends in a return: either the text fits
the budget and is the last chunk, or the text is cut at a newline that lies
within the budget and the loop goes on with what follows the newline. -/
theorem chunkLoop_returned (footer : GoString) (maxMsgLen : Int) (fuel : Nat) (msg : GoString)
    (messageChunks out : List GoString)
    (h : chunkLoop footer maxMsgLen (fuel + 1) msg messageChunks = .returned out) :
    ((msg.length : Int) ≤ maxMsgLen ∧ out = messageChunks ++ [header ++ msg ++ footer]) ∨
    ∃ k, k < msg.length ∧ (k : Int) < maxMsgLen ∧ msg[k]? = some 10 ∧
      chunkLoop footer maxMsgLen fuel (msg.drop (k + 1))
        (messageChunks ++ [header ++ msg.take k ++ footer]) = .returned out := by
  rw [chunkLoop] at h
  split at h
  · rename_i hgt
    right
    by_cases hneg : maxMsgLen < 0
    · simp [sliceToInt, hneg] at h
    · have hle : maxMsgLen.toNat ≤ msg.length := by omega
      simp only [sliceToInt, hneg, if_false, sliceTo, hle, if_true] at h
      rcases LastIndex_newline (List.take maxMsgLen.toNat msg) with hnone | ⟨k, hk, hres, hget⟩
      · rw [hnone] at h
        simp at h
      · rw [hres] at h
        have hkmax : k < maxMsgLen.toNat := by
          rw [List.length_take] at hk
          omega
        have hget2 : msg[k]? = some 10 := by
          rw [List.getElem?_take] at hget
          simpa [hkmax] using hget
        have hk0 : ¬ ((k : Int) < 0) := by omega
        have hk1 : ¬ ((k : Int) + 1 < 0) := by omega
        have hkle : k ≤ msg.length := by omega
        have hkle1 : ((k : Int) + 1).toNat ≤ msg.length := by omega
        have e : ((k : Int) + 1).toNat = k + 1 := by omega
        simp only [hk0, if_false, Int.toNat_ofNat, hkle, if_true, sliceFromInt, hk1, hkle1] at h
        rw [e] at h
        exact ⟨k, by omega, by omega, hget2, h⟩
  · rename_i hle
    left
    simp only [Outcome.returned.injEq] at h
    exact ⟨by omega, h.symm⟩

/-- Whenever the splitting loop returns, the chunks it has added are texts
between header and footer, and these texts joined by newlines are the text the
loop was given. -/
theorem chunkLoop_bodies (footer : GoString) (maxMsgLen : Int) :
    ∀ (fuel : Nat) (msg : GoString) (messageChunks out : List GoString),
    chunkLoop footer maxMsgLen fuel msg messageChunks = .returned out →
    ∃ bodies, bodies ≠ [] ∧
      out = messageChunks ++ bodies.map (fun body => header ++ body ++ footer) ∧
      Join bodies (bytes "\n") = msg := by
  have hn : bytes "\n" = [10] := by decide
  intro fuel
  induction fuel with
  | zero =>
    intro msg messageChunks out h
    simp [chunkLoop] at h
  | succ fuel ih =>
    intro msg messageChunks out h
    rcases chunkLoop_returned _ _ _ _ _ _ h with ⟨_, hout⟩ | ⟨k, _, _, hget, hrest⟩
    · exact ⟨[msg], by simp, by simpa using hout, rfl⟩
    · obtain ⟨bodies, hne, hout, hjoin⟩ := ih _ _ _ hrest
      refine ⟨msg.take k :: bodies, by simp, ?_, ?_⟩
      · rw [hout]
        simp
      · rw [Join_cons_of_ne_nil _ _ _ hne, hjoin, hn, List.append_assoc]
        exact take_cons_drop msg 10 k hget

/-- The body of a text put between header and footer is that text. -/
theorem chunkBody_wrap (footer body : GoString) :
    chunkBody footer (header ++ body ++ footer) = body := by
  unfold chunkBody
  rw [List.append_assoc, List.drop_left]
  have : (header ++ (body ++ footer)).length - header.length - footer.length = body.length := by
    simp only [List.length_append]
    omega
  rw [this, List.take_left]

/-- A newline in the text joined from lines without newlines is one of the
joining newlines: it parts the lines into those before and those after it. -/
theorem Join_split_newline (lines : List GoString) (hlines : ∀ l ∈ lines, ∀ b ∈ l, b ≠ 10) :
    ∀ k, (Join lines [10])[k]? = some 10 →
    ∃ l1 l2, l1 ≠ [] ∧ l2 ≠ [] ∧ lines = l1 ++ l2 ∧
      (Join lines [10]).take k = Join l1 [10] ∧
      (Join lines [10]).drop (k + 1) = Join l2 [10] := by
  induction lines with
  | nil =>
    intro k h
    simp [Join] at h
  | cons a rest ih =>
    intro k h
    have ha : ∀ b ∈ a, b ≠ 10 := hlines a (List.mem_cons_self _ _)
    cases rest with
    | nil =>
      have hmem : (10 : UInt8) ∈ a := List.mem_iff_getElem?.mpr ⟨k, by simpa [Join] using h⟩
      exact absurd rfl (ha 10 hmem)
    | cons b rest2 =>
      have hJ : Join (a :: b :: rest2) [10] = a ++ 10 :: Join (b :: rest2) [10] := by
        simp [Join]
      rw [hJ] at h ⊢
      rcases Nat.lt_trichotomy k a.length with hlt | heq | hgt
      · rw [List.getElem?_append_left hlt] at h
        exact absurd rfl (ha 10 (List.mem_iff_getElem?.mpr ⟨k, h⟩))
      · subst heq
        refine ⟨[a], b :: rest2, by simp, by simp, by simp, ?_, ?_⟩
        · simp [Join]
        · rw [show a ++ 10 :: Join (b :: rest2) [10] = (a ++ [10]) ++ Join (b :: rest2) [10] by simp]
          rw [show a.length + 1 = (a ++ [10]).length by simp, List.drop_left]
      · have hk : k = a.length + ((k - a.length - 1) + 1) := by omega
        have h2 : (Join (b :: rest2) [10])[k - a.length - 1]? = some 10 := by
          rw [hk, List.getElem?_append_right (by omega)] at h
          simpa using h
        obtain ⟨l1, l2, hl1, hl2, hsplit, htake, hdrop⟩ :=
          ih (fun l hl => hlines l (List.mem_cons_of_mem _ hl)) _ h2
        refine ⟨a :: l1, l2, by simp, hl2, by simp [hsplit], ?_, ?_⟩
        · rw [Join_cons_of_ne_nil _ _ _ hl1, ← htake]
          rw [hk, List.take_append_eq_append_take]
          simp [List.take_of_length_le]
        · rw [← hdrop]
          have hk2 : k + 1 = a.length + ((k - a.length - 1) + 1 + 1) := by omega
          rw [hk2, List.drop_append_eq_append_drop]
          simp [List.drop_of_length_le]

/-- Groups of mapped elements that make up a mapped list are the mapped
groups of the list itself. -/
theorem flatten_map_groups {α β : Type} (f : α → β) : ∀ (groups : List (List β)) (xs : List α),
    groups.flatten = xs.map f →
    ∃ parts : List (List α), parts.flatten = xs ∧ parts.map (List.map f) = groups := by
  intro groups
  induction groups with
  | nil =>
    intro xs h
    have : xs = [] := by simpa using h.symm
    exact ⟨[], by simp [this], rfl⟩
  | cons g groups ih =>
    intro xs h
    rw [List.flatten_cons] at h
    obtain ⟨l1, l2, hxs, h1, h2⟩ := List.map_eq_append_iff.mp h.symm
    obtain ⟨parts, hp, hm⟩ := ih l2 h2.symm
    exact ⟨l1 :: parts, by simp [hp, hxs], by simp [hm, h1]⟩

/-- Whenever the splitting loop returns on the text joined from lines without
newlines, the chunks it has added hold consecutive groups of whole lines that
make up the list of lines, in its order. -/
theorem chunkLoop_groups (footer : GoString) (maxMsgLen : Int) :
    ∀ (fuel : Nat) (lines : List GoString) (messageChunks out : List GoString),
    (∀ l ∈ lines, ∀ b ∈ l, b ≠ 10) →
    chunkLoop footer maxMsgLen fuel (Join lines [10]) messageChunks = .returned out →
    ∃ groups : List (List GoString), groups.flatten = lines ∧
      (lines ≠ [] → ∀ g ∈ groups, g ≠ []) ∧
      out = messageChunks ++ groups.map (fun g => header ++ Join g [10] ++ footer) := by
  intro fuel
  induction fuel with
  | zero =>
    intro lines messageChunks out _ h
    simp [chunkLoop] at h
  | succ fuel ih =>
    intro lines messageChunks out hlines h
    rcases chunkLoop_returned _ _ _ _ _ _ h with ⟨_, hout⟩ | ⟨k, _, _, hget, hrest⟩
    · refine ⟨[lines], by simp, ?_, by simpa using hout⟩
      intro hne g hg
      rw [List.mem_singleton.mp hg]
      exact hne
    · obtain ⟨l1, l2, hl1, hl2, hsplit, htake, hdrop⟩ := Join_split_newline lines hlines k hget
      rw [htake, hdrop] at hrest
      obtain ⟨groups, hflat, hne, hout⟩ := ih l2 _ _
        (fun l hl => hlines l (by rw [hsplit]; exact List.mem_append_right _ hl)) hrest
      refine ⟨l1 :: groups, by simp [hflat, hsplit], ?_, ?_⟩
      · intro _ g hg
        rcases List.mem_cons.mp hg with rfl | hg
        · exact hl1
        · exact hne hl2 g hg
      · rw [hout]
        simp

/-- Scanning a text without newline leaves the index found before. -/
theorem lastIndexFrom_no_newline (s : GoString) (hs : ∀ b ∈ s, b ≠ 10) :
    ∀ (i : Nat) (found : Int), lastIndexFrom [10] s i found = found := by
  induction s with
  | nil => intro i found; simp [lastIndexFrom]
  | cons c cs ih =>
    intro i found
    have hc : ¬ ((10 : UInt8) = c) := fun e => hs c (List.mem_cons_self _ _) e.symm
    simp only [lastIndexFrom]
    rw [ih (fun b hb => hs b (List.mem_cons_of_mem _ hb))]
    simp [List.isPrefixOf, hc]

/-- Scanning a text finds the newline after which no newline follows. -/
theorem lastIndexFrom_at_newline (a b : GoString) (hb : ∀ x ∈ b, x ≠ 10) :
    ∀ (i : Nat) (found : Int),
    lastIndexFrom [10] (a ++ 10 :: b) i found = ((i + a.length : Nat) : Int) := by
  induction a with
  | nil =>
    intro i found
    simp only [List.nil_append, lastIndexFrom]
    rw [lastIndexFrom_no_newline b hb]
    simp [List.isPrefixOf]
  | cons c cs ih =>
    intro i found
    have h := ih (i + 1) (if [10].isPrefixOf (c :: (cs ++ 10 :: b)) = true then (i : Int) else found)
    simp only [List.cons_append, lastIndexFrom, List.length_cons]
    refine Eq.trans h ?_
    congr 1
    omega

/-- The index `LastIndex` gives for the newline after which no newline follows. -/
theorem LastIndex_at_newline (a b : GoString) (hb : ∀ x ∈ b, x ≠ 10) :
    LastIndex (a ++ 10 :: b) (bytes "\n") = (a.length : Int) := by
  have hn : bytes "\n" = [10] := by decide
  unfold LastIndex
  rw [hn, lastIndexFrom_at_newline a b hb]
  simp

/-- A turn of the splitting loop on a text longer than the budget, with a
newline within the budget and no newline between it and the budget: the text
before the newline becomes a chunk and the loop goes on after the newline. -/
theorem chunkLoop_cut (footer : GoString) (maxMsgLen : Int) (fuel : Nat) (part rest : GoString)
    (messageChunks : List GoString)
    (hlong : ((part ++ 10 :: rest).length : Int) > maxMsgLen)
    (hpart : (part.length : Int) < maxMsgLen)
    (hrest : ∀ b ∈ rest.take (maxMsgLen.toNat - part.length - 1), b ≠ 10) :
    chunkLoop footer maxMsgLen (fuel + 1) (part ++ 10 :: rest) messageChunks =
      chunkLoop footer maxMsgLen fuel rest (messageChunks ++ [header ++ part ++ footer]) := by
  have hneg : ¬ maxMsgLen < 0 := by omega
  have hle : maxMsgLen.toNat ≤ (part ++ 10 :: rest).length := by omega
  have htake : List.take maxMsgLen.toNat (part ++ 10 :: rest) =
      part ++ 10 :: rest.take (maxMsgLen.toNat - part.length - 1) := by
    rw [List.take_append_eq_append_take, List.take_of_length_le (by omega)]
    congr 1
    generalize hm : maxMsgLen.toNat - part.length - 1 = m
    have e2 : maxMsgLen.toNat - part.length = m + 1 := by omega
    rw [e2, List.take_succ_cons]
  have h0 : ¬ ((part.length : Int) < 0) := by omega
  have h1 : ¬ ((part.length : Int) + 1 < 0) := by omega
  have hl0 : part.length ≤ (part ++ 10 :: rest).length := by simp
  have hl1 : ((part.length : Int) + 1).toNat ≤ (part ++ 10 :: rest).length := by
    simp only [List.length_append, List.length_cons]
    omega
  have e : ((part.length : Int) + 1).toNat = part.length + 1 := by omega
  have hl2 : part.length + 1 ≤ (part ++ 10 :: rest).length := by
    simp only [List.length_append, List.length_cons]
    omega
  have hd : List.drop (part.length + 1) (part ++ 10 :: rest) = rest := by
    rw [show part ++ 10 :: rest = (part ++ [10]) ++ rest by simp]
    rw [show part.length + 1 = (part ++ [10]).length by simp, List.drop_left]
  rw [chunkLoop]
  simp only [hlong, if_true, sliceToInt, hneg, if_false, sliceTo, hle, htake,
    LastIndex_at_newline part _ hrest, h0, Int.toNat_ofNat, hl0, List.take_left, sliceFromInt, h1,
    hl1, e, hl2, hd]

/-- The last turn of the splitting loop: a text within the budget is the last
chunk. -/
theorem chunkLoop_last (footer : GoString) (maxMsgLen : Int) (fuel : Nat) (msg : GoString)
    (messageChunks : List GoString) (hfuel : 0 < fuel) (hfit : (msg.length : Int) ≤ maxMsgLen) :
    chunkLoop footer maxMsgLen fuel msg messageChunks =
      .returned (messageChunks ++ [header ++ msg ++ footer]) := by
  cases fuel with
  | zero => omega
  | succ fuel =>
    have : ¬ ((msg.length : Int) > maxMsgLen) := by omega
    rw [chunkLoop]
    simp only [this, if_false]

/-- The splitting loop ends within as many turns as the text has bytes, and
one more: with that much fuel it returns or panics. -/
theorem chunkLoop_ends (footer : GoString) (maxMsgLen : Int) :
    ∀ (fuel : Nat) (msg : GoString) (messageChunks : List GoString), msg.length < fuel →
    chunkLoop footer maxMsgLen fuel msg messageChunks ≠ .blocked := by
  intro fuel
  induction fuel with
  | zero => intro msg _ h; omega
  | succ fuel ih =>
    intro msg messageChunks hfuel
    rw [chunkLoop]
    split
    · rename_i hgt
      by_cases hneg : maxMsgLen < 0
      · simp [sliceToInt, hneg]
      · have hle : maxMsgLen.toNat ≤ msg.length := by omega
        simp only [sliceToInt, hneg, if_false, sliceTo, hle, if_true]
        rcases LastIndex_newline (List.take maxMsgLen.toNat msg) with hnone | ⟨k, hk, hres, _⟩
        · rw [hnone]
          simp
        · rw [hres]
          have hkmax : k < maxMsgLen.toNat := by
            rw [List.length_take] at hk
            omega
          have hk0 : ¬ ((k : Int) < 0) := by omega
          have hk1 : ¬ ((k : Int) + 1 < 0) := by omega
          have hkle : k ≤ msg.length := by omega
          have hkle1 : ((k : Int) + 1).toNat ≤ msg.length := by omega
          simp only [hk0, if_false, Int.toNat_ofNat, hkle, if_true, sliceFromInt, hk1, hkle1]
          apply ih
          rw [List.length_drop]
          omega
    · simp

/-- In the model `resultsToDiscordChunks` never runs out of fuel: it returns
or panics. -/
theorem resultsToDiscordChunks_ends (pr : Printer) (searchResults : SearchResults)
    (pageNum : Int) : resultsToDiscordChunks pr searchResults pageNum ≠ .blocked := by
  rw [resultsToDiscordChunks_eq]
  exact chunkLoop_ends _ _ _ _ _ (Nat.lt_succ_self _)

/-- The line of a cracked game without DRM tags and group names. -/
theorem gameLine_crackedGame (pr : Printer) (name : GoString) :
    gameLine pr (crackedGame name) =
      bytes "🟢" ++ name ++ bytes " | 2004-03-23 | Unknown |  | 2004-03-24" := by
  have hz : Time.IsZero ⟨2004, 3, 24, 0, 0, 0⟩ = false := by decide
  have h2 : bytes " | " ++ Time.Format ⟨2004, 3, 23, 0, 0, 0⟩ ++ bytes " | "
      ++ NormalizeDRMNames pr.mapLower [] ++ bytes " | "
      ++ Join [] (bytes "+") ++ bytes " | " ++ Time.Format ⟨2004, 3, 24, 0, 0, 0⟩
      = bytes " | 2004-03-23 | Unknown |  | 2004-03-24" := by rfl
  rw [← h2]
  simp only [gameLine, crackedGame, hz, Bool.false_eq_true, if_false, List.append_assoc]

/-- The line of such a game is 43 bytes longer than the name. -/
theorem gameLine_crackedGame_length (pr : Printer) (name : GoString) :
    (gameLine pr (crackedGame name)).length = name.length + 43 := by
  have h1 : (bytes "🟢").length = 4 := by decide
  have h2 : (bytes " | 2004-03-23 | Unknown |  | 2004-03-24").length = 39 := by decide
  rw [gameLine_crackedGame]
  simp only [List.length_append, h1, h2]
  omega

/-- The line of such a game holds a newline only where the name does. -/
theorem gameLine_crackedGame_no_newline (pr : Printer) (name : GoString)
    (hname : ∀ b ∈ name, b ≠ 10) : ∀ b ∈ gameLine pr (crackedGame name), b ≠ 10 := by
  rw [gameLine_crackedGame]
  intro b hb
  rcases List.mem_append.mp hb with h | h
  · rcases List.mem_append.mp h with h | h
    · have : ∀ x ∈ bytes "🟢", x ≠ 10 := by decide
      exact this b h
    · exact hname b h
  · have : ∀ x ∈ bytes " | 2004-03-23 | Unknown |  | 2004-03-24", x ≠ 10 := by decide
    exact this b h

/-- Two texts around a newline that do not fit the budget together, while
each of them fits it and the second holds no newline, give two chunks. -/
theorem chunkLoop_two_parts (footer : GoString) (maxMsgLen : Int) (part rest : GoString)
    (hpart : (part.length : Int) < maxMsgLen) (hrest : (rest.length : Int) ≤ maxMsgLen)
    (hlong : (part.length : Int) + 1 + rest.length > maxMsgLen)
    (hfree : ∀ b ∈ rest, b ≠ 10) :
    chunkLoop footer maxMsgLen ((part ++ 10 :: rest).length + 1) (part ++ 10 :: rest) [] =
      .returned [header ++ part ++ footer, header ++ rest ++ footer] := by
  have hlen : (part ++ 10 :: rest).length = part.length + rest.length + 1 := by
    simp only [List.length_append, List.length_cons]
    omega
  rw [chunkLoop_cut _ _ _ _ _ _ (by rw [hlen]; push_cast; omega) hpart
      (fun b hb => hfree b (List.mem_of_mem_take hb)),
    chunkLoop_last _ _ _ _ _ (by rw [hlen]; omega) hrest]
  rfl

/-- The chunks for two cracked games with names of 1000 bytes each: the two
lines do not fit one message, and each line gets a message of its own. -/
theorem two_long_names_chunks :
    resultsToDiscordChunks plainPrinter
      ⟨2, [crackedGame (List.replicate 1000 97), crackedGame (List.replicate 1000 98)]⟩ 1 =
    .returned
      [header ++ gameLine plainPrinter (crackedGame (List.replicate 1000 97)) ++
        pageFooter plainPrinter 2 1,
       header ++ gameLine plainPrinter (crackedGame (List.replicate 1000 98)) ++
        pageFooter plainPrinter 2 1] := by
  have hmax : discordMaxMsgLen - ((header ++ pageFooter plainPrinter 2 1).length : Int) = 1926 := by
    decide
  have hn : bytes "\n" = [10] := by decide
  have hl1 := gameLine_crackedGame_length plainPrinter (List.replicate 1000 97)
  have hl2 := gameLine_crackedGame_length plainPrinter (List.replicate 1000 98)
  have hfree : ∀ b ∈ gameLine plainPrinter (crackedGame (List.replicate 1000 98)), b ≠ 10 :=
    gameLine_crackedGame_no_newline _ _ (fun b hb => by
      rw [(List.mem_replicate.mp hb).2]
      decide)
  rw [List.length_replicate] at hl1 hl2
  have hmsg : Join ([crackedGame (List.replicate 1000 97),
      crackedGame (List.replicate 1000 98)].map (gameLine plainPrinter)) (bytes "\n") =
      gameLine plainPrinter (crackedGame (List.replicate 1000 97)) ++
        10 :: gameLine plainPrinter (crackedGame (List.replicate 1000 98)) := by
    rw [hn]
    simp only [List.map_cons, List.map_nil, Join, List.append_assoc, List.singleton_append]
  rw [resultsToDiscordChunks_eq, hmax, hmsg]
  exact chunkLoop_two_parts _ _ _ _ (by rw [hl1]; omega) (by rw [hl2]; omega)
    (by rw [hl1, hl2]; omega) hfree

/-- The chunks for a cracked game with a name of 1000 bytes and a cracked game
whose name holds a newline between two stretches of 500 bytes: the two lines
do not fit one message, and the text is cut at the newline of the second name. -/
theorem newline_name_chunks :
    resultsToDiscordChunks plainPrinter
      ⟨2, [crackedGame (List.replicate 1000 97),
        crackedGame (List.replicate 500 97 ++ 10 :: List.replicate 500 122)]⟩ 1 =
    .returned
      [header ++ (gameLine plainPrinter (crackedGame (List.replicate 1000 97)) ++
          10 :: (bytes "🟢" ++ List.replicate 500 97)) ++ pageFooter plainPrinter 2 1,
       header ++ (List.replicate 500 122 ++ bytes " | 2004-03-23 | Unknown |  | 2004-03-24") ++
        pageFooter plainPrinter 2 1] := by
  have hmax : discordMaxMsgLen - ((header ++ pageFooter plainPrinter 2 1).length : Int) = 1926 := by
    decide
  have hn : bytes "\n" = [10] := by decide
  have h1 : (bytes "🟢").length = 4 := by decide
  have h2 : (bytes " | 2004-03-23 | Unknown |  | 2004-03-24").length = 39 := by decide
  have hl1 := gameLine_crackedGame_length plainPrinter (List.replicate 1000 97)
  rw [List.length_replicate] at hl1
  have hfree : ∀ b ∈ List.replicate 500 122 ++ bytes " | 2004-03-23 | Unknown |  | 2004-03-24",
      b ≠ 10 := by
    intro b hb
    rcases List.mem_append.mp hb with h | h
    · rw [(List.mem_replicate.mp h).2]
      decide
    · have : ∀ x ∈ bytes " | 2004-03-23 | Unknown |  | 2004-03-24", x ≠ 10 := by decide
      exact this b h
  have hmsg : Join ([crackedGame (List.replicate 1000 97),
      crackedGame (List.replicate 500 97 ++ 10 :: List.replicate 500 122)].map
        (gameLine plainPrinter)) (bytes "\n") =
      (gameLine plainPrinter (crackedGame (List.replicate 1000 97)) ++
          10 :: (bytes "🟢" ++ List.replicate 500 97)) ++
        10 :: (List.replicate 500 122 ++ bytes " | 2004-03-23 | Unknown |  | 2004-03-24") := by
    rw [hn]
    simp only [List.map_cons, List.map_nil, Join]
    rw [gameLine_crackedGame plainPrinter (List.replicate 500 97 ++ 10 :: List.replicate 500 122)]
    simp only [List.append_assoc, List.cons_append, List.singleton_append, List.nil_append]
  rw [resultsToDiscordChunks_eq, hmax, hmsg]
  exact chunkLoop_two_parts _ _ _ _
    (by rw [List.length_append, List.length_cons, List.length_append, List.length_replicate,
      hl1, h1]; omega)
    (by rw [List.length_append, List.length_replicate, h2]; omega)
    (by rw [List.length_append, List.length_cons, List.length_append, List.length_append,
      List.length_replicate, List.length_replicate, hl1, h1, h2]; omega) hfree

set_option maxRecDepth 100000 in
/-- C21 (counterexample): for a cracked game with a name of 1000 bytes followed
by a cracked game whose name holds a newline between two stretches of 500
bytes, `resultsToDiscordChunks` returns two chunks, the text cut at the
newline of the second name; the line of the second game fits the budget of a
message, and it is found whole in neither chunk. -/
theorem C21_line_cut_inside_name :
    resultsToDiscordChunks plainPrinter
      ⟨2, [crackedGame (List.replicate 1000 97),
        crackedGame (List.replicate 500 97 ++ 10 :: List.replicate 500 122)]⟩ 1 =
    .returned
      [header ++ (gameLine plainPrinter (crackedGame (List.replicate 1000 97)) ++
          10 :: (bytes "🟢" ++ List.replicate 500 97)) ++ pageFooter plainPrinter 2 1,
       header ++ (List.replicate 500 122 ++ bytes " | 2004-03-23 | Unknown |  | 2004-03-24") ++
        pageFooter plainPrinter 2 1] ∧
    (gameLine plainPrinter
      (crackedGame (List.replicate 500 97 ++ 10 :: List.replicate 500 122))).length = 1044 ∧
    ∀ c ∈ [header ++ (gameLine plainPrinter (crackedGame (List.replicate 1000 97)) ++
          10 :: (bytes "🟢" ++ List.replicate 500 97)) ++ pageFooter plainPrinter 2 1,
       header ++ (List.replicate 500 122 ++ bytes " | 2004-03-23 | Unknown |  | 2004-03-24") ++
        pageFooter plainPrinter 2 1],
      ¬ gameLine plainPrinter
        (crackedGame (List.replicate 500 97 ++ 10 :: List.replicate 500 122)) <:+: c := by
  have hlen : (gameLine plainPrinter
      (crackedGame (List.replicate 500 97 ++ 10 :: List.replicate 500 122))).length = 1044 := by
    rw [gameLine_crackedGame_length, List.length_append, List.length_cons, List.length_replicate,
      List.length_replicate]
  refine ⟨newline_name_chunks, hlen, ?_⟩
  intro c hc hin
  rcases List.mem_cons.mp hc with rfl | hc
  · have hz : (122 : UInt8) ∈ gameLine plainPrinter
        (crackedGame (List.replicate 500 97 ++ 10 :: List.replicate 500 122)) := by
      rw [gameLine_crackedGame]
      exact List.mem_append_left _ (List.mem_append_right _ (List.mem_append_right _
        (List.mem_cons_of_mem _ (List.mem_replicate.mpr ⟨by decide, rfl⟩))))
    have hmem := hin.subset hz
    have hh : (122 : UInt8) ∉ header := by decide
    have hf : (122 : UInt8) ∉ pageFooter plainPrinter 2 1 := by decide
    have hg : (122 : UInt8) ∉ bytes "🟢" := by decide
    have ht : (122 : UInt8) ∉ bytes " | 2004-03-23 | Unknown |  | 2004-03-24" := by decide
    have ha : ∀ n, (122 : UInt8) ∉ List.replicate n 97 :=
      fun n h => absurd (List.mem_replicate.mp h).2 (by decide)
    rw [gameLine_crackedGame] at hmem
    simp only [List.mem_append, List.mem_cons, hh, hf, hg, ht, ha, false_or, or_false] at hmem
    exact absurd hmem (by decide)
  · rw [List.mem_singleton.mp hc] at hin
    have hle := hin.length_le
    have hh : header.length = 62 := by decide
    have hf : (pageFooter plainPrinter 2 1).length = 12 := by decide
    have h2 : (bytes " | 2004-03-23 | Unknown |  | 2004-03-24").length = 39 := by decide
    rw [hlen, List.length_append, List.length_append, List.length_append, List.length_replicate,
      hh, hf, h2] at hle
    omega

/-- C21 (amended): whenever `resultsToDiscordChunks` returns, every chunk is
a body between the header and the footer, and the bodies joined by newlines
are the full rendered text, the lines of the games joined by newlines. When
moreover no line of a game holds a newline, the chunks hold consecutive
groups of games that make up the list of games in its order, the body of a
chunk being the whole lines of the games of its group joined by newlines; no
group is empty unless there is no game at all. -/
theorem C21_chunks_keep_text (pr : Printer) (searchResults : SearchResults) (pageNum : Int)
    (chunks : List GoString)
    (h : resultsToDiscordChunks pr searchResults pageNum = .returned chunks) :
    (∀ c ∈ chunks, c = header ++ chunkBody (pageFooter pr searchResults.Num pageNum) c ++
      pageFooter pr searchResults.Num pageNum) ∧
    Join (chunks.map (chunkBody (pageFooter pr searchResults.Num pageNum))) (bytes "\n") =
      Join (searchResults.Games.map (gameLine pr)) (bytes "\n") ∧
    ((∀ game ∈ searchResults.Games, ∀ b ∈ gameLine pr game, b ≠ 10) →
      ∃ groups : List (List Game), groups.flatten = searchResults.Games ∧
        (searchResults.Games ≠ [] → ∀ g ∈ groups, g ≠ []) ∧
        chunks = groups.map fun g =>
          header ++ Join (g.map (gameLine pr)) (bytes "\n") ++
            pageFooter pr searchResults.Num pageNum) := by
  have hn : bytes "\n" = [10] := by decide
  rw [resultsToDiscordChunks_eq] at h
  obtain ⟨bodies, _, hout, hjoin⟩ := chunkLoop_bodies _ _ _ _ _ _ h
  rw [List.nil_append] at hout
  refine ⟨?_, ?_, ?_⟩
  · intro c hc
    rw [hout] at hc
    obtain ⟨body, _, rfl⟩ := List.mem_map.mp hc
    rw [chunkBody_wrap]
  · have hb : chunks.map (chunkBody (pageFooter pr searchResults.Num pageNum)) = bodies := by
      rw [hout, List.map_map]
      have : (chunkBody (pageFooter pr searchResults.Num pageNum) ∘
          fun body => header ++ body ++ pageFooter pr searchResults.Num pageNum) = id := by
        funext body
        exact chunkBody_wrap _ body
      rw [this, List.map_id]
    rw [hb, hjoin]
  · intro hfree
    rw [hn] at h ⊢
    obtain ⟨groups, hflat, hne, hgroups⟩ := chunkLoop_groups _ _ _ _ _ _
      (fun l hl b hb => by
        obtain ⟨game, hgame, rfl⟩ := List.mem_map.mp hl
        exact hfree game hgame b hb) h
    obtain ⟨parts, hparts, hmap⟩ := flatten_map_groups (gameLine pr) groups _ hflat
    refine ⟨parts, hparts, ?_, ?_⟩
    · intro hgames g hg hnil
      have hmem : g.map (gameLine pr) ∈ groups := by
        rw [← hmap]
        exact List.mem_map_of_mem _ hg
      refine hne ?_ _ hmem (by rw [hnil]; rfl)
      intro hm
      exact hgames (List.map_eq_nil_iff.mp hm)
    · rw [hgroups, ← hmap, List.nil_append, List.map_map]
      rfl

/-- C21 (witness): two cracked games with names of 1000 bytes each give two
chunks; the bodies of the two chunks joined by a newline are the two lines
joined by a newline, and the chunks hold groups of games that make up the
list of the two games. -/
theorem C21_chunks_keep_text_witness :
    resultsToDiscordChunks plainPrinter
      ⟨2, [crackedGame (List.replicate 1000 97), crackedGame (List.replicate 1000 98)]⟩ 1 =
    .returned
      [header ++ gameLine plainPrinter (crackedGame (List.replicate 1000 97)) ++
        pageFooter plainPrinter 2 1,
       header ++ gameLine plainPrinter (crackedGame (List.replicate 1000 98)) ++
        pageFooter plainPrinter 2 1] ∧
    Join ([header ++ gameLine plainPrinter (crackedGame (List.replicate 1000 97)) ++
        pageFooter plainPrinter 2 1,
       header ++ gameLine plainPrinter (crackedGame (List.replicate 1000 98)) ++
        pageFooter plainPrinter 2 1].map (chunkBody (pageFooter plainPrinter 2 1))) (bytes "\n") =
      Join ([crackedGame (List.replicate 1000 97), crackedGame (List.replicate 1000 98)].map
        (gameLine plainPrinter)) (bytes "\n") ∧
    ∃ groups : List (List Game),
      groups.flatten =
        [crackedGame (List.replicate 1000 97), crackedGame (List.replicate 1000 98)] ∧
      [header ++ gameLine plainPrinter (crackedGame (List.replicate 1000 97)) ++
        pageFooter plainPrinter 2 1,
       header ++ gameLine plainPrinter (crackedGame (List.replicate 1000 98)) ++
        pageFooter plainPrinter 2 1] = groups.map fun g =>
          header ++ Join (g.map (gameLine plainPrinter)) (bytes "\n") ++
            pageFooter plainPrinter 2 1 := by
  have h := C21_chunks_keep_text plainPrinter
    ⟨2, [crackedGame (List.replicate 1000 97), crackedGame (List.replicate 1000 98)]⟩ 1 _
    two_long_names_chunks
  refine ⟨two_long_names_chunks, h.2.1, ?_⟩
  have hfree : ∀ game ∈ [crackedGame (List.replicate 1000 97),
      crackedGame (List.replicate 1000 98)], ∀ b ∈ gameLine plainPrinter game, b ≠ 10 := by
    intro game hgame
    rcases List.mem_cons.mp hgame with rfl | hgame
    · exact gameLine_crackedGame_no_newline _ _ (fun b hb => by
        rw [(List.mem_replicate.mp hb).2]
        decide)
    · rw [List.mem_singleton.mp hgame]
      exact gameLine_crackedGame_no_newline _ _ (fun b hb => by
        rw [(List.mem_replicate.mp hb).2]
        decide)
  obtain ⟨groups, hflat, _, hchunks⟩ := h.2.2 hfree
  exact ⟨groups, hflat, hchunks⟩

/-! ### Evaluations -/

example : Time.UnmarshalJSON (bytes "null") = .returned (Time.zero, none) := by decide
example : Time.UnmarshalJSON (bytes "") = .returned (Time.zero, none) := by decide
example : Time.UnmarshalJSON (bytes "\"2015-02-30\"") = .returned (Time.zero, none) := by decide
example : Time.UnmarshalJSON (bytes "\"2015-02-28T10:00:00.000Z\"") =
    .returned (⟨2015, 2, 28, 0, 0, 0⟩, none) := by decide
example : (bytes "2015年1月").length = 11 := by decide
example : NormalizeDRMNames id [bytes "steam"] = bytes "Steam" := by decide
example : NormalizeDRMNames id [] = bytes "Unknown" := by decide
example : NormalizeDRMNames id [bytes "n/a"] = bytes "Unknown" := by decide
example : NormalizeDRMNames id [bytes "steam", bytes "n/a"] = bytes "Steam" := by decide
example : NormalizeDRMNames id [bytes "n/a", bytes "n/a"] = bytes "Unknown" := by decide
example : resultPrefix.length = 22 := by decide
example : badRequestFrame.length = 51 := by decide
example : TrimSpace (bytes "  a b\t\u00a0\u3000") = bytes "a b" := by decide
example : Itoa (-12) = bytes "-12" := by decide
set_option maxRecDepth 100000 in
example : searchQueryFrame (bytes "far cry") (Itoa 0) defaultOptions
  = bytes "[\"\x7b\\\"msg\\\":\\\"method\\\",\\\"method\\\":\\\"games.page\\\",\\\"params\\\":[\x7b\\\"page\\\":0,\\\"orderType\\\":\\\"title\\\",\\\"orderDown\\\":false,\\\"search\\\":\\\"far cry\\\",\\\"unset\\\":0,\\\"released\\\":0,\\\"cracked\\\":0,\\\"isAAA\\\":0\x7d],\\\"id\\\":\\\"1\\\"\x7d\"]" := by decide

example : Time.Format ⟨2015, 2, 28, 0, 0, 0⟩ = bytes "2015-02-28" := by decide
example : Time.Format ⟨12015, 12, 1, 0, 0, 0⟩ = bytes "12015-12-01" := by decide
example : Time.Format Time.zero = bytes "0001-01-01" := by decide
example : Time.UnmarshalJSON (bytes "\"2016-02-29T12:34:56.000Z\"") =
    .returned (⟨2016, 2, 29, 0, 0, 0⟩, none) := by decide

example : parseDate (bytes "2015-02-29") = none := by decide
example : parseDate (bytes "2016-02-29") = some ⟨2016, 2, 29, 0, 0, 0⟩ := by decide
example : parseDate (bytes "2015-13-01") = none := by decide
example : parseDate (bytes "2015-01-00") = none := by decide
example : parseDate (bytes "abcdefghij") = none := by decide

example : englishNumber 1234567 = bytes "1,234,567" := by decide
example : englishNumber 123 = bytes "123" := by decide
example : englishNumber (-1000) = bytes "-1,000" := by decide
example : LastIndex (bytes "ab\ncd\nef") (bytes "\n") = 5 := by decide
example : LastIndex (bytes "abcdef") (bytes "\n") = -1 := by decide
set_option maxRecDepth 1000000 in
example : resultsToDiscordChunks plainPrinter ⟨31, [sampleGame, ⟨bytes "Doom", Time.zero, [], [], Time.zero, 1234⟩]⟩ 1 =
  .returned [bytes "```Game Name | Release Date | DRM | Cracked By | Date Cracked\n🟢Far Cry | 2004-03-23 | SafeDisc | DEViANCE | 2004-03-24\n🛑\"Doom\" has 1,234 people waiting for a crack!\nPage 1/2```"] := by decide

example : pageFooter plainPrinter 2 1 = bytes "\nPage 1/1```" := by decide
example : pageFooter plainPrinter 31 2 = bytes "\nPage 2/2```" := by decide
example : header.length = 62 := by decide
example : chunkBody (bytes "\nPage 1/1```") (header ++ bytes "abc" ++ bytes "\nPage 1/1```") =
    bytes "abc" := by decide
example : Join [bytes "ab", bytes "", bytes "c"] (bytes "\n") = bytes "ab\n\nc" := by decide

end CrackWatch
